import Mathlib

set_option maxRecDepth 8192

/-!
# Verification of the workflow model-discovery engine

A shallow embedding, in Lean 4, of the missing-asset resolution engine of
the repository (`model_discovery.py` and `parse_link.py`): graph-reference
extraction, reference reconciliation (variant coalescing, precision
normalization, dedup), local-existence checking, and the budgeted
remote-search pipeline.

Modelling conventions:
* Python strings are Lean `String`; the handful of Python string operations
  used by the source (`lower`, `strip`, `split`, `os.path.basename`,
  `os.path.splitext`, …) are re-implemented below on `List Char` so that all
  definitions compute by kernel reduction.
* Python `None`-able values are `Option`; Python truthiness on maybe-strings
  (`if not value`) is `optTruthy` below (absent, `None` and `""` are falsy).
* Wall-clock times (`time.time()`) are modelled as `Nat`; machine floats are
  not needed since the source only compares timestamps.
* Filesystem and network collaborators (`folder_paths`, `os.walk`,
  `HfApi.list_models`, `HfApi.list_repo_files`, HTTP probes, the settings
  token) are modelled as explicit oracle parameters, matching the
  collaborator interfaces of the specification.
-/

namespace ModelDiscovery

/-- ASCII lower-casing of a character (Python `str.lower` on ASCII input). -/
def lowerChar (c : Char) : Char :=
  if 'A' ≤ c ∧ c ≤ 'Z' then Char.ofNat (c.toNat + 32) else c

/-- Python `str.lower` (ASCII). -/
def pyLower (s : String) : String := ⟨s.data.map lowerChar⟩

/-- Python whitespace for `str.strip()`. -/
def pyIsWs (c : Char) : Bool :=
  c = ' ' ∨ c = '\t' ∨ c = '\n' ∨ c = '\r' ∨ c = '\x0b' ∨ c = '\x0c'

/-- Python `str.strip()` (no arguments: strips whitespace from both ends). -/
def pyStrip (s : String) : String :=
  ⟨((s.data.dropWhile pyIsWs).reverse.dropWhile pyIsWs).reverse⟩

/-- Python `str.strip("/")`. -/
def pyStripSlash (s : String) : String :=
  ⟨((s.data.dropWhile (· = '/')).reverse.dropWhile (· = '/')).reverse⟩

/-- Replace every occurrence of one character by another
(Python `str.replace` as used by the source, always on 1-char patterns). -/
def pyReplaceChar (a b : Char) (s : String) : String :=
  ⟨s.data.map (fun c => if c = a then b else c)⟩

/-- `value.replace("\\", "/")` — the slash normalization used throughout. -/
def normSlash (s : String) : String := pyReplaceChar '\\' '/' s

/-- Python `str.split(sep)` with a one-character separator. -/
def splitCharList (sep : Char) : List Char → List (List Char)
  | [] => [[]]
  | c :: cs =>
    let r := splitCharList sep cs
    if c = sep then [] :: r
    else
      match r with
      | [] => [[c]]
      | h :: t => (c :: h) :: t

/-- Python `str.split(sep)` on strings. -/
def pySplit (sep : Char) (s : String) : List String :=
  (splitCharList sep s.data).map (fun cs => ⟨cs⟩)

/-- `split` always returns a nonempty list; its last element (Python `[-1]`). -/
def pySplitLast (sep : Char) (s : String) : String :=
  (pySplit sep s).getLastD ""

/-- Python `str.split(sep)[0]`. -/
def pySplitHead (sep : Char) (s : String) : String :=
  (pySplit sep s).headD ""

/-- Boolean prefix test on strings (Python `str.startswith`). -/
def pyStarts (pre s : String) : Bool := List.isPrefixOf pre.data s.data

/-- Boolean suffix test on strings (Python `str.endswith`). -/
def pyEnds (suf s : String) : Bool := List.isSuffixOf suf.data s.data

/-- Substring containment on character lists. -/
def containsSubAux (needle : List Char) : List Char → Bool
  | [] => List.isPrefixOf needle []
  | c :: cs => List.isPrefixOf needle (c :: cs) || containsSubAux needle cs

/-- Python `needle in hay` on strings. -/
def pyIn (needle hay : String) : Bool := containsSubAux needle.data hay.data

/-- Python `c in s` for a single character. -/
def pyInChar (c : Char) (s : String) : Bool := s.data.contains c

/-- Last index at which `p` holds (Python `str.rfind` generalized). -/
def rfindIdx (p : Char → Bool) (cs : List Char) : Option Nat :=
  (List.range cs.length).foldl
    (fun acc i => match cs.get? i with
      | some c => if p c then some i else acc
      | none => acc)
    none

/-- `os.path.basename` (posix): the part after the last `/`. -/
def pyBasename (s : String) : String := pySplitLast '/' s

/-- `os.path.splitext` (posix rule: split at the last dot of the basename,
unless the basename consists only of leading dots up to that point). -/
def pySplitext (p : String) : String × String :=
  let cs := p.data
  match rfindIdx (· = '.') cs with
  | none => (p, "")
  | some di =>
    let si : Nat := match rfindIdx (· = '/') cs with
      | none => 0
      | some j => j + 1
    if si ≤ di ∧ ((cs.drop si).take (di - si)).any (· ≠ '.') then
      (⟨cs.take di⟩, ⟨cs.drop di⟩)
    else (p, "")

/-- Python truthiness for an optional string: `None` and `""` are falsy. -/
def optTruthy : Option String → Bool
  | none => false
  | some s => s ≠ ""

/-- `value or ""` on an optional string. -/
def orEmpty : Option String → String
  | none => ""
  | some s => s

/-- Known extensions for model files (`MODEL_EXTENSIONS`). -/
def MODEL_EXTENSIONS : List String :=
  [".safetensors", ".ckpt", ".pt", ".bin", ".pth", ".gguf"]

/-- `any(s.endswith(ext) for ext in MODEL_EXTENSIONS)` (case-sensitive). -/
def endsWithModelExt (s : String) : Bool :=
  MODEL_EXTENSIONS.any (fun e => pyEnds e s)

/-- `any(s.lower().endswith(ext) for ext in MODEL_EXTENSIONS)`. -/
def endsWithModelExtLower (s : String) : Bool :=
  MODEL_EXTENSIONS.any (fun e => pyEnds e (pyLower s))

/-- `normalize_filename_key`: basename of the slash-normalized name,
stripped and lower-cased. -/
def normalize_filename_key (name : String) : String :=
  pyLower (pyStrip (pyBasename (normSlash name)))

/-- `normalize_filename_compact`: the key with `-`/`_` runs removed. -/
def normalize_filename_compact (name : String) : String :=
  ⟨(normalize_filename_key name).data.filter (fun c => ¬ (c = '-' ∨ c = '_'))⟩

/-- `split_model_identifier`: returns `(basename, normalized-path)`;
an all-whitespace value yields `("", None)`. -/
def split_model_identifier (value : String) : String × Option String :=
  let normalized := pyStrip (normSlash value)
  if normalized = "" then ("", none)
  else (pyBasename normalized, some normalized)

/-- `_is_nunchaku_svdq_name`: the lowered name contains `svdq-` and one of
`int4`/`fp4`. -/
def isNunchakuSvdqName : Option String → Bool
  | none => false
  | some v =>
    let lowered := pyLower v
    pyIn "svdq-" lowered ∧ (pyIn "int4" lowered ∨ pyIn "fp4" lowered)

/-- Character class `[a-z0-9]` under `re.IGNORECASE`
(used by the boundary lookarounds of `_swap_nunchaku_precision`). -/
def isAlnumLower (c : Char) : Bool :=
  ('a' ≤ c ∧ c ≤ 'z') ∨ ('A' ≤ c ∧ c ≤ 'Z') ∨ ('0' ≤ c ∧ c ≤ '9')

/-- Case-insensitive token replacement with `(?<![a-z0-9]) … (?![a-z0-9])`
boundaries: emulates `re.sub` for the fixed tokens of
`_swap_nunchaku_precision`.  `prev` is the character preceding the current
position (`none` at the start of the string). -/
def swapTokenAux (tok : List Char) (rep : List Char) :
    Nat → Option Char → List Char → List Char
  | 0, _, cs => cs
  | _ + 1, _, [] => []
  | fuel + 1, prev, c :: cs =>
    let notAfterAlnum : Bool := match prev with
      | none => true
      | some p => ! isAlnumLower p
    let rest := c :: cs
    if tok ≠ [] ∧ notAfterAlnum ∧ List.isPrefixOf tok (rest.map lowerChar) then
      let after := rest.drop tok.length
      let okAfter : Bool := match after with
        | [] => true
        | a :: _ => ! isAlnumLower a
      if okAfter then
        rep ++ swapTokenAux tok rep fuel tok.getLast? after
      else
        c :: swapTokenAux tok rep fuel (some c) cs
    else
      c :: swapTokenAux tok rep fuel (some c) cs

/-- `_swap_nunchaku_precision`: rewrite standalone `int4` ↔ `fp4` tokens to
the target precision; any other target leaves the value unchanged. -/
def swap_nunchaku_precision (value : String) (target : String) : String :=
  if value = "" then value
  else if target = "fp4" then
    ⟨swapTokenAux "int4".data "fp4".data value.data.length none value.data⟩
  else if target = "int4" then
    ⟨swapTokenAux "fp4".data "int4".data value.data.length none value.data⟩
  else value

/-- `_is_nunchaku_extensionless_identifier`. -/
def isNunchakuExtensionlessIdentifier : Option String → Bool
  | none => false
  | some v =>
    let base := pyBasename (normSlash v)
    isNunchakuSvdqName (some base) ∧ (pySplitext base).2 = ""

/-- One bounded-token occurrence test: the token occurs in `cs` preceded by
start-of-string or `-`/`_`, and followed by end-of-string or `-`/`_`
(the `(^|[-_]) tok ($|[-_])` shape of `is_quant_variant_filename`). -/
def boundedTokenAux (tok : List Char) : Bool → List Char → Bool
  | atBoundary, [] => atBoundary && tok.isEmpty
  | atBoundary, c :: cs =>
    (atBoundary && List.isPrefixOf tok (c :: cs) &&
      (match (c :: cs).drop tok.length with
        | [] => true
        | a :: _ => a == '-' || a == '_')) ||
    boundedTokenAux tok (c == '-' || c == '_') cs

/-- The token occurs with `[-_]`/string-end boundaries somewhere in `s`. -/
def hasBoundedToken (tok : String) (s : String) : Bool :=
  boundedTokenAux tok.data true s.data

/-- `is_quant_variant_filename`: the lowered stem contains one of the
quantization tokens with `[-_]` boundaries (the five patterns of the
source, with `fp8[-_]?e4m3fn` expanded into its three spellings). -/
def is_quant_variant_filename (filename : String) : Bool :=
  let name := (pySplitext (pyLower filename)).1
  ["fp8e4m3fn", "fp8-e4m3fn", "fp8_e4m3fn",
   "fp16", "fp32", "fp8", "fp4", "bf16", "nf4", "int8", "int4"].any
    (fun tok => hasBoundedToken tok name)

/-- Strip one end-anchored `[-_]?tok` suffix, trying the alternatives in
order (one `re.sub(r"[-_]?tok$", "", base)` of `canonicalize_model_base`). -/
def stripQuantSuffix (toks : List String) (s : String) : String :=
  match toks.find? (fun t => pyEnds t s) with
  | none => s
  | some t =>
    let s1 : List Char := s.data.take (s.data.length - t.data.length)
    match s1.getLast? with
    | some c => if c = '-' ∨ c = '_' then ⟨s1.dropLast⟩ else ⟨s1⟩
    | none => ⟨s1⟩

/-- Strip an end-anchored `[-_]?fp8[-_]?e4m3fn` suffix (the first rewrite of
`canonicalize_model_base`). -/
def stripFp8E4m3fn (s : String) : String :=
  if pyEnds "e4m3fn" s then
    let s1 : List Char := s.data.take (s.data.length - 6)
    let s2 : List Char := match s1.getLast? with
      | some c => if c = '-' ∨ c = '_' then s1.dropLast else s1
      | none => s1
    if List.isSuffixOf "fp8".data s2 then
      let s3 := s2.take (s2.length - 3)
      match s3.getLast? with
      | some c => if c = '-' ∨ c = '_' then ⟨s3.dropLast⟩ else ⟨s3⟩
      | none => ⟨s3⟩
    else s
  else s

/-- `canonicalize_model_base`: lower-cased stem with the known quantization
suffixes stripped, in the source's rewrite order. -/
def canonicalize_model_base (filename : String) : String :=
  let base := (pySplitext (pyLower filename)).1
  let base := stripFp8E4m3fn base
  let base := stripQuantSuffix ["fp16", "fp32", "fp8", "fp4"] base
  let base := stripQuantSuffix ["bf16"] base
  let base := stripQuantSuffix ["nf4"] base
  let base := stripQuantSuffix ["int8", "int4"] base
  base

/-- A quantized-variant suggestion
(the dictionaries built by `find_quantized_alternatives`). -/
structure AltEntry where
  filename : String
  url : Option String
  source : String
  suggestedFolder : Option String
  hfRepo : Option String
  hfPath : Option String
deriving DecidableEq, Repr

/-- One candidate model reference: the dictionaries flowing through
`extract_models_from_workflow`, the reconciliation steps of
`process_workflow_for_missing_models` and `check_model_files`.
Optional fields model dictionary keys that may be absent or `None`. -/
structure MEntry where
  filename : Option String
  requestedPath : Option String
  url : Option String
  nodeId : Option Int
  nodeTitle : Option String
  suggestedFolder : Option String
  origin : Option String
  source : Option String
  note : Option String
  hfRepo : Option String
  hfPath : Option String
  nunchakuPrecision : Option String
  alternatives : Option (List AltEntry)
deriving DecidableEq, Repr

/-- The all-absent reference, a base for concrete examples. -/
def E0 : MEntry :=
  ⟨none, none, none, none, none, none, none, none, none, none, none, none, none⟩

/-- `_normalize_dedupe_path`. -/
def normalizeDedupePath (v : Option String) : String :=
  if optTruthy v then pyStripSlash (normSlash (orEmpty v)) else ""

/-- `_score_entry`. -/
def scoreEntry (e : MEntry) : Nat :=
  (if optTruthy e.url then 10 else 0) +
  (if optTruthy e.nodeTitle ∧
      pyIn "hugging face download model" (pyLower (orEmpty e.nodeTitle)) then 5 else 0) +
  (if pyInChar '/' (normalizeDedupePath e.requestedPath) then 4 else 0) +
  (if optTruthy e.suggestedFolder then 2 else 0) +
  (if e.origin ≠ some "proxy_widget" then 1 else 0)

/-- `_variant_group_key`: `None` for blank filenames, otherwise
`(node_id, folder_key, canonical_stem + extension)`. -/
def variantKey (e : MEntry) : Option (Option Int × String × String) :=
  let filename := pyStrip (orEmpty e.filename)
  if filename = "" then none
  else
    let normalizedName := pyLower (pyBasename (normSlash filename))
    let se := pySplitext normalizedName
    let canonical := canonicalize_model_base normalizedName
    let canonicalStem := if canonical = "" then se.1 else canonical
    some (e.nodeId, normalizeDedupePath e.suggestedFolder, canonicalStem ++ se.2)

/-- The canonical `stem + extension` component of `_variant_group_key`,
as a function of the filename field alone. -/
def canonicalName (fn : Option String) : String :=
  let filename := pyStrip (orEmpty fn)
  let normalizedName := pyLower (pyBasename (normSlash filename))
  let se := pySplitext normalizedName
  let canonical := canonicalize_model_base normalizedName
  (if canonical = "" then se.1 else canonical) ++ se.2

/-- `_prefer_entry_for_variant_group`: `(score, non-quant bonus, path length)`. -/
def preferVariantKey (e : MEntry) : Nat × Nat × Nat :=
  let filename := pyLower (orEmpty e.filename)
  (scoreEntry e,
   if filename ≠ "" ∧ ¬ is_quant_variant_filename filename then 1 else 0,
   (normalizeDedupePath e.requestedPath).length)

/-- Strict lexicographic comparison of score triples (Python tuple `>`). -/
def tripleGt (a b : Nat × Nat × Nat) : Bool :=
  a.1 > b.1 ∨ (a.1 = b.1 ∧ (a.2.1 > b.2.1 ∨ (a.2.1 = b.2.1 ∧ a.2.2 > b.2.2)))

/-- Python `max(group, key=f)`: first maximal element wins ties. -/
def pickMaxFirst (f : MEntry → Nat × Nat × Nat) (e : MEntry) (es : List MEntry) : MEntry :=
  es.foldl (fun b c => if tripleGt (f c) (f b) then c else b) e

/-- Stable insertion for a descending sort by normalized-path length
(Python `list.sort(key=lambda item: len(item[1]), reverse=True)`). -/
def insertByLenDesc (x : String × String) :
    List (String × String) → List (String × String)
  | [] => [x]
  | y :: ys =>
    if y.2.length ≤ x.2.length then x :: y :: ys else y :: insertByLenDesc x ys

/-- Stable descending sort by normalized-path length. -/
def sortByLenDesc (l : List (String × String)) : List (String × String) :=
  l.foldr insertByLenDesc []

/-- URL donation of the variant-group merge: when the winner has no URL,
copy the first loser's URL (and its source, when set). -/
def mergeUrlDonation (g : List MEntry) (best : MEntry) : MEntry :=
  if optTruthy best.url then best else
  match g.find? (fun c => optTruthy c.url) with
  | some cand =>
    { best with url := cand.url,
                source := if optTruthy cand.source then cand.source else best.source }
  | none => best

/-- Folder donation of the variant-group merge. -/
def mergeFolderDonation (g : List MEntry) (m1 : MEntry) : MEntry :=
  if optTruthy m1.suggestedFolder then m1 else
  match g.find? (fun c => optTruthy c.suggestedFolder) with
  | some cand => { m1 with suggestedFolder := cand.suggestedFolder }
  | none => m1

/-- Requested-path choice for a merged group: `none` when no member has a
normalized requested path, otherwise the longest normalized candidate
(stable sort), preferring a basename that differs from the target
filename. -/
def mergeRequestedPick (targetName : String)
    (requestedCandidates : List (String × String)) : Option String :=
  if requestedCandidates ≠ [] then
    let sorted := sortByLenDesc requestedCandidates
    some (match sorted.find? (fun p =>
        let basename := pyLower (pyBasename p.2)
        basename ≠ "" ∧ basename ≠ targetName) with
      | some p => p.1
      | none => (sorted.headD ("", "")).1)
  else none

/-- Requested-path selection of the variant-group merge. -/
def mergeRequestedPath (g : List MEntry) (m2 : MEntry) : MEntry :=
  match mergeRequestedPick (pyLower (orEmpty m2.filename))
      (g.filterMap (fun c =>
        let normalized := normalizeDedupePath c.requestedPath
        if normalized ≠ "" then some (orEmpty c.requestedPath, normalized) else none)) with
  | some preferred => { m2 with requestedPath := some preferred }
  | none => m2

/-- Merging one variant group of two or more references (the body of the
`len(group) > 1` case in the variant-coalescing loop). -/
def mergeVariantGroup (e : MEntry) (es : List MEntry) : MEntry :=
  let g := e :: es
  mergeRequestedPath g (mergeFolderDonation g (mergeUrlDonation g
    (pickMaxFirst preferVariantKey e es)))

/-- Key list in Python-dict insertion order (first occurrences kept). -/
def dedupFirst {κ : Type} [DecidableEq κ] : List κ → List κ
  | [] => []
  | k :: ks => k :: (dedupFirst ks).filter (fun x => x ≠ k)

/-- All elements of `l` whose key is `k`, in order (one dict group). -/
def bucket {α κ : Type} [DecidableEq κ] (f : α → κ) (l : List α) (k : κ) : List α :=
  l.filter (fun e => f e = k)

/-- Per-group output of the variant-coalescing loop: a singleton group is
passed through, a larger group is merged into one reference. -/
def coalesceGroup : List MEntry → List MEntry
  | [] => []
  | [e] => [e]
  | e :: es => [mergeVariantGroup e es]

/-- Reconciliation step 1, variant coalescing: blank-name references pass
through; the rest are grouped by `variantKey` (dict insertion order) and
each group contributes one reference. -/
def coalesceStep (l : List MEntry) : List MEntry :=
  let passthrough := l.filter (fun e => variantKey e = none)
  let withKey := l.filter (fun e => variantKey e ≠ none)
  let ks := dedupFirst (withKey.map variantKey)
  passthrough ++ (ks.map (fun k => coalesceGroup (bucket variantKey withKey k))).flatten

/-- The `(node_id, filename.lower())` key of the per-node dedup step. -/
def nameKey (e : MEntry) : Option Int × String := (e.nodeId, pyLower (orEmpty e.filename))

/-- The normalized `suggested_folder` key of the per-node dedup step. -/
def folderKey (e : MEntry) : String := normalizeDedupePath e.suggestedFolder

/-- Best entry of one folder subgroup: highest `scoreEntry`, ties broken by
a strictly longer normalized `requested_path`. -/
def pickBestDedup : List MEntry → List MEntry
  | [] => []
  | e :: es =>
    [es.foldl (fun best cand =>
      if scoreEntry cand > scoreEntry best then cand
      else if scoreEntry cand = scoreEntry best ∧
          (normalizeDedupePath cand.requestedPath).length >
            (normalizeDedupePath best.requestedPath).length then cand
      else best) e]

/-- One `nameKey` class of the per-node dedup: split by `folderKey`
(dropping the empty-folder subgroup when another subgroup exists) and keep
the best entry of each subgroup. -/
def dedupClassOut (keep : List MEntry) (nk : Option Int × String) : List MEntry :=
  let g := bucket nameKey keep nk
  let fks := dedupFirst (g.map folderKey)
  let fks2 := if fks.length > 1 ∧ "" ∈ fks then fks.filter (fun x => x ≠ "") else fks
  (fks2.map (fun fk => pickBestDedup (bucket folderKey g fk))).flatten

/-- Reconciliation step 3, per-`(node, filename)` dedup: group by
`nameKey` (dropping falsy filenames), split each group by `folderKey`. -/
def dedupStep (l : List MEntry) : List MEntry :=
  let keep := l.filter (fun e => pyLower (orEmpty e.filename) ≠ "")
  ((dedupFirst (keep.map nameKey)).map (dedupClassOut keep)).flatten

/-- Reconciliation step 2 on one entry, Nunchaku SVDQ precision
normalization: rewrite the filename to the preferred precision and drop the
stale URL metadata. -/
def precisionAdjust (pref : String) (e : MEntry) : MEntry :=
  if ¬ isNunchakuSvdqName e.filename then e
  else
    let currentName := orEmpty e.filename
    let targetName := swap_nunchaku_precision currentName pref
    if targetName = "" ∨ targetName = currentName then e
    else
      { e with
        requestedPath := if optTruthy e.requestedPath then e.requestedPath else some currentName,
        filename := some targetName,
        nunchakuPrecision := some pref,
        source := some "nunchaku_precision_adjusted",
        url := none, hfRepo := none, hfPath := none }

/-- Reconciliation step 2 over the whole list. -/
def precisionStep (pref : String) (l : List MEntry) : List MEntry :=
  l.map (precisionAdjust pref)

/-- The `(filename, node_id)` identity key of the final dedup. -/
def globalKey (e : MEntry) : Option String × Option Int := (e.filename, e.nodeId)

/-- Reconciliation step 4 worker: keep the first occurrence of each
`(filename, node_id)` pair. -/
def globalDedupAux (seen : List (Option String × Option Int)) :
    List MEntry → List MEntry
  | [] => []
  | e :: es =>
    if globalKey e ∈ seen then globalDedupAux seen es
    else e :: globalDedupAux (globalKey e :: seen) es

/-- Reconciliation step 4, global identity dedup. -/
def globalDedup (l : List MEntry) : List MEntry := globalDedupAux [] l

/-- The full reconciliation pipeline of
`process_workflow_for_missing_models` (steps 1–4), parameterized by the
preferred Nunchaku precision (`_preferred_nunchaku_precision`, an
accelerator probe cached process-wide). -/
def reconcile (pref : String) (l : List MEntry) : List MEntry :=
  globalDedup (precisionStep pref (dedupStep (coalesceStep l)))

/-- The keyed half of the variant-coalescing step. -/
def coalesceKeyed (l : List MEntry) : List MEntry :=
  ((dedupFirst ((l.filter (fun e => variantKey e ≠ none)).map variantKey)).map
    (fun q => coalesceGroup
      (bucket variantKey (l.filter (fun e => variantKey e ≠ none)) q))).flatten

/-- The per-class pieces of the per-node dedup step. -/
def dedupPieces (l : List MEntry) : List (List MEntry) :=
  (dedupFirst ((l.filter (fun e => pyLower (orEmpty e.filename) ≠ "")).map nameKey)).map
    (dedupClassOut (l.filter (fun e => pyLower (orEmpty e.filename) ≠ "")))

/-- A list is grouped by the key `f` when regrouping it by `f` (dict
insertion order) and flattening reproduces it. -/
def groupedBy {α κ : Type} [DecidableEq κ] (f : α → κ) (d : List α) : Prop :=
  ((dedupFirst (d.map f)).map (bucket f d)).flatten = d

/-- Pieces that are key-homogeneous within and key-disjoint across. -/
def TaggedPieces {α κ : Type} (f : α → κ) (ps : List (List α)) : Prop :=
  (∀ p ∈ ps, ∀ x ∈ p, ∀ y ∈ p, f x = f y) ∧
  ps.Pairwise (fun a b => ∀ x ∈ a, ∀ y ∈ b, f x ≠ f y)

/-- The seen-set of the final dedup after consuming a prefix. -/
def seenAfter (seen : List (Option String × Option Int)) (xs : List MEntry) :
    List (Option String × Option Int) :=
  xs.foldl (fun s x => if globalKey x ∈ s then s else globalKey x :: s) seen

/-! ## Local existence checking (`check_model_files`) -/

/-- `os.path.join(a, b)` (posix). -/
def pyJoin (a b : String) : String :=
  if pyStarts "/" b then b
  else if a = "" then b
  else if pyEnds "/" a then a ++ b
  else a ++ "/" ++ b

/-- `os.path.isabs` (posix). -/
def pyIsAbs (p : String) : Bool := pyStarts "/" p

/-- `_is_path_like`. -/
def isPathLike (value : String) : Bool := pyInChar '/' value ∨ pyInChar '\\' value

/-- The contents visible to `os.walk` under one root: relative paths of
files and of directories, in walk order. -/
structure RootFS where
  files : List String
  dirs : List String
deriving DecidableEq, Repr

/-- The storage-probe collaborator: `folder_paths.get_folder_paths`
(`none` models the `KeyError` branch), the ComfyUI base path,
`os.path.exists`, and `os.walk` under a root. -/
structure StorageFS where
  folderPaths : String → Option (List String)
  comfyRoot : String
  pathExists : String → Bool
  contents : String → RootFS

/-- The candidate roots for one folder type (the `search_paths` computation
of `check_model_files`, including the `models/<folder>` fallback). -/
def searchPathsFor (fs : StorageFS) (folderType : String) : List String :=
  let sp := (fs.folderPaths folderType).getD []
  if sp ≠ [] then sp
  else
    if folderType ≠ "" ∧ (pyIsAbs folderType ∨ isPathLike folderType) then
      [if pyIsAbs folderType then folderType else pyJoin fs.comfyRoot folderType]
    else [pyJoin fs.comfyRoot (pyJoin "models" folderType)]

/-- The per-root search of `check_model_files`: exact join, then
`recursive_find_file`, then (for extensionless SVDQ identifiers)
`recursive_find_file_by_stem` and `recursive_find_dir`.  Returns the
relative path of the first hit. -/
def findInRoot (fs : StorageFS) (filename : String) (allowFuzzy : Bool)
    (root : String) : Option String :=
  if ¬ fs.pathExists root then none
  else if fs.pathExists (pyJoin root filename) then some filename
  else
    match (fs.contents root).files.find? (fun f => pyBasename f = filename) with
    | some f => some f
    | none =>
      if allowFuzzy then
        let stemLower := pyLower filename
        if stemLower = "" then none
        else
          match (fs.contents root).files.find? (fun f =>
              let fl := pyLower (pyBasename f)
              fl = stemLower ∨ pyStarts (stemLower ++ ".") fl) with
          | some f => some f
          | none => (fs.contents root).dirs.find? (fun d => pyBasename d = filename)
      else none

/-- First hit over the candidate roots: `(relative path, root)`. -/
def searchRoots (fs : StorageFS) (filename : String) (allowFuzzy : Bool) :
    List String → Option (String × String)
  | [] => none
  | r :: rs =>
    match findInRoot fs filename allowFuzzy r with
    | some rel => some (rel, r)
    | none => searchRoots fs filename allowFuzzy rs

/-- Per-reference outcome of the local check. -/
inductive CheckOutcome
  | skip
  | missing
  | found (rel : String) (root : String)
deriving DecidableEq, Repr

/-- Classification of one reference by `check_model_files`: blank or
`"null"` filenames are skipped; otherwise the configured roots are searched
in order. -/
def classifyModel (fs : StorageFS) (m : MEntry) : CheckOutcome :=
  let filename := orEmpty m.filename
  if m.filename = none ∨ filename = "null" ∨ filename = "" then .skip
  else
    let folderType := match m.suggestedFolder with
      | none => "checkpoints"
      | some f => f
    let roots := searchPathsFor fs folderType
    let allowFuzzy := isNunchakuExtensionlessIdentifier (some filename)
    match searchRoots fs filename allowFuzzy roots with
    | none => .missing
    | some (rel, root) => .found rel root

/-- A reference found on disk: the original entry plus `found_path` and
`clean_path` (the path relative to the matched root). -/
structure FoundEntry where
  base : MEntry
  foundPath : String
  cleanPath : String
deriving DecidableEq, Repr

/-- The `requested_path or filename` value used in the mismatch test. -/
def requestedEff (m : MEntry) : String :=
  if optTruthy m.requestedPath then orEmpty m.requestedPath else orEmpty m.filename

/-- `check_model_files`: returns `(missing, existing, path_mismatches)`.
The source appends to the three lists inside one loop; this recursion
produces the same lists in the same order.  (The `os.path.relpath`
`ValueError` branch for cross-drive paths cannot occur in the posix model
and is omitted.) -/
def checkModelFiles (fs : StorageFS) : List MEntry →
    List MEntry × List FoundEntry × List FoundEntry
  | [] => ([], [], [])
  | m :: ms =>
    let rest := checkModelFiles fs ms
    match classifyModel fs m with
    | .skip => rest
    | .missing => (m :: rest.1, rest.2.1, rest.2.2)
    | .found rel root =>
      let fe : FoundEntry := ⟨m, pyJoin root rel, rel⟩
      if normSlash (requestedEff m) ≠ normSlash rel then
        (rest.1, fe :: rest.2.1, fe :: rest.2.2)
      else
        (rest.1, fe :: rest.2.1, rest.2.2)

/-! ## The remote-search budget (`_hf_search_allowed` and friends) -/

/-- The four process-wide budget globals: `_hf_api_calls`,
`_hf_rate_limited_until`, `_hf_search_deadline`,
`_hf_search_time_exhausted`.  `0` models the falsy unset values
(`None` / `0.0`). -/
structure HFBudget where
  apiCalls : Nat
  rateLimitedUntil : Nat
  deadline : Nat
  timeExhausted : Bool
deriving DecidableEq, Repr

/-- The environment-configured limits: `HF_SEARCH_MAX_CALLS`,
`HF_SEARCH_RATE_LIMIT_SECONDS`, `HF_SEARCH_MAX_SECONDS`. -/
structure HFConfig where
  maxCalls : Nat
  rateLimitSeconds : Nat
  maxSeconds : Nat
deriving DecidableEq, Repr

/-- `_hf_search_allowed`: the gate consulted before each budgeted remote
call.  Returns whether the call may proceed, together with the updated
globals (the counter is incremented exactly on a grant). -/
def hfSearchAllowed (cfg : HFConfig) (now : Nat) (st : HFBudget) : Bool × HFBudget :=
  if st.rateLimitedUntil ≠ 0 ∧ now < st.rateLimitedUntil then (false, st)
  else if st.deadline ≠ 0 ∧ now ≥ st.deadline then (false, { st with timeExhausted := true })
  else if st.apiCalls ≥ cfg.maxCalls then (false, st)
  else (true, { st with apiCalls := st.apiCalls + 1 })

/-- `_set_hf_rate_limited`: records the cooldown once (a second signal while
already rate-limited is ignored). -/
def setHfRateLimited (cfg : HFConfig) (now : Nat) (st : HFBudget) : HFBudget :=
  if st.rateLimitedUntil ≠ 0 then st
  else { st with rateLimitedUntil := now + cfg.rateLimitSeconds }

/-- `_hf_search_budget_exhausted`. -/
def hfSearchBudgetExhausted (cfg : HFConfig) (now : Nat) (st : HFBudget) : Bool :=
  (st.rateLimitedUntil ≠ 0 ∧ now < st.rateLimitedUntil) ∨ st.apiCalls ≥ cfg.maxCalls

/-- `_reset_hf_search_budget`: zero the counter, restart the deadline. -/
def resetHfSearchBudget (cfg : HFConfig) (now : Nat) (st : HFBudget) : HFBudget :=
  { st with apiCalls := 0,
            deadline := if cfg.maxSeconds > 0 then now + cfg.maxSeconds else 0,
            timeExhausted := false }

/-- An abstract trace of budget interactions: gate-checked call attempts and
rate-limit signals, each carrying its wall-clock time. -/
inductive BudgetEvent
  | attempt (now : Nat)
  | rateLimitSignal (now : Nat)
deriving DecidableEq, Repr

/-- Run a trace of budget events; returns the final globals and the times of
the granted call attempts, in order. -/
def runBudgetTrace (cfg : HFConfig) (st : HFBudget) :
    List BudgetEvent → HFBudget × List Nat
  | [] => (st, [])
  | .attempt now :: evs =>
    let g := hfSearchAllowed cfg now st
    let rest := runBudgetTrace cfg g.2 evs
    (rest.1, if g.1 then now :: rest.2 else rest.2)
  | .rateLimitSignal now :: evs =>
    runBudgetTrace cfg (setHfRateLimited cfg now st) evs

/-! ## The process-wide search caches and the head of
`search_huggingface_model` -/

/-- A successful remote resolution (`build_result`). -/
structure HFResult where
  url : String
  hfRepo : String
  hfPath : String
deriving DecidableEq, Repr

/-- Assoc-list update with Python-dict semantics: replacing an existing key
keeps its position, a new key is appended. -/
def assocSet {κ ν : Type} [DecidableEq κ] (m : List (κ × ν)) (k : κ) (v : ν) :
    List (κ × ν) :=
  if (m.find? (fun p => p.1 = k)).isSome then
    m.map (fun p => if p.1 = k then (k, v) else p)
  else m ++ [(k, v)]

/-- Assoc-list lookup (`dict.get`). -/
def assocGet {κ ν : Type} [DecidableEq κ] (m : List (κ × ν)) (k : κ) : Option ν :=
  (m.find? (fun p => p.1 = k)).map Prod.snd

/-- Assoc-list key removal (`dict.pop`). -/
def assocRemove {κ ν : Type} [DecidableEq κ] (m : List (κ × ν)) (k : κ) :
    List (κ × ν) :=
  m.filter (fun p => p.1 ≠ k)

/-- `dict.setdefault`: insert only when absent. -/
def setdefault (m : List (String × String)) (k v : String) : List (String × String) :=
  if (m.find? (fun p => p.1 = k)).isSome then m else m ++ [(k, v)]

/-- The process-wide mutable search state: the budget globals together with
`_hf_repo_files_cache` and `_hf_search_cache` (whose `none` values are the
explicit not-found sentinel). -/
structure GlobalSearchState where
  budget : HFBudget
  repoFilesCache : List (String × List String)
  searchCache : List (String × Option HFResult)
deriving DecidableEq, Repr

/-- The reset block at the top of `process_workflow_for_missing_models`
(source lines 1864–1869): zero the call counter, deadline and
time-exhausted flag, clear `_hf_rate_limited_until`, and empty
`_hf_repo_files_cache`; `_hf_search_cache` is left untouched. -/
def runStartReset (st : GlobalSearchState) : GlobalSearchState :=
  { st with
    budget := { apiCalls := 0, rateLimitedUntil := 0, deadline := 0, timeExhausted := false },
    repoFilesCache := [] }

/-- `_normalize_hf_search_key`. -/
def normalizeHfSearchKey (filename : String) : String :=
  pyLower (pyBasename filename)

/-- `HF_SEARCH_SKIP_FILENAMES`. -/
def HF_SEARCH_SKIP_FILENAMES : List String :=
  ["pytorch_model.bin", "adapter_model.bin", "diffusion_pytorch_model.bin",
   "model.safetensors", "model.bin", "model.ckpt", "model.pt",
   "config.json", "tokenizer.json"]

/-- Outcome of the early returns of `search_huggingface_model`:
`.ret` is an early return (it precedes every remote call of the function),
`.proceed` falls through to the network stages. -/
inductive SearchEarlyOutcome
  | ret (result : Option HFResult) (cache : List (String × Option HFResult))
  | proceed
deriving DecidableEq, Repr

/-- The head of `search_huggingface_model` (source lines 1243–1266): cache
check, generic-filename skip list, rate-limit pause, call-budget check.
All `.ret` outcomes fire before any remote call or status callback. -/
def searchHuggingfaceEarly (cfg : HFConfig) (now : Nat) (st : GlobalSearchState)
    (filename : String) (mode : String) : SearchEarlyOutcome :=
  let key := normalizeHfSearchKey filename
  let afterCache : SearchEarlyOutcome :=
    if key ∈ HF_SEARCH_SKIP_FILENAMES then
      .ret none (assocSet st.searchCache key none)
    else if st.budget.rateLimitedUntil ≠ 0 ∧ now < st.budget.rateLimitedUntil then
      .ret none st.searchCache
    else if st.budget.apiCalls ≥ cfg.maxCalls then
      .ret none st.searchCache
    else .proceed
  match assocGet st.searchCache key with
  | some (some cached) => .ret (some cached) st.searchCache
  | some none => if mode = "basic" then .ret none st.searchCache else afterCache
  | none => afterCache

/-! ## URL parsing (`extract_huggingface_info`, `parse_link`,
`is_specific_model_file_url`) -/

/-- Scan up to (and past) the next occurrence of `stop`; `none` when `stop`
does not occur.  Emulates one `[^stop]*stop` step. -/
def scanUntil (stop : Char) : List Char → Option (List Char × List Char)
  | [] => none
  | c :: cs =>
    if c = stop then some ([], cs)
    else
      match scanUntil stop cs with
      | some (content, rest) => some (c :: content, rest)
      | none => none

/-- Structured parse of the text following `huggingface.co/` against
`([^/]+/[^/]+)/(?:resolve|blob)/[^/]+/(.+?)(?:\?|$)`: two nonempty
slash-free segments (the repo), `resolve` or `blob`, one nonempty segment,
then a nonempty remainder cut at the first `?`.  (A remainder that starts
with `?` is rejected here; the regex engine would accept it, but no such
URL can also end in a model extension, which every caller requires.) -/
def hfInfoParseAt (cs : List Char) : Option (String × String) := do
  let (seg1, r1) ← scanUntil '/' cs
  if seg1 = [] then none else
  let (seg2, r2) ← scanUntil '/' r1
  if seg2 = [] then none else
  let (seg3, r3) ← scanUntil '/' r2
  if ¬ (seg3 = "resolve".data ∨ seg3 = "blob".data) then none else
  let (seg4, r4) ← scanUntil '/' r3
  if seg4 = [] then none else
  let path := r4.takeWhile (fun c => c ≠ '?')
  if path = [] then none else
  some (⟨seg1⟩ ++ "/" ++ ⟨seg2⟩, ⟨path⟩)

/-- Leftmost-match scan of `re.search` for the pattern above: try each
occurrence of `huggingface.co/` from the left. -/
def hfInfoScan : Nat → List Char → Option (String × String)
  | 0, _ => none
  | _ + 1, [] => none
  | fuel + 1, c :: cs =>
    if List.isPrefixOf "huggingface.co/".data (c :: cs) then
      match hfInfoParseAt ((c :: cs).drop 15) with
      | some r => some r
      | none => hfInfoScan fuel cs
    else hfInfoScan fuel cs

/-- `extract_huggingface_info`: HF repo and file path from a
`resolve`/`blob` URL. -/
def extractHuggingfaceInfo (url : String) : Option String × Option String :=
  if url = "" ∨ ¬ pyIn "huggingface.co" url then (none, none)
  else
    match hfInfoScan (url.data.length + 1) url.data with
    | some (repo, path) => (some repo, some path)
    | none => (none, none)

/-- `urlparse(link)`: when a scheme is present, the path component
(after the netloc, before any query/fragment); `none` when there is no
scheme (the caller then splits the whole link). -/
def urlparsePath (link : String) : Option String :=
  match link.data.findIdx? (fun c => c = ':') with
  | none => none
  | some idx =>
    let schemeChars := link.data.take idx
    let isAlphaC : Char → Bool := fun c => ('a' ≤ c ∧ c ≤ 'z') ∨ ('A' ≤ c ∧ c ≤ 'Z')
    let validScheme : Bool :=
      (match schemeChars with
        | c :: _ => isAlphaC c
        | [] => false) &&
      schemeChars.all (fun c =>
        (isAlphaC c ∨ ('0' ≤ c ∧ c ≤ '9') ∨ c = '+' ∨ c = '.' ∨ c = '-' : Bool))
    if ¬ validScheme then none
    else
      let rest := link.data.drop (idx + 1)
      if List.isPrefixOf "//".data rest then
        let afterNetloc := (rest.drop 2).dropWhile
          (fun c => ¬ (c = '/' ∨ c = '?' ∨ c = '#'))
        match afterNetloc with
        | '/' :: _ => some ⟨afterNetloc.takeWhile (fun c => ¬ (c = '?' ∨ c = '#'))⟩
        | _ => some ""
      else some ⟨rest.takeWhile (fun c => ¬ (c = '?' ∨ c = '#'))⟩

/-- Join path segments with `/` (Python `"/".join`). -/
def joinSlash : List String → String
  | [] => ""
  | [s] => s
  | s :: rest => s ++ "/" ++ joinSlash rest

/-- The fields of `parse_link` needed downstream (`revision` is unused by
`extract_hf_repo_and_path`). -/
structure ParseLinkResult where
  repo : String
  subfolder : Option String
  file : Option String
deriving DecidableEq, Repr

/-- The `resolve`/`blob` keyword branch of `parse_link`. -/
def parseLinkKw (parts : List String) (idx : Nat) : Option String × Option String :=
  let remaining := parts.drop (idx + 2)
  if remaining ≠ [] then
    if remaining.length > 1 then
      (some (joinSlash remaining.dropLast), remaining.getLast?)
    else (none, remaining.getLast?)
  else (none, none)

/-- `parse_link` (from `parse_link.py`); `none` models the `ValueError` on
a link with fewer than two path parts. -/
def parse_link (link : String) : Option ParseLinkResult :=
  let pathParts := match urlparsePath link with
    | some p => pySplit '/' (pyStripSlash p)
    | none => pySplit '/' (pyStripSlash link)
  match pathParts with
  | p0 :: p1 :: _ =>
    let repo := p0 ++ "/" ++ p1
    match pathParts.findIdx? (fun x => x = "resolve") with
    | some idx =>
      let (sub, file) := parseLinkKw pathParts idx
      some ⟨repo, sub, file⟩
    | none =>
      match pathParts.findIdx? (fun x => x = "blob") with
      | some idx =>
        let (sub, file) := parseLinkKw pathParts idx
        some ⟨repo, sub, file⟩
      | none =>
        match pathParts.findIdx? (fun x => x = "tree") with
        | some idx =>
          if pathParts.length > idx + 2 then
            some ⟨repo, some (joinSlash (pathParts.drop (idx + 2))), none⟩
          else some ⟨repo, none, none⟩
        | none =>
          if pathParts.length > 2 then
            match pathParts.getLast? with
            | some last =>
              if pyInChar '.' last then
                some ⟨repo, some (joinSlash (pathParts.drop 2).dropLast), some last⟩
              else some ⟨repo, some (joinSlash (pathParts.drop 2)), none⟩
            | none => some ⟨repo, none, none⟩
          else some ⟨repo, none, none⟩
  | _ => none

/-- `extract_hf_repo_and_path`: the regex extractor, falling back to
`parse_link` for shorthands and non-`resolve` file URLs. -/
def extractHfRepoAndPath (url : String) : Option String × Option String :=
  match extractHuggingfaceInfo url with
  | (some repo, some path) => (some repo, some path)
  | _ =>
    match parse_link url with
    | none => (none, none)
    | some pr =>
      match pr.file with
      | some f =>
        if pr.repo = "" ∨ f = "" then (none, none)
        else
          let subfolder := pyStripSlash (orEmpty pr.subfolder)
          if subfolder ≠ "" then (some pr.repo, some (subfolder ++ "/" ++ f))
          else (some pr.repo, some f)
      | none => (none, none)

/-- `is_specific_model_file_url`: the URL or shorthand points at one
concrete model file, optionally with the expected basename. -/
def isSpecificModelFileUrl (url : String) (expectedFilename : Option String) : Bool :=
  match extractHfRepoAndPath url with
  | (some _, some hfPath) =>
    let fileName := pyStrip (pyBasename (normSlash hfPath))
    if fileName = "" then false
    else if ¬ endsWithModelExtLower fileName then false
    else
      match expectedFilename with
      | some exp =>
        let expectedBase := pyLower (pyStrip (pyBasename (normSlash exp)))
        if expectedBase ≠ "" ∧ expectedBase ≠ pyLower fileName then false else true
      | none => true
  | _ => false

/-- One markdown link attempt at a position just after `[`: label up to `]`,
then `(https?://…)` up to `)` (the label and URL character classes of the
note-scanning regex exclude their closing brackets, so the scan is
deterministic). -/
def matchMdAt (cs : List Char) : Option (String × String × List Char) := do
  let (label, r1) ← scanUntil ']' cs
  if label = [] then none else
  match r1 with
  | '(' :: r2 =>
    let low := r2.map lowerChar
    let prefLen : Nat :=
      if List.isPrefixOf "https://".data low then 8
      else if List.isPrefixOf "http://".data low then 7
      else 0
    if prefLen = 0 then none else
    let (url, r3) ← scanUntil ')' r2
    if url.length ≤ prefLen then none else
    some (⟨label⟩, ⟨url⟩, r3)
  | _ => none

/-- `re.findall(r"\[([^\]]+)\]\((https?://[^)]+)\)", text, re.IGNORECASE)`:
left-to-right, non-overlapping. -/
def findMdLinks : Nat → List Char → List (String × String)
  | 0, _ => []
  | _ + 1, [] => []
  | fuel + 1, c :: cs =>
    if c = '[' then
      match matchMdAt cs with
      | some (label, url, rest) => (label, url) :: findMdLinks fuel rest
      | none => findMdLinks fuel cs
    else findMdLinks fuel cs

/-! ## Graph-reference extraction (`extract_models_from_workflow`) -/

/-- A widget value: a string, or some other JSON value (skipped by every
`isinstance(val, str)` guard of the source). -/
inductive WVal
  | s (v : String)
  | other
deriving DecidableEq, Repr

/-- One row of `properties.models`. -/
structure PropModel where
  name : Option String
  url : Option String
  directory : Option String
deriving DecidableEq, Repr

/-- The `properties` dict fields read by the extractor.  A `proxyWidgets`
slot is `some name` when the row is a list/tuple of length ≥ 2 (its second
element), `none` otherwise. -/
structure NodeProps where
  cnrId : Option String
  models : Option (List PropModel)
  proxyWidgets : Option (List (Option String))
deriving DecidableEq, Repr

/-- One entry of a node's `inputs` list. -/
structure NodeInput where
  hasWidget : Bool
  name : Option String
  link : Option Int
deriving DecidableEq, Repr

/-- A workflow node.  Absent dictionary keys and `None` values are both
`none` (the workflow schema never stores an explicit `None` where the
source distinguishes the two). -/
structure WNode where
  id : Option Int
  type : Option String
  title : Option String
  mode : Option Int
  properties : Option NodeProps
  widgetsValues : Option (List WVal)
  inputs : List NodeInput
deriving DecidableEq, Repr

/-- One element of a workflow's `links` list. -/
inductive RawLink
  | arr (linkId startNodeId startSlot : Int)
  | arrShort
  | obj (id originId originSlot : Option Int)
deriving DecidableEq, Repr

/-- `_build_links_map`: `link_id → (start_node_id, start_slot)`. -/
def buildLinksMap (raw : List RawLink) : List (Int × Int × Option Int) :=
  raw.foldl (fun m l =>
    match l with
    | .arr linkId s slot => assocSet m linkId (s, some slot)
    | .arrShort => m
    | .obj (some linkId) (some o) oslot => assocSet m linkId (o, oslot)
    | .obj _ _ _ => m) []

/-- `{n.get("id"): n for n in nodes}` (a duplicate id keeps the last node). -/
def buildNodesById (nodes : List WNode) : List (Option Int × WNode) :=
  nodes.foldl (fun m n => assocSet m n.id n) []

/-- `NODE_TYPE_MAPPING` (duplicate dict keys of the source literal carry
identical values and are listed once). -/
def NODE_TYPE_MAPPING : List (String × String) :=
  [("UNETLoader", "diffusion_models"),
   ("UnetLoaderGGUF", "diffusion_models"),
   ("LoraLoader", "loras"),
   ("LoraLoaderModelOnly", "loras"),
   ("VAELoader", "vae"),
   ("CLIPLoader", "text_encoders"),
   ("ControlNetLoader", "controlnet"),
   ("DiffControlNetLoader", "controlnet"),
   ("CheckpointLoaderSimple", "checkpoints"),
   ("CheckpointLoader", "checkpoints"),
   ("DualCLIPLoader", "text_encoders"),
   ("CLIPVisionLoader", "clip_vision"),
   ("UpscaleModelLoader", "upscale_models"),
   ("ESAModelLoader", "upscale_models"),
   ("StyleModelLoader", "style_models"),
   ("GligenLoader", "gligen"),
   ("DiffusersLoader", "diffusion_models"),
   ("GLIGENLoader", "gligen"),
   ("WanVideoLoraSelect", "loras"),
   ("WanVideoLoraSelectByName", "loras"),
   ("WanVideoLoraSelectMulti", "loras"),
   ("WanVideoVACEModelSelect", "diffusion_models"),
   ("WanVideoExtraModelSelect", "diffusion_models"),
   ("LoaderGGUF", "diffusion_models"),
   ("LoaderGGUFAdvanced", "diffusion_models"),
   ("ClipLoaderGGUF", "text_encoders"),
   ("DualClipLoaderGGUF", "text_encoders"),
   ("TripleClipLoaderGGUF", "text_encoders"),
   ("QuadrupleClipLoaderGGUF", "text_encoders"),
   ("VAELoaderGGUF", "vae"),
   ("VAELoaderKJ", "vae"),
   ("CLIPLoaderKJ", "text_encoders"),
   ("DualCLIPLoaderKJ", "text_encoders"),
   ("UnetLoaderKJ", "diffusion_models"),
   ("LoraLoaderKJ", "loras"),
   ("NunchakuFluxDiTLoader", "diffusion_models"),
   ("NunchakuQwenImageDiTLoader", "diffusion_models"),
   ("NunchakuZImageDiTLoader", "diffusion_models"),
   ("NunchakuTextEncoderLoader", "text_encoders"),
   ("NunchakuTextEncoderLoaderV2", "text_encoders"),
   ("NunchakuFluxLoraLoader", "loras"),
   ("NunchakuFluxLoraStack", "loras"),
   ("NunchakuIPAdapterLoader", "ipadapter"),
   ("NunchakuPulidLoader", "pulid"),
   ("NunchakuPuLIDLoaderV2", "pulid"),
   ("IPAdapterPlus", "ipadapter"),
   ("IPAdapterUnifiedLoader", "ipadapter"),
   ("ADE_AnimateDiffLoaderGen1", "animatediff_models"),
   ("ADE_AnimateDiffLoaderWithContext", "animatediff_models"),
   ("CheckpointLoaderNF4", "checkpoints"),
   ("LoadFluxControlNet", "xlabs_controlnets"),
   ("MMAudioModelLoader", "mmaudio"),
   ("PulidModelLoader", "pulid"),
   ("Florence2ModelLoader", "LLM"),
   ("DownloadAndLoadFlorence2Model", "LLM")]

/-- `resolve_node_folder`: table lookup by node type, then the GGUF and
KJNodes substring heuristics. -/
def resolve_node_folder (node : WNode) : Option String :=
  let nodeType := orEmpty node.type
  match assocGet NODE_TYPE_MAPPING nodeType with
  | some f => some f
  | none =>
    let cnrId := pyLower (orEmpty (node.properties.bind (·.cnrId)))
    let tl := pyLower nodeType
    if pyIn "gguf" tl ∨ pyIn "gguf" cnrId then
      if pyIn "clip" tl then some "text_encoders"
      else if pyIn "vae" tl then some "vae"
      else if pyIn "lora" tl then some "loras"
      else some "diffusion_models"
    else if pyIn "kjnodes" cnrId then
      if pyIn "clip" tl then some "text_encoders"
      else if pyIn "vae" tl then some "vae"
      else if pyIn "lora" tl then some "loras"
      else if pyIn "unet" tl ∨ pyIn "model" tl then some "diffusion_models"
      else none
    else none

/-- `resolve_proxy_widget_folder`. -/
def resolve_proxy_widget_folder (widgetName : Option String) : Option String :=
  if ¬ optTruthy widgetName then none
  else
    let name := pyLower (orEmpty widgetName)
    if pyIn "unet" name then some "diffusion_models"
    else if pyIn "clip" name then some "text_encoders"
    else if pyIn "vae" name then some "vae"
    else if pyIn "lora" name then some "loras"
    else if pyIn "checkpoint" name ∨ pyIn "ckpt" name then some "checkpoints"
    else none

/-- `_looks_like_model_widget_value`. -/
def looksLikeModelWidgetValue (value : String) (nodeType : String) : Bool :=
  endsWithModelExt value ∨
    (pyIn "nunchaku" (pyLower nodeType) ∧ isNunchakuSvdqName (some value))

/-- A hexadecimal digit (`[0-9a-f]` under `re.IGNORECASE`). -/
def hexDigit (c : Char) : Bool :=
  ('0' ≤ c ∧ c ≤ '9') ∨ ('a' ≤ c ∧ c ≤ 'f') ∨ ('A' ≤ c ∧ c ≤ 'F')

/-- Consume exactly `n` hexadecimal digits. -/
def hexRun : Nat → List Char → Option (List Char)
  | 0, cs => some cs
  | _ + 1, [] => none
  | n + 1, c :: cs => if hexDigit c then hexRun n cs else none

/-- Consume one `-`. -/
def expectDash : List Char → Option (List Char)
  | '-' :: cs => some cs
  | _ => none

/-- `is_subgraph_node`: the node type is a full UUID
(`8-4-4-4-12` hexadecimal groups, case-insensitive). -/
def is_subgraph_node (nodeType : String) : Bool :=
  (do
    let r ← hexRun 8 nodeType.data
    let r ← expectDash r
    let r ← hexRun 4 r
    let r ← expectDash r
    let r ← hexRun 4 r
    let r ← expectDash r
    let r ← hexRun 4 r
    let r ← expectDash r
    let r ← hexRun 12 r
    if r = [] then some () else none).isSome

/-- `collect_proxy_widget_models`: proxy-widget values of a subgraph
wrapper node that name model assets (slots fed by an upstream link are
skipped). -/
def collectProxyWidgetModels (node : WNode) (linkedIdx : List Nat)
    (linkedNames : List String) : List MEntry :=
  match node.properties.bind (·.proxyWidgets), node.widgetsValues with
  | some proxy, some widgets =>
    widgets.enum.filterMap (fun iv =>
      let idx := iv.1
      let widgetName : Option String := match proxy.get? idx with
        | some (some nm) => some nm
        | _ => none
      if linkedNames ≠ [] ∧ optTruthy widgetName ∧ (orEmpty widgetName) ∈ linkedNames then
        none
      else if linkedIdx ≠ [] ∧ idx ∈ linkedIdx ∧ ¬ optTruthy widgetName then none
      else
        match iv.2 with
        | .other => none
        | .s value =>
          if pyStarts "http://" value ∨ pyStarts "https://" value then
            let parsedFilename := pySplitLast '/' (pySplitHead '?' value)
            if ¬ endsWithModelExt parsedFilename then none
            else some { E0 with
              filename := some parsedFilename,
              requestedPath := none,
              url := some value,
              suggestedFolder := resolve_proxy_widget_folder widgetName,
              origin := some "proxy_widget" }
          else if ¬ endsWithModelExt value then none
          else
            let fr := split_model_identifier value
            some { E0 with
              filename := some fr.1,
              requestedPath := fr.2,
              url := none,
              suggestedFolder := resolve_proxy_widget_folder widgetName,
              origin := some "proxy_widget" })
  | _, _ => []

/-- The per-node traversal state: collected references and the two
note-link side indexes. -/
structure ExtractState where
  foundModels : List MEntry
  noteLinks : List (String × String)
  noteLinksNormalized : List (String × String)
deriving DecidableEq, Repr

/-- Per-node traversal context: the link map, the id → node map, and the
fallback node title. -/
structure NodeCtx where
  linksMap : List (Int × Int × Option Int)
  nodesById : List (Option Int × WNode)
  fallbackTitle : String

/-- The linked-widget bookkeeping loop: positions and names of widget
inputs that carry a link, and whether any such input exists. -/
def computeLinkedWidgets (node : WNode) : List Nat × List String × Bool :=
  let r := node.inputs.foldl (fun (acc : List Nat × List String × Nat × Bool) item =>
    if item.hasWidget then
      match item.link with
      | some _ =>
        let names := match item.name with
          | some nm => if nm ≠ "" then acc.2.1 ++ [nm] else acc.2.1
          | none => acc.2.1
        (acc.1 ++ [acc.2.2.1], names, acc.2.2.1 + 1, true)
      | none => (acc.1, acc.2.1, acc.2.2.1 + 1, acc.2.2.2)
    else acc) ([], [], 0, false)
  (r.1, r.2.1, r.2.2.2)

/-- The widget-selected model keys of a node (normalized filenames of
widget values that look like selected assets), used to discard stale
`properties.models` rows. -/
def computeWidgetModelKeys (node : WNode) (linkedIdx : List Nat)
    (nodeType : String) : List String :=
  match node.widgetsValues with
  | none => []
  | some widgets =>
    widgets.enum.foldl (fun keys iv =>
      if iv.1 ∈ linkedIdx then keys
      else
        match iv.2 with
        | .other => keys
        | .s rawVal =>
          let val := pyStrip rawVal
          if val = "" then keys
          else if pyStarts "http://" val ∨ pyStarts "https://" val then
            let parsedFilename := pySplitLast '/' (pySplitHead '?' val)
            if endsWithModelExtLower parsedFilename then
              keys ++ [normalize_filename_key parsedFilename]
            else keys
          else if looksLikeModelWidgetValue val nodeType then
            let fr := split_model_identifier val
            if fr.1 ≠ "" then keys ++ [normalize_filename_key fr.1] else keys
          else keys) []

/-- The `Hugging Face Download Model` special case: extract the reference
described by the `[folder, url, custom_path]` widgets; `none` falls through
to the generic scans (no filename could be derived). -/
def hfDownloadEntry (node : WNode) (nodeId : Option Int) (nodeTitle : String) :
    Option MEntry :=
  if orEmpty node.type = "Hugging Face Download Model" ∧ node.widgetsValues.isSome then
    match node.widgetsValues with
    | some widgets =>
      if widgets.length ≥ 3 then
        let folderV := widgets.getD 0 .other
        let urlV := widgets.getD 1 .other
        let customV := widgets.getD 2 .other
        match urlV with
        | .s url =>
          if url ≠ "" ∧ pyInChar '/' url then
            let filename := pySplitHead '?' (pySplitLast '/' url)
            if filename ≠ "" then
              let folderBranch : Option String := match folderV with
                | .s f => if f ≠ "" ∧ f ≠ "custom" then some f else none
                | .other => none
              let suggestedFolder : Option String := match customV with
                | .s c => if c ≠ "" ∧ pyStrip c ≠ "" then some (pyStrip c) else folderBranch
                | .other => folderBranch
              some { E0 with
                filename := some filename,
                url := some url,
                nodeId := nodeId,
                nodeTitle := some nodeTitle,
                suggestedFolder := suggestedFolder }
            else none
          else none
        | .other => none
      else none
    | none => none
  else none

/-- The annotation branch: markdown model-file links of a `Note` /
`PrimitiveString` node are recorded in the two side indexes
(`setdefault`: first link per key wins); `foundModels` is untouched. -/
def collectNoteLinks (st : ExtractState) (node : WNode) : ExtractState :=
  match node.widgetsValues with
  | none => st
  | some widgets =>
    widgets.foldl (fun s v =>
      match v with
      | .other => s
      | .s val =>
        (findMdLinks (val.data.length + 1) val.data).foldl (fun s2 lu =>
          if ¬ isSpecificModelFileUrl lu.2 none then s2
          else
            let urlFilename := pySplitLast '/' (pySplitHead '?' lu.2)
            let candidates :=
              (if endsWithModelExtLower urlFilename then [urlFilename] else []) ++
              (if endsWithModelExtLower lu.1 then [lu.1] else [])
            candidates.foldl (fun s3 filename =>
              { s3 with
                noteLinks := setdefault s3.noteLinks (normalize_filename_key filename) lu.2,
                noteLinksNormalized :=
                  setdefault s3.noteLinksNormalized (normalize_filename_compact filename) lu.2 })
              s2) s) st

/-- Section 2 of the per-node scan: `properties.models` rows, trusted only
when no widget input is linked, and only when they match a live widget
value (stale template metadata is discarded). -/
def scanPropertiesModels (node : WNode) (nodeCnr : String) (nodeId : Option Int)
    (nodeTitle : String) (widgetModelKeys : List String)
    (hasLinkedWidgetInput : Bool) (fm0 : List MEntry) : List MEntry :=
  if nodeCnr = "comfyui_controlnet_aux" then fm0
  else
    match node.properties.bind (·.models) with
    | none => fm0
    | some pmodels =>
      if hasLinkedWidgetInput then fm0
      else
        pmodels.foldl (fun fm mi =>
          let fr := match mi.name with
            | some nm => if nm ≠ "" then split_model_identifier nm else ("", none)
            | none => ("", none)
          if fr.1 = "" then fm
          else
            let filenameKey := normalize_filename_key fr.1
            if widgetModelKeys ≠ [] ∧ filenameKey ∉ widgetModelKeys then fm
            else if fm.any (fun m => m.filename = some fr.1 ∧ m.nodeId = nodeId) then fm
            else fm ++ [{ E0 with
              filename := some fr.1,
              requestedPath := fr.2,
              url := mi.url,
              nodeId := nodeId,
              nodeTitle := some nodeTitle,
              suggestedFolder := mi.directory }]) fm0

/-- Case B of the widget scan: a bare filename (or Nunchaku identifier). -/
def widgetCaseB (node : WNode) (nodeType : String) (nodeId : Option Int)
    (nodeTitle : String) (val : String) (fm : List MEntry) : List MEntry :=
  if looksLikeModelWidgetValue val nodeType then
    let fr := split_model_identifier val
    if fm.any (fun m => m.filename = some fr.1 ∧ m.nodeId = nodeId) then fm
    else fm ++ [{ E0 with
      filename := some fr.1,
      requestedPath := fr.2,
      url := none,
      nodeId := nodeId,
      nodeTitle := some nodeTitle,
      suggestedFolder := resolve_node_folder node }]
  else fm

/-- Section 3 of the per-node scan: widget values that are model URLs
(case A) or bare model filenames (case B). -/
def scanWidgetValues (node : WNode) (nodeType nodeCnr : String)
    (nodeId : Option Int) (nodeTitle : String) (linkedIdx : List Nat)
    (fm0 : List MEntry) : List MEntry :=
  if node.widgetsValues.isSome ∧
      ¬ (pyIn "Note" nodeType ∨ pyIn "PrimitiveString" nodeType) ∧
      nodeCnr ≠ "comfyui_controlnet_aux" then
    match node.widgetsValues with
    | none => fm0
    | some widgets =>
      widgets.enum.foldl (fun fm iv =>
        if iv.1 ∈ linkedIdx then fm
        else
          match iv.2 with
          | .other => fm
          | .s val =>
            if (pyStarts "http://" val ∨ pyStarts "https://" val) ∧
                (endsWithModelExt val ∨ pyIn "blob" val ∨ pyIn "resolve" val) then
              let parsedFilename := pySplitLast '/' (pySplitHead '?' val)
              if endsWithModelExt parsedFilename then
                if fm.any (fun m => m.filename = some parsedFilename ∧ m.nodeId = nodeId) then
                  fm
                else fm ++ [{ E0 with
                  filename := some parsedFilename,
                  url := some val,
                  nodeId := nodeId,
                  nodeTitle := some nodeTitle,
                  suggestedFolder := resolve_node_folder node }]
              else widgetCaseB node nodeType nodeId nodeTitle val fm
            else widgetCaseB node nodeType nodeId nodeTitle val fm) fm0
  else fm0

/-- Section 4 of the per-node scan: model injection via wiring — a URL
widget on a live upstream node is attached to this node's URL-less
references with the matching filename. -/
def injectUpstreamUrls (ctx : NodeCtx) (node : WNode) (nodeId : Option Int)
    (fm0 : List MEntry) : List MEntry :=
  node.inputs.foldl (fun fm item =>
    match item.link with
    | some linkId =>
      if linkId ≠ 0 then
        match assocGet ctx.linksMap linkId with
        | some up =>
          match assocGet ctx.nodesById (some up.1) with
          | some upstream =>
            match upstream.widgetsValues with
            | some uWidgets =>
              if upstream.mode.getD 0 = 2 ∨ upstream.mode.getD 0 = 4 then fm
              else
                uWidgets.foldl (fun fm2 uv =>
                  match uv with
                  | .other => fm2
                  | .s uVal =>
                    if pyStarts "http://" uVal ∨ pyStarts "https://" uVal then
                      fm2.map (fun m =>
                        if m.nodeId = nodeId ∧ ¬ optTruthy m.url ∧
                            (endsWithModelExt uVal ∨ pyIn "blob" uVal ∨ pyIn "resolve" uVal) then
                          let urlFilename := pySplitLast '/' (pySplitHead '?' uVal)
                          if urlFilename ≠ "" ∧
                              pyLower urlFilename = pyLower (orEmpty m.filename) then
                            { m with
                              url := some uVal,
                              note := some ("Resolved from upstream node " ++
                                (match upstream.title with
                                  | some t => t
                                  | none => toString up.1)) }
                          else m
                        else m)
                    else fm2) fm
            | none => fm
          | none => fm
        | none => fm
      else fm
    | none => fm) fm0

/-- One iteration of the `_collect_models_from_nodes` loop. -/
def processNode (ctx : NodeCtx) (st : ExtractState) (node : WNode) : ExtractState :=
  let mode := node.mode.getD 0
  if mode = 2 ∨ mode = 4 then st
  else if node.mode = some 2 then st
  else
    let nodeId := node.id
    let nodeTitle : String :=
      if optTruthy node.title then orEmpty node.title
      else node.type.getD ctx.fallbackTitle
    let nodeType := orEmpty node.type
    let nodeCnr := match node.properties with
      | some p => orEmpty p.cnrId
      | none => ""
    if nodeCnr = "comfyui_controlnet_aux" then st
    else
      let lw := computeLinkedWidgets node
      let widgetModelKeys := computeWidgetModelKeys node lw.1 nodeType
      if is_subgraph_node nodeType then
        { st with foundModels :=
            (collectProxyWidgetModels node lw.1 lw.2.1).foldl (fun fm pm =>
              if ¬ optTruthy pm.filename then fm
              else fm ++ [{ E0 with
                filename := pm.filename,
                requestedPath := pm.requestedPath,
                url := pm.url,
                nodeId := nodeId,
                nodeTitle := some nodeTitle,
                suggestedFolder := pm.suggestedFolder,
                origin := pm.origin }]) st.foundModels }
      else
        match hfDownloadEntry node nodeId nodeTitle with
        | some e => { st with foundModels := st.foundModels ++ [e] }
        | none =>
          if pyIn "Note" nodeType ∨ pyIn "PrimitiveString" nodeType then
            collectNoteLinks st node
          else
            let fm1 := scanPropertiesModels node nodeCnr nodeId nodeTitle
              widgetModelKeys lw.2.2 st.foundModels
            let fm2 := scanWidgetValues node nodeType nodeCnr nodeId nodeTitle lw.1 fm1
            let fm3 := injectUpstreamUrls ctx node nodeId fm2
            { st with foundModels := fm3 }

/-- `_collect_models_from_nodes`. -/
def collectModelsFromNodes (ctx : NodeCtx) (st : ExtractState)
    (nodes : List WNode) : ExtractState :=
  nodes.foldl (processNode ctx) st

/-- One nested subgraph definition. -/
structure Subgraph where
  name : Option String
  nodes : List WNode
  links : List RawLink

/-- A workflow document. -/
structure Workflow where
  nodes : List WNode
  links : List RawLink
  subgraphs : List Subgraph
  skipHfSearch : Bool
  skipFilenames : List String

/-- The note-link backfill for one reference: attach a note URL recorded
under the reference's normalized filename, but never over an already valid
specific-file URL. -/
def applyNoteLinksOne (noteLinks noteLinksNormalized : List (String × String))
    (model : MEntry) : MEntry :=
  let noteKey := normalize_filename_key (orEmpty model.filename)
  let url0 := assocGet noteLinks noteKey
  let url := if ¬ optTruthy url0 then
      assocGet noteLinksNormalized (normalize_filename_compact (orEmpty model.filename))
    else url0
  if ¬ optTruthy url then model
  else if ¬ isSpecificModelFileUrl (orEmpty url) model.filename then model
  else if optTruthy model.url ∧ isSpecificModelFileUrl (orEmpty model.url) none then
    model
  else
    { model with url := url, source := some "note", note := some "URL from Note" }

/-- The note-link backfill at the end of `extract_models_from_workflow`. -/
def applyNoteLinks (noteLinks noteLinksNormalized : List (String × String))
    (models : List MEntry) : List MEntry :=
  models.map (applyNoteLinksOne noteLinks noteLinksNormalized)

/-- `extract_models_from_workflow`: traverse the subgraph definitions, then
the top-level nodes, then backfill note URLs. -/
def extract_models_from_workflow (w : Workflow) : List MEntry :=
  let st0 : ExtractState := ⟨[], [], []⟩
  let st1 := w.subgraphs.foldl (fun st sg =>
    let ctx : NodeCtx := ⟨buildLinksMap sg.links, buildNodesById sg.nodes,
      "Subgraph Node (" ++ sg.name.getD "Subgraph" ++ ")"⟩
    collectModelsFromNodes ctx st sg.nodes) st0
  let ctx : NodeCtx := ⟨buildLinksMap w.links, buildNodesById w.nodes, "Unknown Node"⟩
  let st2 := collectModelsFromNodes ctx st1 w.nodes
  applyNoteLinks st2.noteLinks st2.noteLinksNormalized st2.foundModels

/-! ## The resolution run (`process_workflow_for_missing_models`)

The run is embedded as an `Except Unit` computation: the only uncaught
exception source in this control flow is the caller-supplied status
callback (`status_cb`), whose call sites outside the guarded `try` of
`search_huggingface_model` propagate.  Remote activity is recorded in a
`RemoteCall` log.  The deep remote-search stages of
`search_huggingface_model` past its early returns (term search, author
search, repo scans) are abstracted as the `searchCore` oracle of `RunCtx`;
their own callback invocations sit inside the function's `try`/`except`
and cannot raise. -/

/-- One registry/manager row (`popular-models.json` /
`model-list.json` entries after loading). -/
structure RegEntry where
  filename : Option String
  url : Option String
  directory : Option String
  source : Option String
  candidateUrls : List String
  priorityUrls : List String
  urls : List String
deriving DecidableEq, Repr

/-- `_iter_registry_urls`. -/
def iterRegistryUrls (entry : RegEntry) : List String :=
  let base := match entry.url with
    | some u => if pyStrip u ≠ "" then [pyStrip u] else []
    | none => []
  let more := (entry.candidateUrls ++ entry.priorityUrls ++ entry.urls).filterMap
    (fun u => if pyStrip u ≠ "" then some (pyStrip u) else none)
  dedupFirst (base ++ more)

/-- `find_quantized_alternatives`: registry rows that are quantized
variants of the same canonical stem. -/
def find_quantized_alternatives (filename : String)
    (registries : List (String × List RegEntry)) : List AltEntry :=
  let filenameLower := pyLower filename
  if pyEnds ".gguf" filenameLower ∨ pyIn "svdq" filenameLower then []
  else
    let base := canonicalize_model_base filename
    if base = "" then []
    else
      (registries.foldl (fun (acc : List AltEntry × List String) sr =>
        sr.2.foldl (fun (acc2 : List AltEntry × List String) entry =>
          match entry.filename with
          | none => acc2
          | some entryName =>
            if entryName = "" then acc2
            else
              let entryLower := pyLower entryName
              if entryLower ∈ acc2.2 ∨ entryLower = filenameLower then acc2
              else if pyEnds ".gguf" entryLower ∨ pyIn "svdq" entryLower then acc2
              else if canonicalize_model_base entryName ≠ base then acc2
              else if ¬ is_quant_variant_filename entryName then acc2
              else
                let hf := extractHuggingfaceInfo (orEmpty entry.url)
                (acc2.1 ++ [⟨entryName, entry.url, sr.1, entry.directory, hf.1, hf.2⟩],
                 acc2.2 ++ [entryLower])) acc) ([], [])).1

/-- A progress notification (`status_cb` payload). -/
structure StatusMsg where
  message : String
  source : String
  filename : Option String
  detail : Option String
deriving DecidableEq, Repr

/-- The caller-supplied progress callback; `Except.error` models the
callback raising. -/
def StatusCb : Type := StatusMsg → Except Unit Unit

/-- `if status_cb: status_cb({...})`. -/
def notify (cb : Option StatusCb) (msg : StatusMsg) : Except Unit Unit :=
  match cb with
  | none => Except.ok ()
  | some f => f msg

/-- One remote interaction (for the call ledger of a run). -/
inductive RemoteCall
  | authorPrefetch (author : String)
  | urlProbe (url : String)
  | repoFilesList (repo : String)
  | coreCall
deriving DecidableEq, Repr

/-- Result of one `call_with_timeout(api.list_repo_files, …)`:
either the files, or an exception classified by
`is_timeout_error` / `is_rate_limited_error`. -/
inductive RepoFilesOutcome
  | ok (files : List String)
  | exc (isTimeout : Bool) (isRateLimited : Bool)
deriving DecidableEq, Repr

/-- `PRIORITY_AUTHORS`. -/
def PRIORITY_AUTHORS : List String :=
  ["Kijai", "comfyanonymous", "Comfy-Org", "city96", "QuantStack",
   "alibaba-pai", "unsloth", "nunchaku-ai", "black-forest-labs"]

/-- The configuration and collaborator oracles of one resolution run.
`now` is the constant wall-clock reading of the run (`time.time()`); the
remote и filesystem collaborators are pure oracles (their in-source memo
caches are then semantically transparent, except `_hf_repo_files_cache`,
which gates budget checks and is kept explicit in `GlobalSearchState`). -/
structure RunCtx where
  cfg : HFConfig
  scanLimit : Nat
  now : Nat
  fs : StorageFS
  popularLookup : String → Option RegEntry
  popularEntries : List RegEntry
  managerLookup : String → Option RegEntry
  managerEntries : List RegEntry
  urlExists : String → Bool
  token : Option String
  apiOk : Bool
  prefetchAuthor : String → Option (List String)
  repoFiles : String → RepoFilesOutcome
  searchCore : GlobalSearchState → String → String →
    Option HFResult × GlobalSearchState × List RemoteCall
  preferredPrecision : String

/-- `_get_repo_files`: cached listing, else gate check
(`HFSearchBudgetError` on refusal), else one remote listing whose failure
is cached as `[]` and re-raised. -/
inductive GetRepoFilesResult
  | files (fs : List String) (st : GlobalSearchState) (calls : List RemoteCall)
  | budgetErr (st : GlobalSearchState)
  | exc (isTimeout : Bool) (isRateLimited : Bool) (st : GlobalSearchState)
      (calls : List RemoteCall)
deriving Repr

def getRepoFiles (ctx : RunCtx) (st : GlobalSearchState) (repoId : String) :
    GetRepoFilesResult :=
  match assocGet st.repoFilesCache repoId with
  | some cached => .files cached st []
  | none =>
    let g := hfSearchAllowed ctx.cfg ctx.now st.budget
    let st2 := { st with budget := g.2 }
    if ¬ g.1 then .budgetErr st2
    else
      match ctx.repoFiles repoId with
      | .ok files =>
        .files files { st2 with repoFilesCache := assocSet st2.repoFilesCache repoId files }
          [.repoFilesList repoId]
      | .exc t r =>
        .exc t r { st2 with repoFilesCache := assocSet st2.repoFilesCache repoId [] }
          [.repoFilesList repoId]

/-- `enrich_model_with_url`. -/
def enrichModelWithUrl (m : MEntry) (url : String) (source : String)
    (directory : Option String) : MEntry :=
  let m1 := { m with url := some url, source := some source }
  let m2 := if optTruthy directory ∧ ¬ optTruthy m1.suggestedFolder then
      { m1 with suggestedFolder := directory }
    else m1
  match extractHuggingfaceInfo url with
  | (some r, p) => { m2 with hfRepo := some r, hfPath := p }
  | (none, _) => m2

/-- Step 2 of the run: drop workflow URLs that are not specific model-file
URLs, tag remaining workflow URLs, and attach HF repo/path metadata. -/
def enrichWorkflowUrl (m : MEntry) : MEntry :=
  let m1 := if optTruthy m.url ∧ ¬ isSpecificModelFileUrl (orEmpty m.url) none then
      { m with
        url := none, hfRepo := none, hfPath := none,
        note := if m.source = some "note" then some "Ignored non-file note URL" else m.note }
    else m
  let m2 := if optTruthy m1.url ∧ ¬ optTruthy m1.source then
      { m1 with source := some "workflow_metadata" }
    else m1
  if optTruthy m2.url ∧ ¬ optTruthy m2.hfRepo then
    match extractHfRepoAndPath (orEmpty m2.url) with
    | (some r, some p) => { m2 with hfRepo := some r, hfPath := some p }
    | _ => m2
  else m2

/-- Step 2b of the run: fold a requested sub-path into the download
destination folder. -/
def applyRequestedSubfolder (m : MEntry) : MEntry :=
  match m.requestedPath with
  | none => m
  | some rp =>
    if rp = "" then m
    else
      let normalized := pyStripSlash (normSlash rp)
      if ¬ pyInChar '/' normalized then m
      else
        let subfolder := joinSlash (pySplit '/' normalized).dropLast
        if subfolder = "" then m
        else
          let baseFolder := if optTruthy m.suggestedFolder then orEmpty m.suggestedFolder
            else "checkpoints"
          if pyEnds subfolder (normSlash baseFolder) then m
          else { m with suggestedFolder := some (baseFolder ++ "/" ++ subfolder) }

/-- Probe candidate registry URLs in order (`_hf_url_exists` per URL)
until one is live. -/
def probeFirst (ctx : RunCtx) : List String → Option String × List RemoteCall
  | [] => (none, [])
  | u :: us =>
    if ctx.urlExists u then (some u, [.urlProbe u])
    else
      let r := probeFirst ctx us
      (r.1, .urlProbe u :: r.2)

/-- Step 3 of the run, for one reference: the curated popular-models
registry with live-URL probing.  The status callback is invoked unguarded. -/
def popularStageOne (ctx : RunCtx) (cb : Option StatusCb) (m : MEntry) :
    Except Unit (MEntry × List RemoteCall) := do
  if optTruthy m.url then pure (m, [])
  else do
    let _ ← notify cb ⟨"Checking popular models", "popular_models", m.filename, none⟩
    match ctx.popularLookup (orEmpty m.filename) with
    | none => pure (m, [])
    | some entry =>
      let candidateUrls := iterRegistryUrls entry
      if candidateUrls = [] then pure (m, [])
      else
        let probe := probeFirst ctx candidateUrls
        match probe.1 with
        | none => pure (m, probe.2)
        | some liveUrl =>
          pure (enrichModelWithUrl m liveUrl
            (if optTruthy entry.source then orEmpty entry.source else "popular_models")
            entry.directory, probe.2)

/-- Thread an `Except` action over a list, accumulating the call logs. -/
def mapExceptAccum {α : Type} (f : α → Except Unit (α × List RemoteCall)) :
    List α → Except Unit (List α × List RemoteCall)
  | [] => pure ([], [])
  | x :: xs => do
    let r1 ← f x
    let r2 ← mapExceptAccum f xs
    pure (r1.1 :: r2.1, r1.2 ++ r2.2)

/-- Step 4 of the run, for one reference: the ComfyUI-Manager model list
(`load_comfyui_manager_cache`). -/
def managerStageOne (ctx : RunCtx) (cb : Option StatusCb) (m : MEntry) :
    Except Unit (MEntry × List RemoteCall) := do
  if optTruthy m.url then pure (m, [])
  else do
    let _ ← notify cb ⟨"Checking manager cache", "manager_cache", m.filename, none⟩
    let filenameKey := pyLower (orEmpty m.filename)
    let entry := match ctx.managerLookup filenameKey with
      | some e => some e
      | none => ctx.managerLookup (pyBasename filenameKey)
    match entry with
    | some e =>
      if optTruthy e.url then
        pure (enrichModelWithUrl m (orEmpty e.url) "manager_model_list" e.directory, [])
      else pure (m, [])
    | none => pure (m, [])

/-- The user skip set: `skip_hf_search` plus per-filename exemptions. -/
def skipHfSearchFor (skipAll : Bool) (skipNames : List String) (m : MEntry) : Bool :=
  skipAll ∨ pyLower (orEmpty m.filename) ∈ skipNames

/-- The `skip_hf_search_all` block: replay cached hits for unresolved
references, then notify once. -/
def skipAllCacheReuse (cb : Option StatusCb) (g : GlobalSearchState)
    (missing : List MEntry) : Except Unit (List MEntry) := do
  let acc := missing.foldl (fun (acc : List MEntry × Nat) m =>
    if optTruthy m.url then (acc.1 ++ [m], acc.2)
    else
      let key := normalizeHfSearchKey (orEmpty m.filename)
      match assocGet g.searchCache key with
      | some (some cached) =>
        if cached.url ≠ "" then
          (acc.1 ++ [{ m with
              url := some cached.url, hfRepo := some cached.hfRepo,
              hfPath := some cached.hfPath, source := some "huggingface_cache" }],
           acc.2 + 1)
        else (acc.1 ++ [m], acc.2)
      | _ => (acc.1 ++ [m], acc.2)) ([], 0)
  let _ ← notify cb ⟨"Skipping unresolved Hugging Face lookups", "huggingface_skip",
    none, some ("Reused " ++ toString acc.2 ++ " cached link(s)")⟩
  pure acc.1

/-- Step 5 initialization: the ungated priority-author repository prefetch
(one `list_models(author=…)` call per priority author, issued without
consulting `_hf_search_allowed`; a per-author failure stores `[]`). -/
def prefetchPriorityAuthors (ctx : RunCtx) :
    Option (List (String × List String)) × List RemoteCall :=
  if ¬ ctx.apiOk then (none, [])
  else
    (some (PRIORITY_AUTHORS.map (fun a => (a, (ctx.prefetchAuthor a).getD []))),
     PRIORITY_AUTHORS.map (fun a => .authorPrefetch a))

/-- Split a character list at every `-`/`_` (Python `re.split(r"[-_]", s)`). -/
def splitDashUnderscore (s : String) : List String :=
  ((s.data.foldr (fun c r =>
      if c = '-' ∨ c = '_' then [] :: r
      else match r with
        | [] => [[c]]
        | h :: t => (c :: h) :: t) [[]]) : List (List Char)).map (fun cs => ⟨cs⟩)

/-- `re.sub(r"\d+", "", t)`. -/
def removeDigits (s : String) : String :=
  ⟨s.data.filter (fun c => ¬ ('0' ≤ c ∧ c ≤ '9'))⟩

/-- Insert into a counting dict (insertion-ordered). -/
def bumpCount (counts : List (String × Nat)) (k : String) : List (String × Nat) :=
  match assocGet counts k with
  | some n => assocSet counts k (n + 1)
  | none => assocSet counts k 1

/-- Stable descending insertion by count. -/
def insertByCountDesc (x : String × Nat) :
    List (String × Nat) → List (String × Nat)
  | [] => [x]
  | y :: ys => if y.2 ≤ x.2 then x :: y :: ys else y :: insertByCountDesc x ys

/-- The workflow-wide keyword statistics: token frequencies over all
reference filenames, top ten by count (stable). -/
def computeWorkflowKeywords (models : List MEntry) : List String :=
  let counts := models.foldl (fun counts m =>
    let name := pyLower (pySplitext (orEmpty m.filename)).1
    if name = "" then counts
    else
      (splitDashUnderscore name).foldl (fun c2 t =>
        let t := pyLower (pyStrip t)
        let c3 := if t.length < 3 then c2 else bumpCount c2 t
        let alpha := removeDigits t
        if alpha.length ≥ 3 then bumpCount c3 alpha else c3) counts) []
  ((counts.foldr insertByCountDesc []).take 10).map Prod.fst

/-- The per-missing-reference search tokens of step 5. -/
def computePriorityTokens (missing : List MEntry) : List String :=
  dedupFirst (missing.foldl (fun acc m =>
    if optTruthy m.url then acc
    else
      match m.filename with
      | none => acc
      | some f =>
        if f = "" then acc
        else
          let stem := pyLower (pySplitext f).1
          (splitDashUnderscore stem).foldl (fun acc2 part =>
            let part := pyLower (pyStrip part)
            let acc3 := if part.length ≥ 3 then acc2 ++ [part] else acc2
            let alpha := removeDigits part
            if alpha.length ≥ 3 then acc3 ++ [alpha] else acc3) acc) [])

/-- `_workflow_match_repo`. -/
def workflowMatchRepo (workflowKeywords : List String) (repoId : String) : Bool :=
  workflowKeywords ≠ [] ∧ workflowKeywords.any (fun k => pyIn k (pyLower repoId))

/-- `_workflow_repo_score`. -/
def workflowRepoScore (workflowKeywords priorityTokens : List String)
    (repoId : String) : Int :=
  let repoLower := pyLower repoId
  ((workflowKeywords.filter (fun k => k ≠ "" ∧ pyIn k repoLower)).length * 5 +
   (priorityTokens.filter (fun t => t ≠ "" ∧ pyIn t repoLower)).length * 4 +
   (if workflowMatchRepo workflowKeywords repoId then 50 else 0) : Int)

/-- Lexicographic `≤` on integer triples (the `list.sort` key). -/
def lexLe3 (a b : Int × Int × Int) : Bool :=
  a.1 < b.1 ∨ (a.1 = b.1 ∧ (a.2.1 < b.2.1 ∨ (a.2.1 = b.2.1 ∧ a.2.2 ≤ b.2.2)))

/-- Stable insertion sort by an integer-triple key (ascending). -/
def insertByKey3 {α : Type} (key : α → Int × Int × Int) (x : α) :
    List α → List α
  | [] => [x]
  | y :: ys => if lexLe3 (key x) (key y) then x :: y :: ys else y :: insertByKey3 key x ys

def sortByKey3 {α : Type} (key : α → Int × Int × Int) (l : List α) : List α :=
  l.foldr (insertByKey3 key) []

/-- The state threaded through the remote-search stages. -/
structure ScanState where
  missing : List MEntry
  gst : GlobalSearchState
  calls : List RemoteCall
deriving Repr

/-- The repo loop of `_scan_priority_repos_for_missing`.  `remaining` maps
lowered filenames to indices into `missing` (dict-ordered); a budget error
or rate-limit ends the scan, a timeout or other failure moves on. -/
def scanRepoLoop (ctx : RunCtx) (cb : Option StatusCb) :
    ScanState → List (String × Nat) → List String → Except Unit ScanState
  | st, _, [] => pure st
  | st, remaining, repoId :: repos => do
    if remaining = [] then pure st
    else
      let currentIdx := (remaining.headD ("", 0)).2
      let currentModel := st.missing.getD currentIdx E0
      let currentFilename := orEmpty currentModel.filename
      let author := if pyInChar '/' repoId then pySplitHead '/' repoId else repoId
      let _ ← notify cb ⟨"Searching " ++ author, "huggingface_priority_repos",
        some currentFilename, some author⟩
      match getRepoFiles ctx st.gst repoId with
      | .budgetErr g2 => do
        let _ ← notify cb ⟨"Hugging Face search budget exhausted",
          "huggingface_priority_repos", some currentFilename, none⟩
        pure { st with gst := g2 }
      | .exc true _ g2 calls => do
        let _ ← notify cb ⟨"Hugging Face search timeout", "huggingface_priority_repos",
          some currentFilename, some ("list_repo_files(" ++ repoId ++ ")")⟩
        scanRepoLoop ctx cb { st with gst := g2, calls := st.calls ++ calls }
          remaining repos
      | .exc false true g2 calls => do
        let g3 := { g2 with budget := setHfRateLimited ctx.cfg ctx.now g2.budget }
        let _ ← notify cb ⟨"Hugging Face rate limit hit", "huggingface_priority_repos",
          some currentFilename, some "rate limited"⟩
        pure { st with gst := g3, calls := st.calls ++ calls }
      | .exc false false g2 calls =>
        scanRepoLoop ctx cb { st with gst := g2, calls := st.calls ++ calls }
          remaining repos
      | .files files g2 calls =>
        let foundPaths := files.foldl (fun fp f =>
          let base := pyLower (pyBasename f)
          if (remaining.find? (fun p => p.1 = base)).isNone then fp
          else
            match assocGet fp base with
            | none => assocSet fp base f
            | some prev => if f.length < prev.length then assocSet fp base f else fp)
          ([] : List (String × String))
        let upd := foundPaths.foldl
          (fun (acc : List MEntry × List (String × Nat) × List (String × Option HFResult))
              bp =>
            match assocGet acc.2.1 bp.1 with
            | none => acc
            | some idx =>
              let url := "https://huggingface.co/" ++ repoId ++ "/resolve/main/" ++ bp.2
              let m := acc.1.getD idx E0
              let m2 := { m with
                url := some url, hfRepo := some repoId,
                hfPath := some bp.2, source := some "priority_repo_scan" }
              (acc.1.set idx m2, assocRemove acc.2.1 bp.1,
               assocSet acc.2.2 bp.1 (some ⟨url, repoId, bp.2⟩)))
          (st.missing, remaining, g2.searchCache)
        scanRepoLoop ctx cb
          ⟨upd.1, { g2 with searchCache := upd.2.2 }, st.calls ++ calls⟩
          upd.2.1 repos

/-- `_scan_priority_repos_for_missing`. -/
def scanPriorityRepos (ctx : RunCtx) (cb : Option StatusCb) (skipAll : Bool)
    (skipNames : List String) (workflowKeywords priorityTokens : List String)
    (priorityAuthorRepos : List (String × List String)) (st : ScanState) :
    Except Unit ScanState := do
  if priorityAuthorRepos = [] ∨ ¬ ctx.apiOk then pure st
  else
    let priorityRepoIds0 := dedupFirst (PRIORITY_AUTHORS.foldl
      (fun acc a => acc ++ ((assocGet priorityAuthorRepos a).getD [])) [])
    if priorityRepoIds0 = [] then pure st
    else
      let repoOrder := priorityRepoIds0.enum
      let sorted := sortByKey3 (fun rid =>
        ((if workflowMatchRepo workflowKeywords rid then 0 else 1 : Int),
         -(workflowRepoScore workflowKeywords priorityTokens rid),
         ((repoOrder.find? (fun p => p.2 = rid)).map (fun p => (p.1 : Int))).getD 0))
        priorityRepoIds0
      let priorityRepoIds := if ctx.scanLimit > 0 then sorted.take ctx.scanLimit else sorted
      do
        let _ ← notify cb ⟨"Searching priority repos", "huggingface_priority_repos",
          none, none⟩
        let remaining0 := st.missing.enum.foldl
          (fun (rem : List (String × Nat)) im =>
            if optTruthy im.2.url then rem
            else if skipHfSearchFor skipAll skipNames im.2 then rem
            else
              match im.2.filename with
              | some f => if f = "" then rem else assocSet rem (pyLower f) im.1
              | none => rem) []
        if remaining0 = [] then pure st
        else scanRepoLoop ctx cb st remaining0 priorityRepoIds

/-- `search_huggingface_model` as invoked by the stages: the early returns,
then the status callback of its pre-search notification (unguarded, it
precedes the function's `try`), then the abstracted remote core. -/
def searchModel (ctx : RunCtx) (cb : Option StatusCb) (g : GlobalSearchState)
    (filename mode : String) :
    Except Unit (Option HFResult × GlobalSearchState × List RemoteCall) :=
  match searchHuggingfaceEarly ctx.cfg ctx.now g filename mode with
  | .ret r cache2 => pure (r, { g with searchCache := cache2 }, [])
  | .proceed => do
    let _ ← notify cb ⟨"Searching Hugging Face", "huggingface_search",
      some filename, none⟩
    pure (ctx.searchCore g filename mode)

/-- The body of `_run_hf_stage` over the snapshot of unresolved indices. -/
def runHfStageLoop (ctx : RunCtx) (cb : Option StatusCb) (skipAll : Bool)
    (skipNames : List String) (label mode : String) :
    ScanState → List Nat → Except Unit ScanState
  | st, [] => pure st
  | st, i :: idxs => do
    let m := st.missing.getD i E0
    if skipHfSearchFor skipAll skipNames m then
      runHfStageLoop ctx cb skipAll skipNames label mode st idxs
    else if hfSearchBudgetExhausted ctx.cfg ctx.now st.gst.budget then do
      let _ ← notify cb ⟨"Hugging Face search budget exhausted", "huggingface_search",
        m.filename, none⟩
      pure st
    else do
      let _ ← notify cb ⟨"Searching Hugging Face (" ++ label ++ ")",
        "huggingface_search", m.filename, none⟩
      let r ← searchModel ctx cb st.gst (orEmpty m.filename) mode
      let st2 : ScanState := match r.1 with
        | some res =>
          ⟨st.missing.set i { m with
              url := some res.url, hfRepo := some res.hfRepo,
              hfPath := some res.hfPath, source := some "huggingface_search" },
           r.2.1, st.calls ++ r.2.2⟩
        | none => ⟨st.missing, r.2.1, st.calls ++ r.2.2⟩
      runHfStageLoop ctx cb skipAll skipNames label mode st2 idxs

/-- `_run_hf_stage`: budget reset, then one pass over the references that
had no URL when the stage started. -/
def runHfStage (ctx : RunCtx) (cb : Option StatusCb) (skipAll : Bool)
    (skipNames : List String) (label mode : String) (st : ScanState) :
    Except Unit ScanState :=
  let st1 : ScanState :=
    { st with gst := { st.gst with
        budget := resetHfSearchBudget ctx.cfg ctx.now st.gst.budget } }
  let idxs := st1.missing.enum.filterMap
    (fun im => if optTruthy im.2.url then none else some im.1)
  runHfStageLoop ctx cb skipAll skipNames label mode st1 idxs

/-- The output of a resolution run. -/
structure RunOutput where
  missing : List MEntry
  found : List FoundEntry
  mismatches : List FoundEntry
  gst : GlobalSearchState
  calls : List RemoteCall
deriving Repr

/-- `process_workflow_for_missing_models`: the top-level resolution run. -/
def processWorkflowForMissingModels (ctx : RunCtx) (cb : Option StatusCb)
    (gst0 : GlobalSearchState) (w : Workflow) : Except Unit RunOutput := do
  let gst := runStartReset gst0
  let required0 := extract_models_from_workflow w
  let required1 := coalesceStep required0
  let required2 := dedupStep required1
  let required3 := precisionStep ctx.preferredPrecision required2
  let uniqueRequired := globalDedup required3
  let workflowKeywords := computeWorkflowKeywords required3
  let checked := checkModelFiles ctx.fs uniqueRequired
  let existing := checked.2.1
  let mismatches := checked.2.2
  let missing1 := checked.1.map enrichWorkflowUrl
  let missing2 := missing1.map applyRequestedSubfolder
  let popularRes ← if missing2 ≠ [] then mapExceptAccum (popularStageOne ctx cb) missing2
    else pure (missing2, [])
  let managerRes ← if popularRes.1 ≠ [] then
      mapExceptAccum (managerStageOne ctx cb) popularRes.1
    else pure (popularRes.1, [])
  let missing4 := managerRes.1
  let skipAll := w.skipHfSearch
  let skipNames := w.skipFilenames.filterMap
    (fun f => if pyStrip f ≠ "" then some (pyLower f) else none)
  let missing5 ← if missing4 ≠ [] ∧ skipAll then skipAllCacheReuse cb gst missing4
    else pure missing4
  let prefetch := if missing5 ≠ [] ∧ ¬ skipAll then prefetchPriorityAuthors ctx
    else (none, [])
  let priorityAuthorRepos := prefetch.1
  let priorityTokens := if missing5 ≠ [] ∧ ¬ skipAll then computePriorityTokens missing5
    else []
  let st0 : ScanState := ⟨missing5, gst, popularRes.2 ++ managerRes.2 ++ prefetch.2⟩
  let st1 ← match priorityAuthorRepos with
    | some repos =>
      if missing5 ≠ [] ∧ repos ≠ [] ∧ ¬ skipAll then
        scanPriorityRepos ctx cb skipAll skipNames workflowKeywords priorityTokens repos
          { st0 with gst := { st0.gst with
              budget := resetHfSearchBudget ctx.cfg ctx.now st0.gst.budget } }
      else pure st0
    | none => pure st0
  let st2 ← if st1.missing ≠ [] ∧ ¬ skipAll then
      runHfStage ctx cb skipAll skipNames "basic" "basic" st1
    else pure st1
  let st3 ← if st2.missing ≠ [] ∧ ¬ skipAll ∧ priorityAuthorRepos = none then
      runHfStage ctx cb skipAll skipNames "priority" "priority" st2
    else pure st2
  let finalMissing := if st3.missing ≠ [] then
      st3.missing.map (fun m =>
        if optTruthy m.url then m
        else
          let alts := find_quantized_alternatives (orEmpty m.filename)
            [("popular_models", ctx.popularEntries),
             ("manager_model_list", ctx.managerEntries)]
          if alts ≠ [] then { m with alternatives := some alts } else m)
    else st3.missing
  pure ⟨finalMissing, existing, mismatches, st3.gst, st3.calls⟩

/-! ## Concrete fixtures for the verification instances -/

/-- The all-absent node. -/
def N0 : WNode := ⟨none, none, none, none, none, none, []⟩

/-- A checkpoint loader selecting one model. -/
def fixLoaderNode : WNode := { N0 with
  id := some 2,
  type := some "CheckpointLoaderSimple",
  widgetsValues := some [.s "mymodel.safetensors"] }

/-- An annotation node holding a markdown model link. -/
def fixNoteNode : WNode := { N0 with
  id := some 1,
  type := some "Note",
  widgetsValues :=
    some [.s "see [x](https://huggingface.co/h/repo/resolve/main/mymodel.safetensors)"] }

/-- A single-loader workflow. -/
def fixWorkflow : Workflow := ⟨[fixLoaderNode], [], [], false, []⟩

/-- A storage probe with no configured folders and no files. -/
def emptyFS : StorageFS := ⟨fun _ => none, "/comfy", fun _ => false, fun _ => ⟨[], []⟩⟩

/-- A benign search core that finds nothing. -/
def idleCore : GlobalSearchState → String → String →
    Option HFResult × GlobalSearchState × List RemoteCall :=
  fun g _ _ => (none, g, [RemoteCall.coreCall])

/-- A run context with `HF_SEARCH_MAX_CALLS = 0` and empty collaborators. -/
def ctxZero : RunCtx :=
  { cfg := ⟨0, 300, 60⟩, scanLimit := 100, now := 1000, fs := emptyFS,
    popularLookup := fun _ => none, popularEntries := [],
    managerLookup := fun _ => none, managerEntries := [],
    urlExists := fun _ => false, token := none, apiOk := true,
    prefetchAuthor := fun _ => some [], repoFiles := fun _ => .ok [],
    searchCore := idleCore, preferredPrecision := "int4" }

/-- The pristine process-wide search state. -/
def gstInit : GlobalSearchState := ⟨⟨0, 0, 0, false⟩, [], []⟩

/-- A callback that always raises. -/
def throwCb : StatusCb := fun _ => Except.error ()

/-- A callback raising exactly at the curated-registry notification. -/
def cbPopProbe : StatusCb :=
  fun msg => if msg.source = "popular_models" then Except.error () else Except.ok ()

/-- A callback raising exactly at the manager-cache notification. -/
def cbMgrProbe : StatusCb :=
  fun msg => if msg.source = "manager_cache" then Except.error () else Except.ok ()

/-- The single enriched missing reference of the one-loader workflow under
the empty storage probe. -/
def c3m : MEntry := { E0 with
  filename := some "mymodel.safetensors",
  requestedPath := some "mymodel.safetensors",
  nodeId := some 2,
  nodeTitle := some "CheckpointLoaderSimple",
  suggestedFolder := some "checkpoints" }

/-- SVDQ reference whose precision rewrite changes its variant key. -/
def ceSvdq1 : MEntry := { E0 with
  filename := some "svdq-fp4-x_bf16.safetensors",
  nodeId := some 1,
  suggestedFolder := some "diffusion_models" }

/-- SVDQ reference already at the preferred precision. -/
def ceSvdq2 : MEntry := { E0 with
  filename := some "svdq-int4-x.safetensors",
  nodeId := some 1,
  suggestedFolder := some "diffusion_models" }

/-- Scenario-1 reference: quantized variant on node 5. -/
def cw1 : MEntry := { E0 with
  filename := some "a_fp16.safetensors",
  nodeId := some 5,
  suggestedFolder := some "loras" }

/-- Scenario-1 reference: plain variant on node 5. -/
def cw2 : MEntry := { E0 with
  filename := some "a.safetensors",
  nodeId := some 5,
  suggestedFolder := some "loras" }

/-- A storage probe whose only root holds the requested file in a
subdirectory. -/
def fsMismatch : StorageFS :=
  ⟨fun _ => some ["root"], "/comfy", fun p => p = "root",
   fun r => if r = "root" then ⟨["sub/x.safetensors"], []⟩ else ⟨[], []⟩⟩

/-- A reference requesting `x.safetensors` with no subfolder. -/
def mMismatch : MEntry := { E0 with
  filename := some "x.safetensors",
  nodeId := some 7,
  suggestedFolder := some "loras" }

/-- The found entry produced for `mMismatch` under `fsMismatch`. -/
def feMismatch : FoundEntry := ⟨mMismatch, "root/sub/x.safetensors", "sub/x.safetensors"⟩

/-- A cached remote hit for the generic filename `model.safetensors`. -/
def cachedGenericHit : HFResult :=
  ⟨"https://huggingface.co/u/r/resolve/main/model.safetensors", "u/r", "model.safetensors"⟩

/-- A search state whose filename cache already holds that hit. -/
def gstCachedGeneric : GlobalSearchState :=
  ⟨⟨0, 0, 0, false⟩, [], [("model.safetensors", some cachedGenericHit)]⟩

/-- A budget-event trace: one granted attempt, a rate-limit signal, one
later attempt inside the cooldown. -/
def fixTrace : List BudgetEvent :=
  [.attempt 10, .rateLimitSignal 11, .attempt 12]

/-- A `comfyui_controlnet_aux` preprocessor node carrying widget values,
structured model rows and a URL. -/
def fixAuxNode : WNode := { N0 with
  id := some 3,
  type := some "UNETLoader",
  properties := some ⟨some "comfyui_controlnet_aux",
    some [⟨some "aux2.safetensors", some "https://huggingface.co/u/r/resolve/main/aux2.safetensors", some "controlnet"⟩],
    none⟩,
  widgetsValues := some [.s "aux.safetensors"] }

/-- Equality of all reference fields except `url`, `source` and `note`
(the only fields the note-link backfill may touch). -/
def sameExceptUrl (a b : MEntry) : Prop :=
  a.filename = b.filename ∧ a.requestedPath = b.requestedPath ∧
  a.nodeId = b.nodeId ∧ a.nodeTitle = b.nodeTitle ∧
  a.suggestedFolder = b.suggestedFolder ∧ a.origin = b.origin ∧
  a.hfRepo = b.hfRepo ∧ a.hfPath = b.hfPath ∧
  a.nunchakuPrecision = b.nunchakuPrecision ∧ a.alternatives = b.alternatives

/-- A note-link side index holding one URL for `mymodel.safetensors`. -/
def c7nl : List (String × String) :=
  [("mymodel.safetensors", "https://huggingface.co/h/repo/resolve/main/mymodel.safetensors")]

/-! # Theorems -/

/-- A fold preserves any invariant preserved by each step. -/
theorem foldl_preserve {α σ : Type} (P : σ → Prop) (f : σ → α → σ)
    (h : ∀ s a, P s → P (f s a)) : ∀ (l : List α) (s : σ), P s → P (l.foldl f s)
  | [], _, hs => hs
  | a :: l, s, hs => foldl_preserve P f h l (f s a) (h s a hs)

/-- C10: extraction emits no reference from a node whose
`properties.cnr_id` equals `comfyui_controlnet_aux` — the per-node
traversal step leaves the state unchanged, regardless of the node's widget
values, `properties.models` rows, or URLs. -/
theorem C10_controlnet_aux_skipped (ctx : NodeCtx) (st : ExtractState) (node : WNode)
    (p : NodeProps) (hp : node.properties = some p)
    (hcnr : orEmpty p.cnrId = "comfyui_controlnet_aux") :
    processNode ctx st node = st := by
  unfold processNode
  by_cases h1 : node.mode.getD 0 = 2 ∨ node.mode.getD 0 = 4
  · simp [h1]
  · by_cases h2 : node.mode = some 2
    · simp [h1, h2]
    · simp [h1, h2, hp, hcnr]

/-- C10 witness: a concrete `comfyui_controlnet_aux` node with widget
values, a `properties.models` row and a URL contributes nothing. -/
theorem C10_witness :
    processNode ⟨[], [], "Unknown Node"⟩ ⟨[], [], []⟩ fixAuxNode = ⟨[], [], []⟩ :=
  C10_controlnet_aux_skipped ⟨[], [], "Unknown Node"⟩ ⟨[], [], []⟩ fixAuxNode
    ⟨some "comfyui_controlnet_aux",
      some [⟨some "aux2.safetensors", some "https://huggingface.co/u/r/resolve/main/aux2.safetensors", some "controlnet"⟩],
      none⟩ rfl rfl

/-- C8 counterexample: at run start the source clears
`_hf_rate_limited_until` and empties `_hf_repo_files_cache`, contradicting
the claim that both persist across runs: a prior cooldown of `100` and a
cached repository listing are erased by the reset. -/
theorem C8_run_start_counterexample :
    (runStartReset ⟨⟨3, 100, 50, false⟩, [("u/r", ["a.safetensors"])], [("k", none)]⟩).budget.rateLimitedUntil ≠
      (⟨⟨3, 100, 50, false⟩, [("u/r", ["a.safetensors"])], [("k", none)]⟩ : GlobalSearchState).budget.rateLimitedUntil ∧
    (runStartReset ⟨⟨3, 100, 50, false⟩, [("u/r", ["a.safetensors"])], [("k", none)]⟩).repoFilesCache ≠
      (⟨⟨3, 100, 50, false⟩, [("u/r", ["a.safetensors"])], [("k", none)]⟩ : GlobalSearchState).repoFilesCache := by
  decide

/-- C8 amended: the run-start reset zeroes the call counter, the deadline,
the time-exhausted flag and the rate-limit cooldown, and empties the
per-repository file-listing memoization; only the normalized-filename
search cache persists across runs. -/
theorem C8_run_start_reset (st : GlobalSearchState) :
    (runStartReset st).budget.apiCalls = 0 ∧
    (runStartReset st).budget.deadline = 0 ∧
    (runStartReset st).budget.timeExhausted = false ∧
    (runStartReset st).budget.rateLimitedUntil = 0 ∧
    (runStartReset st).repoFilesCache = [] ∧
    (runStartReset st).searchCache = st.searchCache :=
  ⟨rfl, rfl, rfl, rfl, rfl, rfl⟩

/-- C9 counterexample: the cache check precedes the generic-filename skip
list, so a previously cached hit for `model.safetensors` (reachable via the
priority-repository scan, which does not consult the skip list) is returned
as a result — the operation does not return "no result" and records no
sentinel. -/
theorem C9_skip_list_counterexample :
    searchHuggingfaceEarly ⟨200, 300, 60⟩ 1000 gstCachedGeneric
      "model.safetensors" "full" =
      .ret (some cachedGenericHit) gstCachedGeneric.searchCache := by
  decide

/-- C9 amended: for a filename whose lowered basename is in
`HF_SEARCH_SKIP_FILENAMES` and has no cached resolution, the search returns
no result, issues no remote call, never reaches the status callback, and
records the explicit not-found sentinel in the process-wide cache. -/
theorem C9_generic_filename_skipped (ctx : RunCtx) (cb : Option StatusCb)
    (g : GlobalSearchState) (filename mode : String)
    (hskip : normalizeHfSearchKey filename ∈ HF_SEARCH_SKIP_FILENAMES)
    (hmiss : assocGet g.searchCache (normalizeHfSearchKey filename) = none) :
    searchModel ctx cb g filename mode =
      Except.ok (none,
        { g with searchCache :=
            assocSet g.searchCache (normalizeHfSearchKey filename) none },
        []) := by
  unfold searchModel searchHuggingfaceEarly
  simp only [hmiss, if_pos hskip]
  rfl

/-- C9 witness: `model.safetensors` on the empty cache. -/
theorem C9_generic_filename_witness :
    searchModel ctxZero (some throwCb) gstInit "model.safetensors" "full" =
      Except.ok (none,
        { gstInit with searchCache := [("model.safetensors", none)] }, []) := by
  have h := C9_generic_filename_skipped ctxZero (some throwCb) gstInit
    "model.safetensors" "full" (by decide) (by decide)
  simpa using h

/-! ### The budget gate (C2) -/

/-- A granted gate check certifies all three conditions and increments the
counter. -/
theorem hfSearchAllowed_true (cfg : HFConfig) (now : Nat) (st : HFBudget)
    (h : (hfSearchAllowed cfg now st).1 = true) :
    (st.rateLimitedUntil = 0 ∨ st.rateLimitedUntil ≤ now) ∧
    (st.deadline = 0 ∨ now < st.deadline) ∧
    st.apiCalls < cfg.maxCalls ∧
    (hfSearchAllowed cfg now st).2 = { st with apiCalls := st.apiCalls + 1 } := by
  unfold hfSearchAllowed at h ⊢
  split_ifs at h ⊢ with h1 h2 h3
  refine ⟨?_, ?_, by omega, rfl⟩
  · rcases Nat.eq_zero_or_pos st.rateLimitedUntil with hz | hp
    · exact Or.inl hz
    · refine Or.inr ?_
      by_contra hlt
      exact h1 ⟨by omega, by omega⟩
  · rcases Nat.eq_zero_or_pos st.deadline with hz | hp
    · exact Or.inl hz
    · refine Or.inr ?_
      by_contra hge
      exact h2 ⟨by omega, by omega⟩

/-- A denied gate check leaves the counter, cooldown and deadline alone. -/
theorem hfSearchAllowed_state (cfg : HFConfig) (now : Nat) (st : HFBudget) :
    ((hfSearchAllowed cfg now st).2.rateLimitedUntil = st.rateLimitedUntil ∧
     (hfSearchAllowed cfg now st).2.deadline = st.deadline) ∧
    ((hfSearchAllowed cfg now st).1 = false →
      (hfSearchAllowed cfg now st).2.apiCalls = st.apiCalls) := by
  unfold hfSearchAllowed
  split_ifs <;> simp

/-- The rate-limit setter preserves the counter and deadline, and never
clears an existing cooldown. -/
theorem setHfRateLimited_state (cfg : HFConfig) (now : Nat) (st : HFBudget) :
    (setHfRateLimited cfg now st).apiCalls = st.apiCalls ∧
    (setHfRateLimited cfg now st).deadline = st.deadline ∧
    (st.rateLimitedUntil ≠ 0 → setHfRateLimited cfg now st = st) := by
  unfold setHfRateLimited
  split_ifs with h1 <;> simp_all

/-- After a rate-limit signal the cooldown is set (given a positive
configured cooldown). -/
theorem setHfRateLimited_ne_zero (cfg : HFConfig) (now : Nat) (st : HFBudget)
    (h : 0 < cfg.rateLimitSeconds) :
    (setHfRateLimited cfg now st).rateLimitedUntil ≠ 0 := by
  unfold setHfRateLimited
  split_ifs with h1
  · exact h1
  · simp
    omega

/-- Grant count over a trace is bounded by the remaining call budget. -/
theorem runBudgetTrace_count (cfg : HFConfig) :
    ∀ (evs : List BudgetEvent) (st : HFBudget),
      (runBudgetTrace cfg st evs).2.length ≤ cfg.maxCalls - st.apiCalls := by
  intro evs
  induction evs with
  | nil => intro st; simp [runBudgetTrace]
  | cons ev evs ih =>
    intro st
    cases ev with
    | attempt now =>
      simp only [runBudgetTrace]
      by_cases hok : (hfSearchAllowed cfg now st).1 = true
      · have h := hfSearchAllowed_true cfg now st hok
        have ihs : (runBudgetTrace cfg (hfSearchAllowed cfg now st).2 evs).2.length ≤
            cfg.maxCalls - (st.apiCalls + 1) := by
          rw [h.2.2.2]
          exact ih { st with apiCalls := st.apiCalls + 1 }
        have hlt := h.2.2.1
        rw [hok]
        simp only [if_pos, List.length_cons]
        omega
      · have hf : (hfSearchAllowed cfg now st).1 = false := by
          simpa using hok
        have h2 := (hfSearchAllowed_state cfg now st).2 hf
        have ihs : (runBudgetTrace cfg (hfSearchAllowed cfg now st).2 evs).2.length ≤
            cfg.maxCalls - st.apiCalls := by
          have := ih (hfSearchAllowed cfg now st).2
          rwa [h2] at this
        rw [hf]
        simpa using ihs
    | rateLimitSignal now =>
      simp only [runBudgetTrace]
      have h := (setHfRateLimited_state cfg now st).1
      have ihs := ih (setHfRateLimited cfg now st)
      rwa [h] at ihs

/-- No grant happens before an already-recorded cooldown elapses, and no
grant happens at or past the deadline. -/
theorem runBudgetTrace_grant_times (cfg : HFConfig) :
    ∀ (evs : List BudgetEvent) (st : HFBudget) (now : Nat),
      now ∈ (runBudgetTrace cfg st evs).2 →
      (st.rateLimitedUntil ≠ 0 → st.rateLimitedUntil ≤ now) ∧
      (st.deadline ≠ 0 → now < st.deadline) := by
  intro evs
  induction evs with
  | nil => intro st now h; simp [runBudgetTrace] at h
  | cons ev evs ih =>
    intro st now hmem
    cases ev with
    | attempt t =>
      simp only [runBudgetTrace] at hmem
      by_cases hok : (hfSearchAllowed cfg t st).1 = true
      · rw [hok] at hmem
        simp only [if_pos, List.mem_cons] at hmem
        have hprop := hfSearchAllowed_true cfg t st hok
        rcases hmem with heq | hmem
        · subst heq
          constructor
          · intro hne
            rcases hprop.1 with hz | hle
            · exact absurd hz hne
            · exact hle
          · intro hne
            rcases hprop.2.1 with hz | hlt
            · exact absurd hz hne
            · exact hlt
        · have hrec := ih (hfSearchAllowed cfg t st).2 now hmem
          rw [hprop.2.2.2] at hrec
          exact hrec
      · have hf : (hfSearchAllowed cfg t st).1 = false := by simpa using hok
        rw [hf] at hmem
        simp only [Bool.false_eq_true, if_false] at hmem
        have hrec := ih (hfSearchAllowed cfg t st).2 now hmem
        rw [(hfSearchAllowed_state cfg t st).1.1,
            (hfSearchAllowed_state cfg t st).1.2] at hrec
        exact hrec
    | rateLimitSignal t =>
      simp only [runBudgetTrace] at hmem
      have hrec := ih (setHfRateLimited cfg t st) now hmem
      have hs := setHfRateLimited_state cfg t st
      constructor
      · intro hne
        rw [hs.2.2 hne] at hrec
        exact hrec.1 hne
      · intro hne
        have hd := hrec.2 (by rw [hs.2.1]; exact hne)
        rwa [hs.2.1] at hd

/-- Splitting a trace splits its state evolution and its grant list. -/
theorem runBudgetTrace_append (cfg : HFConfig) :
    ∀ (l1 l2 : List BudgetEvent) (st : HFBudget),
      runBudgetTrace cfg st (l1 ++ l2) =
        ((runBudgetTrace cfg (runBudgetTrace cfg st l1).1 l2).1,
         (runBudgetTrace cfg st l1).2 ++
           (runBudgetTrace cfg (runBudgetTrace cfg st l1).1 l2).2) := by
  intro l1
  induction l1 with
  | nil => intro l2 st; simp [runBudgetTrace]
  | cons ev l1 ih =>
    intro l2 st
    cases ev with
    | attempt t =>
      simp only [List.cons_append, runBudgetTrace, List.append_eq]
      rw [ih l2 (hfSearchAllowed cfg t st).2]
      by_cases hok : (hfSearchAllowed cfg t st).1 = true
      · rw [hok]
        simp
      · have hf : (hfSearchAllowed cfg t st).1 = false := by simpa using hok
        rw [hf]
        simp
    | rateLimitSignal t =>
      simp only [List.cons_append, runBudgetTrace, List.append_eq]
      rw [ih l2 (setHfRateLimited cfg t st)]

/-- C2 amended: within each budget-reset window, the number of granted
remote-call gate checks is at most `maxCalls`; no gated call is granted
after the deadline or while the cooldown is running; and once a rate-limit
signal is recorded, the cooldown is set and every later grant in the trace
happens only after it elapses.  (The per-run total over the whole run can
still exceed `maxCalls`: the priority-author prefetch is issued without
consulting the gate, and the budget is reset before each search stage — see
the counterexample.) -/
theorem C2_budget_gate_invariant (cfg : HFConfig) (st : HFBudget)
    (evs : List BudgetEvent) (h0 : st.apiCalls = 0) :
    (runBudgetTrace cfg st evs).2.length ≤ cfg.maxCalls ∧
    (∀ now ∈ (runBudgetTrace cfg st evs).2,
      (st.rateLimitedUntil ≠ 0 → st.rateLimitedUntil ≤ now) ∧
      (st.deadline ≠ 0 → now < st.deadline)) ∧
    (∀ pre t post, evs = pre ++ BudgetEvent.rateLimitSignal t :: post →
      0 < cfg.rateLimitSeconds →
      (runBudgetTrace cfg st (pre ++ [BudgetEvent.rateLimitSignal t])).1.rateLimitedUntil ≠ 0 ∧
      ∀ now ∈ (runBudgetTrace cfg
          (runBudgetTrace cfg st (pre ++ [BudgetEvent.rateLimitSignal t])).1 post).2,
        (runBudgetTrace cfg st
          (pre ++ [BudgetEvent.rateLimitSignal t])).1.rateLimitedUntil ≤ now) := by
  refine ⟨?_, ?_, ?_⟩
  · have := runBudgetTrace_count cfg evs st
    omega
  · intro now hmem
    exact runBudgetTrace_grant_times cfg evs st now hmem
  · intro pre t post heq hcool
    have hmid : (runBudgetTrace cfg st (pre ++ [BudgetEvent.rateLimitSignal t])).1 =
        setHfRateLimited cfg t (runBudgetTrace cfg st pre).1 := by
      rw [runBudgetTrace_append]
      simp [runBudgetTrace]
    constructor
    · rw [hmid]
      exact setHfRateLimited_ne_zero cfg t _ hcool
    · intro now hmem
      have hne : (runBudgetTrace cfg st (pre ++ [BudgetEvent.rateLimitSignal t])).1.rateLimitedUntil ≠ 0 := by
        rw [hmid]
        exact setHfRateLimited_ne_zero cfg t _ hcool
      exact (runBudgetTrace_grant_times cfg post _ now hmem).1 hne

/-- C2 witness: on a concrete trace with `maxCalls = 1`, the invariant's
hypotheses hold and its conclusions apply. -/
theorem C2_budget_gate_witness :
    (runBudgetTrace ⟨1, 300, 0⟩ ⟨0, 0, 0, false⟩ fixTrace).2.length ≤ 1 ∧
    ((runBudgetTrace ⟨1, 300, 0⟩ ⟨0, 0, 0, false⟩
        [BudgetEvent.attempt 10, BudgetEvent.rateLimitSignal 11]).1.rateLimitedUntil ≠ 0 ∧
      ∀ now ∈ (runBudgetTrace ⟨1, 300, 0⟩
          (runBudgetTrace ⟨1, 300, 0⟩ ⟨0, 0, 0, false⟩
            [BudgetEvent.attempt 10, BudgetEvent.rateLimitSignal 11]).1
          [BudgetEvent.attempt 12]).2,
        (runBudgetTrace ⟨1, 300, 0⟩ ⟨0, 0, 0, false⟩
          [BudgetEvent.attempt 10, BudgetEvent.rateLimitSignal 11]).1.rateLimitedUntil ≤ now) := by
  refine ⟨(C2_budget_gate_invariant ⟨1, 300, 0⟩ ⟨0, 0, 0, false⟩ fixTrace rfl).1, ?_⟩
  exact (C2_budget_gate_invariant ⟨1, 300, 0⟩ ⟨0, 0, 0, false⟩ fixTrace rfl).2.2
    [BudgetEvent.attempt 10] 11 [BudgetEvent.attempt 12] rfl (by decide)

/-- C2 counterexample: a run with `maxCalls = 0` still issues nine remote
repository-listing calls (the ungated priority-author prefetch), so the
run's total remote-call count is not bounded by `maxCalls`. -/
theorem C2_total_calls_counterexample :
    (processWorkflowForMissingModels ctxZero none gstInit fixWorkflow).map
        (fun o => o.calls.length) = Except.ok 9 ∧
    ctxZero.cfg.maxCalls = 0 := by
  constructor
  · rfl
  · rfl

/-! ### Local-existence classification (C1) -/

/-- Unfolding `check_model_files` over a skipped reference. -/
theorem checkModelFiles_cons_skip (fs : StorageFS) (m0 : MEntry) (ms : List MEntry)
    (h : classifyModel fs m0 = .skip) :
    checkModelFiles fs (m0 :: ms) = checkModelFiles fs ms := by
  simp only [checkModelFiles, h]

/-- Unfolding `check_model_files` over a missing reference. -/
theorem checkModelFiles_cons_missing (fs : StorageFS) (m0 : MEntry) (ms : List MEntry)
    (h : classifyModel fs m0 = .missing) :
    checkModelFiles fs (m0 :: ms) =
      (m0 :: (checkModelFiles fs ms).1, (checkModelFiles fs ms).2.1,
        (checkModelFiles fs ms).2.2) := by
  simp only [checkModelFiles, h]

/-- Unfolding `check_model_files` over a found reference. -/
theorem checkModelFiles_cons_found (fs : StorageFS) (m0 : MEntry) (ms : List MEntry)
    (rel root : String) (h : classifyModel fs m0 = .found rel root) :
    checkModelFiles fs (m0 :: ms) =
      if normSlash (requestedEff m0) ≠ normSlash rel then
        ((checkModelFiles fs ms).1,
          (⟨m0, pyJoin root rel, rel⟩ : FoundEntry) :: (checkModelFiles fs ms).2.1,
          (⟨m0, pyJoin root rel, rel⟩ : FoundEntry) :: (checkModelFiles fs ms).2.2)
      else
        ((checkModelFiles fs ms).1,
          (⟨m0, pyJoin root rel, rel⟩ : FoundEntry) :: (checkModelFiles fs ms).2.1,
          (checkModelFiles fs ms).2.2) := by
  simp only [checkModelFiles, h]

/-- Membership in the missing list of `check_model_files`. -/
theorem checkModelFiles_missing_mem (fs : StorageFS) :
    ∀ (ms : List MEntry) (m : MEntry),
      m ∈ (checkModelFiles fs ms).1 ↔
        m ∈ ms ∧ classifyModel fs m = .missing := by
  intro ms
  induction ms with
  | nil => intro m; simp [checkModelFiles]
  | cons m0 ms ih =>
    intro m
    rcases hcl : classifyModel fs m0 with _ | _ | ⟨rel, root⟩
    · rw [checkModelFiles_cons_skip fs m0 ms hcl]
      constructor
      · intro hmem
        have := (ih m).1 hmem
        exact ⟨List.mem_cons_of_mem m0 this.1, this.2⟩
      · rintro ⟨hmem, hclm⟩
        rcases List.mem_cons.1 hmem with heq | hmem2
        · subst heq; rw [hcl] at hclm; cases hclm
        · exact (ih m).2 ⟨hmem2, hclm⟩
    · rw [checkModelFiles_cons_missing fs m0 ms hcl]
      constructor
      · intro hmem
        rcases List.mem_cons.1 hmem with heq | hmem2
        · exact ⟨List.mem_cons.2 (Or.inl heq), heq ▸ hcl⟩
        · have := (ih m).1 hmem2
          exact ⟨List.mem_cons_of_mem m0 this.1, this.2⟩
      · rintro ⟨hmem, hclm⟩
        rcases List.mem_cons.1 hmem with heq | hmem2
        · exact List.mem_cons.2 (Or.inl heq)
        · exact List.mem_cons_of_mem m0 ((ih m).2 ⟨hmem2, hclm⟩)
    · rw [checkModelFiles_cons_found fs m0 ms rel root hcl]
      split
      all_goals
        constructor
        · intro hmem
          have := (ih m).1 hmem
          exact ⟨List.mem_cons_of_mem m0 this.1, this.2⟩
        · rintro ⟨hmem, hclm⟩
          rcases List.mem_cons.1 hmem with heq | hmem2
          · subst heq; rw [hcl] at hclm; cases hclm
          · exact (ih m).2 ⟨hmem2, hclm⟩

/-- Membership in the found list of `check_model_files`. -/
theorem checkModelFiles_existing_mem (fs : StorageFS) :
    ∀ (ms : List MEntry) (fe : FoundEntry),
      fe ∈ (checkModelFiles fs ms).2.1 ↔
        fe.base ∈ ms ∧ ∃ rel root, classifyModel fs fe.base = .found rel root ∧
          fe = ⟨fe.base, pyJoin root rel, rel⟩ := by
  intro ms
  induction ms with
  | nil => intro fe; simp [checkModelFiles]
  | cons m0 ms ih =>
    intro fe
    rcases hcl : classifyModel fs m0 with _ | _ | ⟨rel, root⟩
    · rw [checkModelFiles_cons_skip fs m0 ms hcl]
      constructor
      · intro hmem
        have := (ih fe).1 hmem
        exact ⟨List.mem_cons_of_mem m0 this.1, this.2⟩
      · rintro ⟨hmem, rel', root', hclb, hfe⟩
        rcases List.mem_cons.1 hmem with heq | hmem2
        · rw [heq] at hclb; rw [hcl] at hclb; cases hclb
        · exact (ih fe).2 ⟨hmem2, rel', root', hclb, hfe⟩
    · rw [checkModelFiles_cons_missing fs m0 ms hcl]
      constructor
      · intro hmem
        have := (ih fe).1 hmem
        exact ⟨List.mem_cons_of_mem m0 this.1, this.2⟩
      · rintro ⟨hmem, rel', root', hclb, hfe⟩
        rcases List.mem_cons.1 hmem with heq | hmem2
        · rw [heq] at hclb; rw [hcl] at hclb; cases hclb
        · exact (ih fe).2 ⟨hmem2, rel', root', hclb, hfe⟩
    · rw [checkModelFiles_cons_found fs m0 ms rel root hcl]
      split
      all_goals
        constructor
        · intro hmem
          rcases List.mem_cons.1 hmem with heq | hmem2
          · subst heq
            exact ⟨List.mem_cons.2 (Or.inl rfl), rel, root, hcl, rfl⟩
          · have := (ih fe).1 hmem2
            exact ⟨List.mem_cons_of_mem m0 this.1, this.2⟩
        · rintro ⟨hmem, rel', root', hclb, hfe⟩
          rcases List.mem_cons.1 hmem with heq | hmem2
          · refine List.mem_cons.2 (Or.inl ?_)
            rw [hfe]
            rw [heq] at hclb
            rw [hcl] at hclb
            cases hclb
            rw [heq]
          · exact List.mem_cons_of_mem _ ((ih fe).2 ⟨hmem2, rel', root', hclb, hfe⟩)

/-- Membership in the mismatch list of `check_model_files`. -/
theorem checkModelFiles_mismatch_mem (fs : StorageFS) :
    ∀ (ms : List MEntry) (fe : FoundEntry),
      fe ∈ (checkModelFiles fs ms).2.2 ↔
        fe ∈ (checkModelFiles fs ms).2.1 ∧
          normSlash (requestedEff fe.base) ≠ normSlash fe.cleanPath := by
  intro ms
  induction ms with
  | nil => intro fe; simp [checkModelFiles]
  | cons m0 ms ih =>
    intro fe
    rcases hcl : classifyModel fs m0 with _ | _ | ⟨rel, root⟩
    · rw [checkModelFiles_cons_skip fs m0 ms hcl]
      exact ih fe
    · rw [checkModelFiles_cons_missing fs m0 ms hcl]
      exact ih fe
    · rw [checkModelFiles_cons_found fs m0 ms rel root hcl]
      by_cases hmm : normSlash (requestedEff m0) ≠ normSlash rel
      · rw [if_pos hmm]
        constructor
        · intro hmem
          rcases List.mem_cons.1 hmem with heq | hmem2
          · subst heq
            exact ⟨List.mem_cons.2 (Or.inl rfl), hmm⟩
          · have := (ih fe).1 hmem2
            exact ⟨List.mem_cons_of_mem _ this.1, this.2⟩
        · rintro ⟨hmem, hne⟩
          rcases List.mem_cons.1 hmem with heq | hmem2
          · exact List.mem_cons.2 (Or.inl heq)
          · exact List.mem_cons_of_mem _ ((ih fe).2 ⟨hmem2, hne⟩)
      · rw [if_neg hmm]
        constructor
        · intro hmem
          have := (ih fe).1 hmem
          exact ⟨List.mem_cons_of_mem _ this.1, this.2⟩
        · rintro ⟨hmem, hne⟩
          rcases List.mem_cons.1 hmem with heq | hmem2
          · subst heq
            exact absurd hne hmm
          · exact (ih fe).2 ⟨hmem2, hne⟩

/-- C1 amended: a reference whose filename is empty or the literal
`"null"` yields no result at all; every other reference appears in exactly
one of the missing and found lists; and the mismatch list consists exactly
of the found entries whose normalized relative path differs from the
requested path — such entries appear in both the found and the mismatch
list, not in the found list alone. -/
theorem C1_local_check_partition (fs : StorageFS) (ms : List MEntry) :
    (∀ m ∈ ms, classifyModel fs m ≠ .skip →
      Xor' (m ∈ (checkModelFiles fs ms).1)
        (∃ fe ∈ (checkModelFiles fs ms).2.1, fe.base = m)) ∧
    (∀ m ∈ ms, classifyModel fs m = .skip →
      m ∉ (checkModelFiles fs ms).1 ∧
        ∀ fe ∈ (checkModelFiles fs ms).2.1, fe.base ≠ m) ∧
    (∀ fe, fe ∈ (checkModelFiles fs ms).2.2 ↔
      fe ∈ (checkModelFiles fs ms).2.1 ∧
        normSlash (requestedEff fe.base) ≠ normSlash fe.cleanPath) := by
  refine ⟨?_, ?_, fun fe => checkModelFiles_mismatch_mem fs ms fe⟩
  · intro m hm hns
    rcases hcl : classifyModel fs m with _ | _ | ⟨rel, root⟩
    · exact absurd hcl hns
    · refine Or.inl ⟨(checkModelFiles_missing_mem fs ms m).2 ⟨hm, hcl⟩, ?_⟩
      rintro ⟨fe, hfe, hbase⟩
      have := (checkModelFiles_existing_mem fs ms fe).1 hfe
      rcases this.2 with ⟨rel', root', hclb, _⟩
      rw [hbase, hcl] at hclb
      cases hclb
    · refine Or.inr ⟨⟨⟨m, pyJoin root rel, rel⟩, ?_, rfl⟩, ?_⟩
      · exact (checkModelFiles_existing_mem fs ms _).2 ⟨hm, rel, root, hcl, rfl⟩
      · intro hmiss
        have := (checkModelFiles_missing_mem fs ms m).1 hmiss
        rw [hcl] at this
        cases this.2
  · intro m hm hskip
    constructor
    · intro hmiss
      have := (checkModelFiles_missing_mem fs ms m).1 hmiss
      rw [hskip] at this
      cases this.2
    · intro fe hfe hbase
      have := (checkModelFiles_existing_mem fs ms fe).1 hfe
      rcases this.2 with ⟨rel', root', hclb, _⟩
      rw [hbase, hskip] at hclb
      cases hclb

/-- C1 witness: the partition applied to a concrete reference found at a
differing relative path. -/
theorem C1_local_check_witness :
    Xor' (mMismatch ∈ (checkModelFiles fsMismatch [mMismatch]).1)
      (∃ fe ∈ (checkModelFiles fsMismatch [mMismatch]).2.1, fe.base = mMismatch) ∧
    (feMismatch ∈ (checkModelFiles fsMismatch [mMismatch]).2.2 ↔
      feMismatch ∈ (checkModelFiles fsMismatch [mMismatch]).2.1 ∧
        normSlash (requestedEff feMismatch.base) ≠ normSlash feMismatch.cleanPath) :=
  ⟨(C1_local_check_partition fsMismatch [mMismatch]).1 mMismatch (by decide) (by decide),
   (C1_local_check_partition fsMismatch [mMismatch]).2.2 feMismatch⟩

/-- C1 counterexample: the claim that each checked reference lands in
exactly one of the three output lists fails — a reference found at a
relative path differing from its requested path is appended to both the
found list and the mismatch list. -/
theorem C1_both_lists_counterexample :
    feMismatch ∈ (checkModelFiles fsMismatch [mMismatch]).2.1 ∧
    feMismatch ∈ (checkModelFiles fsMismatch [mMismatch]).2.2 := by
  decide

/-! ## Variant coalescing: one reference per key -/

/-- A left fold whose step always returns one of its two arguments stays
inside the seed-plus-list pool. -/
theorem foldl_choice_mem {α : Type} (step : α → α → α)
    (hstep : ∀ b c, step b c = b ∨ step b c = c) :
    ∀ (es : List α) (b : α), es.foldl step b ∈ b :: es := by
  intro es
  induction es with
  | nil => intro b; simp
  | cons c cs ih =>
    intro b
    simp only [List.foldl_cons]
    rcases hstep b c with h | h <;> rw [h]
    · rcases List.mem_cons.1 (ih b) with heq | hm
      · exact List.mem_cons.2 (Or.inl heq)
      · exact List.mem_cons.2 (Or.inr (List.mem_cons_of_mem c hm))
    · rcases List.mem_cons.1 (ih c) with heq | hm
      · exact List.mem_cons.2 (Or.inr (List.mem_cons.2 (Or.inl heq)))
      · exact List.mem_cons.2 (Or.inr (List.mem_cons_of_mem c hm))

/-- The winner of a variant group is one of its members. -/
theorem pickMaxFirst_mem (f : MEntry → Nat × Nat × Nat) (e : MEntry) (es : List MEntry) :
    pickMaxFirst f e es ∈ e :: es := by
  unfold pickMaxFirst
  refine foldl_choice_mem _ (fun b c => ?_) es e
  by_cases h : tripleGt (f c) (f b) = true
  · rw [if_pos h]; exact Or.inr rfl
  · rw [if_neg h]; exact Or.inl rfl

/-- The variant-group key only depends on filename, node id and suggested
folder. -/
theorem variantKey_congr (a b : MEntry) (hf : a.filename = b.filename)
    (hn : a.nodeId = b.nodeId) (hs : a.suggestedFolder = b.suggestedFolder) :
    variantKey a = variantKey b := by
  unfold variantKey
  rw [hf, hn, hs]

/-- Characterization of a present variant-group key by its components. -/
theorem variantKey_some_iff (e : MEntry) (k : Option Int × String × String) :
    variantKey e = some k ↔ pyStrip (orEmpty e.filename) ≠ "" ∧
      k = (e.nodeId, folderKey e, canonicalName e.filename) := by
  unfold variantKey canonicalName folderKey
  by_cases h : pyStrip (orEmpty e.filename) = ""
  · simp [h]
  · simp only [h, if_neg, if_false, ne_eq, not_false_iff, true_and]
    simp [h]
    constructor
    · intro hh; exact hh.symm
    · intro hh; exact hh.symm

/-- URL donation does not change the variant-group key. -/
theorem mergeUrlDonation_key (g : List MEntry) (best : MEntry) :
    variantKey (mergeUrlDonation g best) = variantKey best := by
  unfold mergeUrlDonation
  split
  · rfl
  · split
    · exact variantKey_congr _ _ rfl rfl rfl
    · rfl

/-- Folder donation keeps the variant-group key of a homogeneous group. -/
theorem mergeFolderDonation_key (g : List MEntry) (m1 : MEntry)
    (k : Option Int × String × String)
    (hm : variantKey m1 = some k)
    (hall : ∀ c ∈ g, variantKey c = some k) :
    variantKey (mergeFolderDonation g m1) = some k := by
  obtain ⟨k1, k2, k3⟩ := k
  unfold mergeFolderDonation
  split
  · exact hm
  · cases hfind : g.find? (fun c => optTruthy c.suggestedFolder) with
    | none => exact hm
    | some cand =>
      have hcand : variantKey cand = some (k1, k2, k3) :=
        hall cand (List.mem_of_find?_eq_some hfind)
      rw [variantKey_some_iff] at hm hcand ⊢
      obtain ⟨hm1, hm2⟩ := hm
      obtain ⟨_, hc2⟩ := hcand
      refine ⟨hm1, ?_⟩
      rw [Prod.mk.injEq, Prod.mk.injEq] at hm2 hc2 ⊢
      exact ⟨hm2.1, hc2.2.1, hm2.2.2⟩

/-- Requested-path selection does not change the variant-group key. -/
theorem mergeRequestedPath_key (g : List MEntry) (m2 : MEntry) :
    variantKey (mergeRequestedPath g m2) = variantKey m2 := by
  unfold mergeRequestedPath
  split
  · exact variantKey_congr _ _ rfl rfl rfl
  · rfl

/-- Merging a variant group whose members all carry key `k` yields a
reference that still carries key `k`. -/
theorem mergeVariantGroup_key (e : MEntry) (es : List MEntry)
    (k : Option Int × String × String)
    (hall : ∀ x ∈ e :: es, variantKey x = some k) :
    variantKey (mergeVariantGroup e es) = some k := by
  unfold mergeVariantGroup
  rw [mergeRequestedPath_key]
  refine mergeFolderDonation_key _ _ _ ?_ hall
  rw [mergeUrlDonation_key]
  exact hall _ (pickMaxFirst_mem preferVariantKey e es)

/-- A nonempty group whose members all carry key `k` contributes exactly
one reference, and that reference carries key `k`. -/
theorem coalesceGroup_key (g : List MEntry) (k : Option Int × String × String)
    (hne : g ≠ []) (hall : ∀ x ∈ g, variantKey x = some k) :
    ∃ e, coalesceGroup g = [e] ∧ variantKey e = some k := by
  match g with
  | [] => exact absurd rfl hne
  | [e] => exact ⟨e, rfl, hall e (List.mem_singleton.2 rfl)⟩
  | e :: e2 :: es =>
    exact ⟨mergeVariantGroup e (e2 :: es), rfl, mergeVariantGroup_key e (e2 :: es) k hall⟩

/-- Membership is invariant under first-occurrence key dedup. -/
theorem dedupFirst_mem {κ : Type} [DecidableEq κ] (a : κ) :
    ∀ l : List κ, a ∈ dedupFirst l ↔ a ∈ l := by
  intro l
  induction l with
  | nil => simp [dedupFirst]
  | cons k ks ih =>
    simp only [dedupFirst, List.mem_cons, List.mem_filter, decide_eq_true_eq]
    constructor
    · rintro (h | ⟨h, _⟩)
      · exact Or.inl h
      · exact Or.inr (ih.1 h)
    · rintro (h | h)
      · exact Or.inl h
      · by_cases hk : a = k
        · exact Or.inl hk
        · exact Or.inr ⟨ih.2 h, hk⟩

/-- First-occurrence key dedup produces a duplicate-free list. -/
theorem dedupFirst_nodup {κ : Type} [DecidableEq κ] :
    ∀ l : List κ, (dedupFirst l).Nodup := by
  intro l
  induction l with
  | nil => exact List.nodup_nil
  | cons k ks ih =>
    simp only [dedupFirst, List.nodup_cons]
    refine ⟨?_, List.Nodup.filter _ ih⟩
    intro hmem
    have := (List.mem_filter.1 hmem).2
    simp at this

/-- A filter over elements that all fail the predicate is empty. -/
theorem filter_none_of_all {α : Type} (p : α → Bool)
    (l : List α) (h : ∀ a ∈ l, ¬ (p a = true)) : l.filter p = [] := by
  induction l with
  | nil => rfl
  | cons a as ih =>
    have ha : p a = false := by
      have := h a (List.mem_cons_self a as)
      simpa using this
    rw [List.filter_cons]
    simp only [ha, Bool.false_eq_true, if_false]
    exact ih (fun x hx => h x (List.mem_cons_of_mem a hx))

/-- No group of the coalescing loop contributes a reference with key
`some k` when `some k` is not among the group keys. -/
theorem groups_filter_zero (k : Option Int × String × String)
    (G : Option (Option Int × String × String) → List MEntry) :
    ∀ ks : List (Option (Option Int × String × String)),
      (∀ q ∈ ks, ∃ e, G q = [e] ∧ variantKey e = q) →
      some k ∉ ks →
      ((ks.map G).flatten).filter (fun e => variantKey e = some k) = [] := by
  intro ks
  induction ks with
  | nil => intro _ _; rfl
  | cons q qs ih =>
    intro hG hnot
    obtain ⟨e, hq, hk⟩ := hG q (List.mem_cons_self q qs)
    have hne : ¬ (variantKey e = some k) := fun hc =>
      hnot (List.mem_cons.2 (Or.inl (hk.symm.trans hc).symm))
    have hrest := ih (fun q1 hq1 => hG q1 (List.mem_cons_of_mem q hq1))
      (fun hc => hnot (List.mem_cons_of_mem q hc))
    simp [List.filter_append, hq, hne, hrest]

/-- Exactly one group of the coalescing loop contributes a reference with
key `some k` when `some k` occurs once among the (deduplicated) group
keys. -/
theorem groups_filter_one (k : Option Int × String × String)
    (G : Option (Option Int × String × String) → List MEntry) :
    ∀ ks : List (Option (Option Int × String × String)),
      ks.Nodup →
      (∀ q ∈ ks, ∃ e, G q = [e] ∧ variantKey e = q) →
      some k ∈ ks →
      (((ks.map G).flatten).filter (fun e => variantKey e = some k)).length = 1 := by
  intro ks
  induction ks with
  | nil => intro _ _ h; exact absurd h (List.not_mem_nil _)
  | cons q qs ih =>
    intro hnd hG hmem
    obtain ⟨e, hq, hk⟩ := hG q (List.mem_cons_self q qs)
    rw [List.nodup_cons] at hnd
    rcases List.mem_cons.1 hmem with heq | hmem2
    · have hke : variantKey e = some k := hk.trans heq.symm
      have hrest := groups_filter_zero k G qs
        (fun q1 hq1 => hG q1 (List.mem_cons_of_mem q hq1))
        (fun hc => hnd.1 (heq ▸ hc))
      simp [List.filter_append, hq, hke, hrest]
    · have hqne : ¬ (q = some k) := fun hc => hnd.1 (hc.symm ▸ hmem2)
      have hne : ¬ (variantKey e = some k) := fun hc => hqne (hk.symm.trans hc)
      have hrest := ih hnd.2 (fun q1 hq1 => hG q1 (List.mem_cons_of_mem q hq1)) hmem2
      simp only [List.map_cons, List.flatten_cons, List.filter_append, hq,
        List.length_append]
      rw [hrest]
      simp [hne]

/-- The coalescing step spelled as passthrough plus per-key groups. -/
theorem coalesceStep_eq (l : List MEntry) :
    coalesceStep l = l.filter (fun e => variantKey e = none) ++
      ((dedupFirst ((l.filter (fun e => variantKey e ≠ none)).map variantKey)).map
        (fun q => coalesceGroup
          (bucket variantKey (l.filter (fun e => variantKey e ≠ none)) q))).flatten := rfl

/-- Counting the keyed half of the coalescing step: each key that occurs
among the keyed references yields exactly one output reference. -/
theorem coalesce_groups_count (withKey : List MEntry)
    (k : Option Int × String × String)
    (hnn : ∀ x ∈ withKey, variantKey x ≠ none)
    (hm : some k ∈ withKey.map variantKey) :
    (((dedupFirst (withKey.map variantKey)).map
        (fun q => coalesceGroup (bucket variantKey withKey q))).flatten.filter
      (fun e => variantKey e = some k)).length = 1 := by
  have hG : ∀ q ∈ dedupFirst (withKey.map variantKey),
      ∃ e, coalesceGroup (bucket variantKey withKey q) = [e] ∧ variantKey e = q := by
    intro q hqks
    have hq1 : q ∈ withKey.map variantKey := (dedupFirst_mem q _).1 hqks
    obtain ⟨x, hxw, hxk⟩ := List.mem_map.1 hq1
    obtain ⟨kq, hkq⟩ : ∃ kq, q = some kq := by
      cases hq2 : variantKey x with
      | none => exact absurd hq2 (hnn x hxw)
      | some kk => exact ⟨kk, by rw [← hxk, hq2]⟩
    subst hkq
    have hxb : x ∈ bucket variantKey withKey (some kq) := by
      rw [bucket, List.mem_filter]
      exact ⟨hxw, by simp [hxk]⟩
    have hallb : ∀ y ∈ bucket variantKey withKey (some kq), variantKey y = some kq := by
      intro y hy
      have := (List.mem_filter.1 hy).2
      simpa using this
    exact coalesceGroup_key _ kq (List.ne_nil_of_mem hxb) hallb
  exact groups_filter_one k _ _ (dedupFirst_nodup _) hG ((dedupFirst_mem _ _).2 hm)

/-- C6: for every pair of references sharing the same present variant-group
key `(node id, normalized suggested folder, canonical stem + extension)` —
e.g. filenames differing only by a known quantization suffix on the same
node and folder — the variant-coalescing step outputs exactly one
reference carrying that key. -/
theorem C6_variant_coalescing (l : List MEntry) (e1 e2 : MEntry)
    (k : Option Int × String × String)
    (h1 : e1 ∈ l) (h2 : e2 ∈ l)
    (hk1 : variantKey e1 = some k) (hk2 : variantKey e2 = some k) :
    ((coalesceStep l).filter (fun e => variantKey e = some k)).length = 1 := by
  rw [coalesceStep_eq, List.filter_append]
  rw [filter_none_of_all (fun e => variantKey e = some k)
    (l.filter (fun e => variantKey e = none)) ?hall]
  case hall =>
    intro a ha
    have hnone := (List.mem_filter.1 ha).2
    simp only [decide_eq_true_eq] at hnone
    simp [hnone]
  rw [List.nil_append]
  refine coalesce_groups_count _ k ?_ ?_
  · intro x hx
    have := (List.mem_filter.1 hx).2
    simpa using this
  · exact List.mem_map.2 ⟨e1, List.mem_filter.2 ⟨h1, by simp [hk1]⟩, hk1⟩

/-- C6 witness: the Scenario-1 pair `a_fp16.safetensors` / `a.safetensors`
on node 5 with suggested folder `loras` coalesces to exactly one
reference. -/
theorem C6_variant_witness :
    cw1 ∈ [cw1, cw2] ∧ cw2 ∈ [cw1, cw2] ∧
    variantKey cw1 = some (some 5, "loras", "a.safetensors") ∧
    variantKey cw2 = some (some 5, "loras", "a.safetensors") ∧
    ((coalesceStep [cw1, cw2]).filter
      (fun e => variantKey e = some (some 5, "loras", "a.safetensors"))).length = 1 :=
  ⟨by decide, by decide, by decide, by decide,
   C6_variant_coalescing [cw1, cw2] cw1 cw2 (some 5, "loras", "a.safetensors")
     (by decide) (by decide) (by decide) (by decide)⟩

/-! ## Callback exceptions at notification sites -/

/-- The curated-registry stage notifies before any lookup, so an
always-raising callback makes the per-reference step raise whenever the
reference has no URL yet. -/
theorem popularStageOne_error (ctx : RunCtx) (cbf : StatusCb)
    (hthrow : ∀ msg, cbf msg = Except.error ()) (m : MEntry)
    (hurl : ¬ optTruthy m.url = true) :
    popularStageOne ctx (some cbf) m = Except.error () := by
  unfold popularStageOne
  rw [if_neg hurl]
  have hn : notify (some cbf)
      ⟨"Checking popular models", "popular_models", m.filename, none⟩ =
      Except.error () := hthrow _
  rw [hn]
  rfl

/-- Threading the curated-registry stage over a list that contains a
URL-less reference propagates the callback exception. -/
theorem mapExceptAccum_popular_error (ctx : RunCtx) (cbf : StatusCb)
    (hthrow : ∀ msg, cbf msg = Except.error ())
    (ms : List MEntry) (m : MEntry) (hm : m ∈ ms)
    (hurl : ¬ optTruthy m.url = true) :
    mapExceptAccum (popularStageOne ctx (some cbf)) ms = Except.error () := by
  induction ms with
  | nil => cases hm
  | cons x xs ih =>
    rcases List.mem_cons.1 hm with heq | hm2
    · subst heq
      unfold mapExceptAccum
      rw [popularStageOne_error ctx cbf hthrow m hurl]
      rfl
    · by_cases hxu : optTruthy x.url = true
      · have hx : popularStageOne ctx (some cbf) x = Except.ok (x, []) := by
          unfold popularStageOne
          rw [if_pos hxu]
          rfl
        unfold mapExceptAccum
        rw [hx, ih hm2]
        rfl
      · unfold mapExceptAccum
        rw [popularStageOne_error ctx cbf hthrow x hxu]
        rfl

/-- C3: CORRECTED.  A progress-callback exception is NOT swallowed: the
curated-registry stage notifies the callback unguarded, so when a workflow
leaves at least one URL-less reference locally missing, a run with an
always-raising callback aborts (returns the callback's exception) instead
of returning a result. -/
theorem C3_callback_exception_propagates (ctx : RunCtx) (cbf : StatusCb)
    (gst0 : GlobalSearchState) (w : Workflow)
    (hthrow : ∀ msg, cbf msg = Except.error ())
    (m : MEntry)
    (hm : m ∈ (((checkModelFiles ctx.fs (globalDedup (precisionStep
        ctx.preferredPrecision (dedupStep (coalesceStep
        (extract_models_from_workflow w)))))).1.map
        enrichWorkflowUrl).map applyRequestedSubfolder))
    (hurl : ¬ optTruthy m.url = true) :
    processWorkflowForMissingModels ctx (some cbf) gst0 w = Except.error () := by
  have hne : (((checkModelFiles ctx.fs (globalDedup (precisionStep
      ctx.preferredPrecision (dedupStep (coalesceStep
      (extract_models_from_workflow w)))))).1.map
      enrichWorkflowUrl).map applyRequestedSubfolder) ≠ [] :=
    List.ne_nil_of_mem hm
  simp only [processWorkflowForMissingModels]
  rw [if_pos hne]
  rw [mapExceptAccum_popular_error ctx cbf hthrow _ m hm hurl]
  rfl

/-- C3 witness: the one-loader workflow with an always-raising callback
aborts (its single missing reference has no URL). -/
theorem C3_callback_witness :
    (∀ msg, throwCb msg = Except.error ()) ∧
    processWorkflowForMissingModels ctxZero (some throwCb) gstInit fixWorkflow =
      Except.error () :=
  ⟨fun _ => rfl,
   C3_callback_exception_propagates ctxZero throwCb gstInit fixWorkflow
     (fun _ => rfl) c3m (by decide) (by decide)⟩

/-- C3 counterexample: the same run succeeds without a callback but aborts
with an always-raising callback, refuting "the callback's own failure
never aborts resolution". -/
theorem C3_callback_abort_counterexample :
    (processWorkflowForMissingModels ctxZero (some throwCb) gstInit fixWorkflow).isOk
      = false ∧
    (processWorkflowForMissingModels ctxZero none gstInit fixWorkflow).isOk = true :=
  ⟨rfl, rfl⟩

/-! ## Zero remote-call budget -/

/-- C4: CORRECTED.  With `HF_SEARCH_MAX_CALLS = 0` the budget gate denies
every gated remote-search attempt (so no gated search call proceeds), and
the curated-registry and manager-cache stages still run — witnessed by
callbacks that raise exactly at those stages' notifications aborting a
zero-budget run.  However the run is NOT free of remote calls: the
ungated priority-author prefetch still fires (see the counterexample). -/
theorem C4_zero_budget_stages :
    (∀ (rls ms now : Nat) (st : HFBudget),
      (hfSearchAllowed ⟨0, rls, ms⟩ now st).1 = false) ∧
    processWorkflowForMissingModels ctxZero (some cbPopProbe) gstInit fixWorkflow =
      Except.error () ∧
    processWorkflowForMissingModels ctxZero (some cbMgrProbe) gstInit fixWorkflow =
      Except.error () := by
  refine ⟨?_, rfl, rfl⟩
  intro rls ms now st
  unfold hfSearchAllowed
  split_ifs with h1 h2 h3 <;> first | rfl | exact absurd (Nat.zero_le _) h3

/-- C4 counterexample: a zero-budget run still issues the nine ungated
priority-author prefetch calls, refuting "no remote search calls at
all". -/
theorem C4_prefetch_counterexample :
    ctxZero.cfg.maxCalls = 0 ∧
    (processWorkflowForMissingModels ctxZero none gstInit fixWorkflow).map
      (fun o => o.calls) =
      Except.ok (PRIORITY_AUTHORS.map RemoteCall.authorPrefetch) ∧
    PRIORITY_AUTHORS.map RemoteCall.authorPrefetch ≠ [] :=
  ⟨rfl, rfl, by decide⟩

/-! ## Note links never become standalone references -/

/-- Destructuring an `Option` bind known to succeed. -/
theorem bind_isSome {α β : Type} (x : Option α) (f : α → Option β)
    (h : (x >>= f).isSome = true) : ∃ a, x = some a ∧ (f a).isSome = true := by
  cases x with
  | none => simp at h
  | some a => exact ⟨a, rfl, by simpa using h⟩

/-- Characters consumed by a hexadecimal run are hexadecimal digits. -/
theorem hexRun_chars : ∀ (n : Nat) (cs r : List Char), hexRun n cs = some r →
    ∀ c ∈ cs, hexDigit c = true ∨ c ∈ r
  | 0, cs, r, h, c, hc => by
    unfold hexRun at h
    cases h
    exact Or.inr hc
  | _ + 1, [], _, h, _, hc => by cases hc
  | n + 1, c0 :: cs, r, h, c, hc => by
    unfold hexRun at h
    by_cases hd : hexDigit c0 = true
    · rw [if_pos hd] at h
      rcases List.mem_cons.1 hc with heq | hmem
      · subst heq; exact Or.inl hd
      · exact hexRun_chars n cs r h c hmem
    · rw [if_neg hd] at h
      cases h

/-- The character consumed by a dash step is a dash. -/
theorem expectDash_chars (cs r : List Char) (h : expectDash cs = some r) :
    ∀ c ∈ cs, c = '-' ∨ c ∈ r := by
  unfold expectDash at h
  split at h
  · cases h
    intro c hc
    rcases List.mem_cons.1 hc with heq | hmem
    · exact Or.inl heq
    · exact Or.inr hmem
  · cases h

/-- Every character of a UUID-shaped node type is a hexadecimal digit or a
dash. -/
theorem is_subgraph_node_chars (t : String) (h : is_subgraph_node t = true) :
    ∀ c ∈ t.data, hexDigit c = true ∨ c = '-' := by
  unfold is_subgraph_node at h
  obtain ⟨r1, h1, h⟩ := bind_isSome _ _ h
  obtain ⟨r2, h2, h⟩ := bind_isSome _ _ h
  obtain ⟨r3, h3, h⟩ := bind_isSome _ _ h
  obtain ⟨r4, h4, h⟩ := bind_isSome _ _ h
  obtain ⟨r5, h5, h⟩ := bind_isSome _ _ h
  obtain ⟨r6, h6, h⟩ := bind_isSome _ _ h
  obtain ⟨r7, h7, h⟩ := bind_isSome _ _ h
  obtain ⟨r8, h8, h⟩ := bind_isSome _ _ h
  obtain ⟨r9, h9, h⟩ := bind_isSome _ _ h
  have hr9 : r9 = [] := by
    by_cases hr : r9 = []
    · exact hr
    · rw [if_neg hr] at h; cases h
  subst hr9
  intro c hc
  rcases hexRun_chars 8 t.data r1 h1 c hc with hd | hc1
  · exact Or.inl hd
  rcases expectDash_chars r1 r2 h2 c hc1 with hd | hc2
  · exact Or.inr hd
  rcases hexRun_chars 4 r2 r3 h3 c hc2 with hd | hc3
  · exact Or.inl hd
  rcases expectDash_chars r3 r4 h4 c hc3 with hd | hc4
  · exact Or.inr hd
  rcases hexRun_chars 4 r4 r5 h5 c hc4 with hd | hc5
  · exact Or.inl hd
  rcases expectDash_chars r5 r6 h6 c hc5 with hd | hc6
  · exact Or.inr hd
  rcases hexRun_chars 4 r6 r7 h7 c hc6 with hd | hc7
  · exact Or.inl hd
  rcases expectDash_chars r7 r8 h8 c hc7 with hd | hc8
  · exact Or.inr hd
  rcases hexRun_chars 12 r8 [] h9 c hc8 with hd | hc9
  · exact Or.inl hd
  exact absurd hc9 (List.not_mem_nil c)

/-- Substring containment implies character containment. -/
theorem containsSubAux_subset (needle : List Char) :
    ∀ hay, containsSubAux needle hay = true → ∀ c ∈ needle, c ∈ hay := by
  intro hay
  induction hay with
  | nil =>
    intro h c hc
    have hne : needle = [] := by
      cases needle with
      | nil => rfl
      | cons a as => simp [containsSubAux, List.isPrefixOf] at h
    subst hne
    cases hc
  | cons c0 cs ih =>
    intro h c hc
    unfold containsSubAux at h
    rw [Bool.or_eq_true] at h
    rcases h with hpre | hrec
    · exact (List.isPrefixOf_iff_prefix.1 hpre).subset hc
    · exact List.mem_cons_of_mem c0 (ih hrec c hc)

/-- An annotation node type (`Note` / `PrimitiveString` in the type) is
never UUID-shaped. -/
theorem note_not_subgraph (t : String)
    (h : pyIn "Note" t = true ∨ pyIn "PrimitiveString" t = true) :
    is_subgraph_node t = false := by
  cases hsg : is_subgraph_node t
  · rfl
  · exfalso
    rcases h with h | h
    · have hN : 'N' ∈ t.data := containsSubAux_subset _ _ h 'N' (by decide)
      rcases is_subgraph_node_chars t hsg 'N' hN with hd | hd <;>
        exact absurd hd (by decide)
    · have hP : 'P' ∈ t.data := containsSubAux_subset _ _ h 'P' (by decide)
      rcases is_subgraph_node_chars t hsg 'P' hP with hd | hd <;>
        exact absurd hd (by decide)

/-- An annotation node type is not the `Hugging Face Download Model`
special case. -/
theorem note_type_ne_hfdm (t : String)
    (h : pyIn "Note" t = true ∨ pyIn "PrimitiveString" t = true) :
    t ≠ "Hugging Face Download Model" := by
  intro he
  subst he
  rcases h with h | h <;> exact absurd h (by decide)

/-- The `Hugging Face Download Model` branch falls through for any other
node type. -/
theorem hfDownloadEntry_none (node : WNode) (i : Option Int) (t : String)
    (h : orEmpty node.type ≠ "Hugging Face Download Model") :
    hfDownloadEntry node i t = none := by
  unfold hfDownloadEntry
  rw [if_neg (fun hc => h hc.1)]

/-- The annotation branch records note links only in the side indexes, the
collected references are untouched. -/
theorem collectNoteLinks_foundModels (st : ExtractState) (node : WNode) :
    (collectNoteLinks st node).foundModels = st.foundModels := by
  unfold collectNoteLinks
  cases hw : node.widgetsValues with
  | none => rfl
  | some widgets =>
    refine foldl_preserve (fun s => s.foundModels = st.foundModels) _ ?_ widgets st rfl
    intro s v hs
    cases v with
    | other => exact hs
    | s val =>
      refine foldl_preserve (fun s2 => s2.foundModels = st.foundModels) _ ?_ _ s hs
      intro s2 lu hs2
      split
      · exact hs2
      · refine foldl_preserve (fun s3 => s3.foundModels = st.foundModels) _ ?_ _ s2 hs2
        intro s3 fn hs3
        exact hs3

/-- C7: an annotation node (`Note` / `PrimitiveString`) adds no standalone
reference — the traversal step leaves the collected references unchanged —
and the note-link backfill only ever touches the `url` (plus `source` /
`note` provenance) of an already-discovered reference: the backfilled URL
comes from one of the two note indexes under the reference's own
normalized filename, is a specific-file URL for that filename, and is
never written over an existing valid specific-file URL. -/
theorem C7_note_links (ctx : NodeCtx) (st : ExtractState) (node : WNode)
    (nl nln : List (String × String)) (m : MEntry)
    (h : pyIn "Note" (orEmpty node.type) = true ∨
         pyIn "PrimitiveString" (orEmpty node.type) = true) :
    (processNode ctx st node).foundModels = st.foundModels ∧
    sameExceptUrl (applyNoteLinksOne nl nln m) m ∧
    (applyNoteLinksOne nl nln m = m ∨
      (¬ (optTruthy m.url = true ∧
          isSpecificModelFileUrl (orEmpty m.url) none = true) ∧
       isSpecificModelFileUrl (orEmpty (applyNoteLinksOne nl nln m).url)
         m.filename = true ∧
       ((applyNoteLinksOne nl nln m).url =
          assocGet nl (normalize_filename_key (orEmpty m.filename)) ∨
        (applyNoteLinksOne nl nln m).url =
          assocGet nln (normalize_filename_compact (orEmpty m.filename))))) := by
  refine ⟨?_, ?_⟩
  · unfold processNode
    by_cases h1 : node.mode.getD 0 = 2 ∨ node.mode.getD 0 = 4
    · simp [h1]
    · by_cases h2 : node.mode = some 2
      · simp [h1, h2]
      · by_cases h3 : (match node.properties with
            | some p => orEmpty p.cnrId
            | none => "") = "comfyui_controlnet_aux"
        · simp [h1, h2, h3]
        · have hsub : is_subgraph_node (orEmpty node.type) = false :=
            note_not_subgraph _ h
          have hhf : ∀ (i : Option Int) (t : String), hfDownloadEntry node i t = none :=
            fun i t => hfDownloadEntry_none node i t (note_type_ne_hfdm _ h)
          simp [h1, h2, h3, hsub, hhf, h, collectNoteLinks_foundModels]
  · simp only [applyNoteLinksOne]
    generalize hu :
      (if ¬ optTruthy (assocGet nl (normalize_filename_key (orEmpty m.filename))) = true
        then assocGet nln (normalize_filename_compact (orEmpty m.filename))
        else assocGet nl (normalize_filename_key (orEmpty m.filename))) = u
    have hor : u = assocGet nl (normalize_filename_key (orEmpty m.filename)) ∨
        u = assocGet nln (normalize_filename_compact (orEmpty m.filename)) := by
      rw [← hu]
      by_cases h0 : optTruthy (assocGet nl
          (normalize_filename_key (orEmpty m.filename))) = true
      · left; rw [if_neg (not_not_intro h0)]
      · right; rw [if_pos h0]
    split
    · exact ⟨⟨rfl, rfl, rfl, rfl, rfl, rfl, rfl, rfl, rfl, rfl⟩, Or.inl rfl⟩
    · split
      · exact ⟨⟨rfl, rfl, rfl, rfl, rfl, rfl, rfl, rfl, rfl, rfl⟩, Or.inl rfl⟩
      · split
        · exact ⟨⟨rfl, rfl, rfl, rfl, rfl, rfl, rfl, rfl, rfl, rfl⟩, Or.inl rfl⟩
        · rename_i hu2 hspec hold
          refine ⟨⟨rfl, rfl, rfl, rfl, rfl, rfl, rfl, rfl, rfl, rfl⟩,
            Or.inr ⟨hold, not_not.1 hspec, ?_⟩⟩
          rcases hor with h9 | h9
          · exact Or.inl h9
          · exact Or.inr h9

/-- C7 witness: a `Note` node adds nothing to the collected references, and
the backfill on the enriched loader reference obeys the URL-provenance
property. -/
theorem C7_note_witness :
    (processNode ⟨[], [], "Unknown Node"⟩ ⟨[], [], []⟩ fixNoteNode).foundModels =
      (⟨[], [], []⟩ : ExtractState).foundModels ∧
    sameExceptUrl (applyNoteLinksOne c7nl c7nl c3m) c3m ∧
    (applyNoteLinksOne c7nl c7nl c3m = c3m ∨
      (¬ (optTruthy c3m.url = true ∧
          isSpecificModelFileUrl (orEmpty c3m.url) none = true) ∧
       isSpecificModelFileUrl (orEmpty (applyNoteLinksOne c7nl c7nl c3m).url)
         c3m.filename = true ∧
       ((applyNoteLinksOne c7nl c7nl c3m).url =
          assocGet c7nl (normalize_filename_key (orEmpty c3m.filename)) ∨
        (applyNoteLinksOne c7nl c7nl c3m).url =
          assocGet c7nl (normalize_filename_compact (orEmpty c3m.filename))))) :=
  C7_note_links ⟨[], [], "Unknown Node"⟩ ⟨[], [], []⟩ fixNoteNode c7nl c7nl c3m
    (by decide)

/-! ## Reconciliation idempotence machinery -/

/-- A filter that keeps every element is the identity. -/
theorem filter_all_of_all {α : Type} (p : α → Bool)
    (l : List α) (h : ∀ a ∈ l, p a = true) : l.filter p = l := by
  induction l with
  | nil => rfl
  | cons a as ih =>
    rw [List.filter_cons, if_pos (h a (List.mem_cons_self a as)),
      ih (fun x hx => h x (List.mem_cons_of_mem a hx))]

/-- First-occurrence dedup is the identity on duplicate-free lists. -/
theorem dedupFirst_eq_self_of_nodup {κ : Type} [DecidableEq κ] :
    ∀ l : List κ, l.Nodup → dedupFirst l = l := by
  intro l
  induction l with
  | nil => intro _; rfl
  | cons k ks ih =>
    intro h
    rw [List.nodup_cons] at h
    simp only [dedupFirst]
    rw [ih h.2, filter_all_of_all]
    intro a ha
    simp only [decide_eq_true_eq]
    intro he
    exact h.1 (he ▸ ha)

/-- Singleton groups flatten with their key list. -/
theorem groups_map_key {α κ : Type} (f : α → κ) (G : κ → List α) :
    ∀ ks : List κ, (∀ q ∈ ks, ∃ e, G q = [e] ∧ f e = q) →
      ((ks.map G).flatten).map f = ks := by
  intro ks
  induction ks with
  | nil => intro _; rfl
  | cons q qs ih =>
    intro hG
    obtain ⟨e, hq, hk⟩ := hG q (List.mem_cons_self q qs)
    have hrest := ih (fun q1 h1 => hG q1 (List.mem_cons_of_mem q h1))
    simp [hq, hk, hrest]

/-- Rebucketing a list with duplicate-free keys by its own key list
reproduces it, through any transform fixing singletons. -/
theorem buckets_flatten_post {α κ : Type} [DecidableEq κ] (f : α → κ)
    (H : List α → List α) (hH : ∀ x, H [x] = [x]) :
    ∀ g : List α, (g.map f).Nodup →
      ((g.map f).map (fun k => H (bucket f g k))).flatten = g := by
  intro g
  induction g with
  | nil => intro _; rfl
  | cons x g2 ih =>
    intro hnd
    simp only [List.map_cons, List.nodup_cons] at hnd
    obtain ⟨hx, hnd2⟩ := hnd
    have hb0 : bucket f (x :: g2) (f x) = [x] := by
      unfold bucket
      rw [List.filter_cons, if_pos (by simp)]
      rw [filter_none_of_all]
      intro a ha
      simp only [decide_eq_true_eq]
      intro he
      exact hx (he ▸ List.mem_map_of_mem f ha)
    have hbk : List.map (fun k => H (bucket f (x :: g2) k)) (List.map f g2) =
        List.map (fun k => H (bucket f g2 k)) (List.map f g2) := by
      apply List.map_congr_left
      intro k hk
      have : bucket f (x :: g2) k = bucket f g2 k := by
        unfold bucket
        rw [List.filter_cons, if_neg]
        simp only [decide_eq_true_eq]
        intro he
        exact hx (he.symm ▸ hk)
      rw [this]
    simp only [List.map_cons, List.flatten_cons, hb0, hH]
    rw [hbk, ih hnd2]
    rfl

/-- The per-subgroup winner is one of the subgroup's members. -/
theorem pickBestDedup_mem_spec (e : MEntry) (es : List MEntry) :
    ∃ x, pickBestDedup (e :: es) = [x] ∧ x ∈ e :: es := by
  refine ⟨_, rfl, ?_⟩
  refine foldl_choice_mem _ (fun b c => ?_) es e
  by_cases h1 : scoreEntry c > scoreEntry b
  · rw [if_pos h1]; exact Or.inr rfl
  · rw [if_neg h1]
    by_cases h2 : scoreEntry c = scoreEntry b ∧
        (normalizeDedupePath c.requestedPath).length >
          (normalizeDedupePath b.requestedPath).length
    · rw [if_pos h2]; exact Or.inr rfl
    · rw [if_neg h2]; exact Or.inl rfl

/-- On a nonempty folder subgroup the winner is a member with the
subgroup's folder key. -/
theorem pickBestDedup_bucket (g : List MEntry) (fk : String)
    (hfk : fk ∈ g.map folderKey) :
    ∃ x, pickBestDedup (bucket folderKey g fk) = [x] ∧ x ∈ g ∧ folderKey x = fk := by
  obtain ⟨y, hy, hyk⟩ := List.mem_map.1 hfk
  have hyb : y ∈ bucket folderKey g fk := by
    rw [bucket, List.mem_filter]; exact ⟨hy, by simp [hyk]⟩
  cases hb : bucket folderKey g fk with
  | nil => rw [hb] at hyb; cases hyb
  | cons b bs =>
    obtain ⟨x, hx1, hx2⟩ := pickBestDedup_mem_spec b bs
    have hxb : x ∈ bucket folderKey g fk := by rw [hb]; exact hx2
    refine ⟨x, hx1, (List.mem_filter.1 hxb).1, ?_⟩
    have := (List.mem_filter.1 hxb).2
    simpa using this

/-- The split of the coalescing step into passthrough and keyed halves. -/
theorem coalesceStep_split (l : List MEntry) :
    coalesceStep l = l.filter (fun e => variantKey e = none) ++ coalesceKeyed l := rfl

/-- The per-node dedup step as the flattening of its class pieces. -/
theorem dedupStep_pieces (l : List MEntry) :
    dedupStep l = (dedupPieces l).flatten := rfl

/-- Every key offered to a folder subgroup is a folder key of the class. -/
theorem class_fks2_sub (g : List MEntry) :
    ∀ fk ∈ (if (dedupFirst (g.map folderKey)).length > 1 ∧
          "" ∈ dedupFirst (g.map folderKey)
        then (dedupFirst (g.map folderKey)).filter (fun x => x ≠ "")
        else dedupFirst (g.map folderKey)),
      fk ∈ g.map folderKey := by
  intro fk hfk
  have hmem : fk ∈ dedupFirst (g.map folderKey) := by
    split at hfk
    · exact (List.mem_filter.1 hfk).1
    · exact hfk
  exact (dedupFirst_mem fk _).1 hmem

/-- The folder keys of one dedup class output. -/
theorem dedupClassOut_keys (keep : List MEntry) (nk : Option Int × String) :
    (dedupClassOut keep nk).map folderKey =
      (if (dedupFirst ((bucket nameKey keep nk).map folderKey)).length > 1 ∧
          "" ∈ dedupFirst ((bucket nameKey keep nk).map folderKey)
        then (dedupFirst ((bucket nameKey keep nk).map folderKey)).filter
          (fun x => x ≠ "")
        else dedupFirst ((bucket nameKey keep nk).map folderKey)) := by
  simp only [dedupClassOut]
  apply groups_map_key
  intro fk hfk
  obtain ⟨x, h1, h2, h3⟩ := pickBestDedup_bucket _ fk (class_fks2_sub _ fk hfk)
  exact ⟨x, h1, h3⟩

/-- The folder keys of one dedup class output are duplicate-free. -/
theorem dedupClassOut_nodup (keep : List MEntry) (nk : Option Int × String) :
    ((dedupClassOut keep nk).map folderKey).Nodup := by
  rw [dedupClassOut_keys]
  split
  · exact List.Nodup.filter _ (dedupFirst_nodup _)
  · exact dedupFirst_nodup _

/-- A class output containing the blank folder key is a singleton. -/
theorem dedupClassOut_blank (keep : List MEntry) (nk : Option Int × String)
    (h : "" ∈ (dedupClassOut keep nk).map folderKey) :
    (dedupClassOut keep nk).length = 1 := by
  rw [dedupClassOut_keys] at h
  split at h
  · have := (List.mem_filter.1 h).2
    simp at this
  · rename_i hcond
    have hlen1 : (dedupFirst ((bucket nameKey keep nk).map folderKey)).length = 1 := by
      have hpos : 0 < (dedupFirst ((bucket nameKey keep nk).map folderKey)).length :=
        List.length_pos.2 (List.ne_nil_of_mem h)
      by_contra hne
      exact hcond ⟨by omega, h⟩
    have hmap := dedupClassOut_keys keep nk
    rw [if_neg hcond] at hmap
    have h2 : ((dedupClassOut keep nk).map folderKey).length = 1 := by
      rw [hmap, hlen1]
    simpa using h2

/-- Members of a class output belong to the class (hence to `keep`) and
carry the class name key. -/
theorem dedupClassOut_mem (keep : List MEntry) (nk : Option Int × String) :
    ∀ x ∈ dedupClassOut keep nk, x ∈ keep ∧ nameKey x = nk := by
  intro x hx
  simp only [dedupClassOut] at hx
  rw [List.mem_flatten] at hx
  obtain ⟨piece, hp, hxp⟩ := hx
  rw [List.mem_map] at hp
  obtain ⟨fk, hfk, hpe⟩ := hp
  obtain ⟨y, h1, h2, h3⟩ := pickBestDedup_bucket _ fk (class_fks2_sub _ fk hfk)
  have hxy : x = y := by
    rw [← hpe, h1, List.mem_singleton] at hxp
    exact hxp
  subst hxy
  have hf := List.mem_filter.1 h2
  refine ⟨hf.1, ?_⟩
  simpa using hf.2

/-- Members of the dedup output belong to the filtered input. -/
theorem dedupStep_members2 (l : List MEntry) :
    ∀ x ∈ dedupStep l,
      x ∈ l.filter (fun e => pyLower (orEmpty e.filename) ≠ "") := by
  intro x hx
  rw [dedupStep_pieces, List.mem_flatten] at hx
  obtain ⟨piece, hp, hxp⟩ := hx
  rw [dedupPieces, List.mem_map] at hp
  obtain ⟨nk, hnk, hpe⟩ := hp
  exact (dedupClassOut_mem _ nk x (hpe.symm ▸ hxp)).1

/-- The dedup pieces are name-key homogeneous within and disjoint across. -/
theorem dedupStep_tagged (l : List MEntry) :
    TaggedPieces nameKey (dedupPieces l) := by
  constructor
  · intro p hp x hxp y hyp
    rw [dedupPieces, List.mem_map] at hp
    obtain ⟨nk, hnk, hpe⟩ := hp
    have hx := (dedupClassOut_mem _ nk x (hpe.symm ▸ hxp)).2
    have hy := (dedupClassOut_mem _ nk y (hpe.symm ▸ hyp)).2
    rw [hx, hy]
  · rw [dedupPieces, List.pairwise_map]
    refine List.Pairwise.imp ?_ (dedupFirst_nodup _)
    intro nk1 nk2 hne x hx y hy
    have h1 := (dedupClassOut_mem _ nk1 x hx).2
    have h2 := (dedupClassOut_mem _ nk2 y hy).2
    rw [h1, h2]
    exact hne

/-- First-occurrence dedup across a constant block. -/
theorem dedupFirst_const_block {κ : Type} [DecidableEq κ] (k : κ) :
    ∀ (bs zs : List κ), bs ≠ [] → (∀ b ∈ bs, b = k) →
      dedupFirst (bs ++ zs) = k :: (dedupFirst zs).filter (fun x => x ≠ k) := by
  intro bs
  induction bs with
  | nil => intro zs h _; exact absurd rfl h
  | cons b bs2 ih =>
    intro zs _ hall
    have hb : b = k := hall b (List.mem_cons_self b bs2)
    subst hb
    cases hbs : bs2 with
    | nil =>
      simp only [List.cons_append, dedupFirst, List.append_eq, List.nil_append]
    | cons c cs =>
      have hih := ih zs (by rw [hbs]; exact List.cons_ne_nil c cs)
        (fun b2 h2 => hall b2 (List.mem_cons_of_mem _ h2))
      rw [← hbs]
      simp only [List.cons_append, dedupFirst, List.append_eq]
      rw [hih]
      congr 1
      rw [List.filter_cons, if_neg (by simp), filter_all_of_all]
      intro a ha
      exact (List.mem_filter.1 ha).2

/-- Flattened tagged pieces are grouped by the tag. -/
theorem grouped_of_tagged {α κ : Type} [DecidableEq κ] (f : α → κ) :
    ∀ ps : List (List α), TaggedPieces f ps → groupedBy f ps.flatten := by
  intro ps
  induction ps with
  | nil => intro _; rfl
  | cons p rest ih =>
    intro htp
    obtain ⟨hwithin, hpair⟩ := htp
    rw [List.pairwise_cons] at hpair
    have ihrest : groupedBy f rest.flatten :=
      ih ⟨fun q hq => hwithin q (List.mem_cons_of_mem p hq), hpair.2⟩
    cases p with
    | nil => exact ihrest
    | cons x0 p2 =>
      have hconst : ∀ y ∈ x0 :: p2, f y = f x0 :=
        fun y hy => hwithin _ (List.mem_cons_self _ _) y hy x0 (List.mem_cons_self x0 p2)
      have hdisj : ∀ y ∈ rest.flatten, f y ≠ f x0 := by
        intro y hy
        rw [List.mem_flatten] at hy
        obtain ⟨q, hq, hyq⟩ := hy
        intro he
        exact (hpair.1 q hq x0 (List.mem_cons_self x0 p2) y hyq) he.symm
      unfold groupedBy
      rw [List.flatten_cons, List.map_append]
      have hblock := dedupFirst_const_block (f x0) ((x0 :: p2).map f)
        (rest.flatten.map f) (by simp)
        (by
          intro b hb
          rw [List.mem_map] at hb
          obtain ⟨y, hy, he⟩ := hb
          rw [← he]
          exact hconst y hy)
      rw [hblock]
      rw [filter_all_of_all _ _ (by
        intro a ha
        simp only [decide_eq_true_eq]
        intro he
        have hmem := (dedupFirst_mem a _).1 ha
        rw [List.mem_map] at hmem
        obtain ⟨y, hy, hef⟩ := hmem
        exact hdisj y hy (by rw [hef, he]))]
      rw [List.map_cons, List.flatten_cons]
      have hb0 : bucket f ((x0 :: p2) ++ rest.flatten) (f x0) = x0 :: p2 := by
        unfold bucket
        rw [List.filter_append]
        rw [filter_all_of_all _ _ (by
          intro a ha
          simp only [decide_eq_true_eq]
          exact hconst a ha)]
        rw [filter_none_of_all _ _ (by
          intro a ha
          simp only [decide_eq_true_eq]
          exact fun he => hdisj a ha he), List.append_nil]
      rw [hb0]
      have hbk : List.map (bucket f ((x0 :: p2) ++ rest.flatten))
          (dedupFirst (rest.flatten.map f)) =
          List.map (bucket f rest.flatten) (dedupFirst (rest.flatten.map f)) := by
        apply List.map_congr_left
        intro k hk
        unfold bucket
        rw [List.filter_append]
        rw [filter_none_of_all _ _ ?_, List.nil_append]
        intro a ha
        simp only [decide_eq_true_eq]
        intro he
        have hkmem := (dedupFirst_mem k _).1 hk
        rw [List.mem_map] at hkmem
        obtain ⟨y, hy, hek⟩ := hkmem
        exact hdisj y hy (by rw [hek, ← he, hconst a ha])
      rw [hbk]
      have hrg := ihrest
      unfold groupedBy at hrg
      rw [hrg]

/-- The bucket of a flattened tagged family at one of its tags is the
corresponding piece. -/
theorem bucket_flatten_tagged {α κ : Type} [DecidableEq κ] (f : α → κ) :
    ∀ (ps : List (List α)), TaggedPieces f ps → ∀ p ∈ ps, ∀ x ∈ p,
      bucket f ps.flatten (f x) = p := by
  intro ps
  induction ps with
  | nil => intro _ p hp; cases hp
  | cons q rest ih =>
    intro htp p hpm x hx
    obtain ⟨hw, hp⟩ := htp
    rw [List.pairwise_cons] at hp
    rw [List.flatten_cons]
    unfold bucket
    rw [List.filter_append]
    rcases List.mem_cons.1 hpm with heq | hmem
    · subst heq
      rw [filter_all_of_all _ _ (by
        intro a ha
        simp only [decide_eq_true_eq]
        exact hw p (List.mem_cons_self p rest) a ha x hx)]
      rw [filter_none_of_all _ _ (by
        intro a ha
        simp only [decide_eq_true_eq]
        rw [List.mem_flatten] at ha
        obtain ⟨r, hr, har⟩ := ha
        intro he
        exact (hp.1 r hr x hx a har) he.symm), List.append_nil]
    · rw [filter_none_of_all _ _ (by
        intro a ha
        simp only [decide_eq_true_eq]
        intro he
        exact (hp.1 p hmem a ha x hx) he), List.nil_append]
      exact ih ⟨fun r hr => hw r (List.mem_cons_of_mem q hr), hp.2⟩ p hmem x hx

/-- The final dedup yields a sublist of its input. -/
theorem globalDedupAux_sublist : ∀ (d : List MEntry)
    (seen : List (Option String × Option Int)), List.Sublist (globalDedupAux seen d) d := by
  intro d
  induction d with
  | nil => intro seen; exact List.Sublist.refl []
  | cons e es ih =>
    intro seen
    unfold globalDedupAux
    split
    · exact (ih seen).cons e
    · exact (ih _).cons₂ e

/-- The final dedup splits over append, threading the seen set. -/
theorem globalDedupAux_append : ∀ (xs : List MEntry)
    (seen : List (Option String × Option Int)) (ys : List MEntry),
    globalDedupAux seen (xs ++ ys) =
      globalDedupAux seen xs ++ globalDedupAux (seenAfter seen xs) ys := by
  intro xs
  induction xs with
  | nil => intro seen ys; rfl
  | cons e es ih =>
    intro seen ys
    simp only [List.cons_append]
    by_cases h : globalKey e ∈ seen
    · simp only [globalDedupAux, seenAfter, List.foldl_cons, if_pos h]
      exact ih seen ys
    · simp only [globalDedupAux, seenAfter, List.foldl_cons, if_neg h, List.cons_append]
      congr 1
      exact ih _ ys

/-- The final dedup emits duplicate-free keys, none of them seen. -/
theorem globalDedupAux_keys : ∀ (d : List MEntry)
    (seen : List (Option String × Option Int)),
    ((globalDedupAux seen d).map globalKey).Nodup ∧
    ∀ k ∈ (globalDedupAux seen d).map globalKey, k ∉ seen := by
  intro d
  induction d with
  | nil => intro seen; exact ⟨List.nodup_nil, by intro k hk; cases hk⟩
  | cons e es ih =>
    intro seen
    unfold globalDedupAux
    by_cases h : globalKey e ∈ seen
    · rw [if_pos h]; exact ih seen
    · rw [if_neg h]
      obtain ⟨ihn, ihs⟩ := ih (globalKey e :: seen)
      constructor
      · rw [List.map_cons, List.nodup_cons]
        exact ⟨fun hmem => (ihs _ hmem) (List.mem_cons_self _ _), ihn⟩
      · intro k hk
        rw [List.map_cons, List.mem_cons] at hk
        rcases hk with heq | hmem
        · subst heq; exact h
        · exact fun hs => (ihs k hmem) (List.mem_cons_of_mem _ hs)

/-- The final dedup is the identity on key-duplicate-free unseen input. -/
theorem globalDedupAux_id : ∀ (d : List MEntry)
    (seen : List (Option String × Option Int)),
    (d.map globalKey).Nodup → (∀ x ∈ d, globalKey x ∉ seen) →
    globalDedupAux seen d = d := by
  intro d
  induction d with
  | nil => intro seen _ _; rfl
  | cons e es ih =>
    intro seen hnd hseen
    rw [List.map_cons, List.nodup_cons] at hnd
    unfold globalDedupAux
    rw [if_neg (hseen e (List.mem_cons_self e es))]
    congr 1
    apply ih _ hnd.2
    intro x hx
    rw [List.mem_cons]
    rintro (heq | hmem)
    · exact hnd.1 (heq ▸ List.mem_map_of_mem globalKey hx)
    · exact hseen x (List.mem_cons_of_mem e hx) hmem

/-- The final dedup of flattened pieces is a flattening of piecewise
sublists. -/
theorem globalDedupAux_pieces : ∀ (ps : List (List MEntry))
    (seen : List (Option String × Option Int)),
    ∃ ps2 : List (List MEntry),
      globalDedupAux seen ps.flatten = ps2.flatten ∧
      List.Forall₂ (fun a b => List.Sublist a b) ps2 ps := by
  intro ps
  induction ps with
  | nil => intro seen; exact ⟨[], rfl, List.Forall₂.nil⟩
  | cons p rest ih =>
    intro seen
    rw [List.flatten_cons, globalDedupAux_append]
    obtain ⟨ps2, he, hf⟩ := ih (seenAfter seen p)
    exact ⟨globalDedupAux seen p :: ps2, by rw [List.flatten_cons, he],
      List.Forall₂.cons (globalDedupAux_sublist p seen) hf⟩

/-- A member of the left list of a `Forall₂` has a related right member. -/
theorem forall2_mem_left {α β : Type} {R : α → β → Prop} :
    ∀ {l1 : List α} {l2 : List β}, List.Forall₂ R l1 l2 →
      ∀ a ∈ l1, ∃ b ∈ l2, R a b := by
  intro l1 l2 h
  induction h with
  | nil => intro a ha; cases ha
  | cons hr ht ih =>
    intro a ha
    rcases List.mem_cons.1 ha with heq | hmem
    · exact ⟨_, List.mem_cons_self _ _, heq ▸ hr⟩
    · obtain ⟨b, hb, hrb⟩ := ih a hmem
      exact ⟨b, List.mem_cons_of_mem _ hb, hrb⟩

/-- Transport a pairwise property backwards along a `Forall₂`. -/
theorem pairwise_along_forall2 {α β : Type} {R : α → β → Prop}
    {S : β → β → Prop} {T : α → α → Prop}
    (hcomp : ∀ a b c d, R a b → R c d → S b d → T a c) :
    ∀ {l1 : List α} {l2 : List β}, List.Forall₂ R l1 l2 →
      l2.Pairwise S → l1.Pairwise T := by
  intro l1 l2 hf
  induction hf with
  | nil => intro _; exact List.Pairwise.nil
  | cons hr ht ih =>
    intro hp
    rw [List.pairwise_cons] at hp ⊢
    refine ⟨?_, ih hp.2⟩
    intro a2 ha2
    obtain ⟨b2, hb2, hr2⟩ := forall2_mem_left ht a2 ha2
    exact hcomp _ _ _ _ hr hr2 (hp.1 b2 hb2)

/-- Tagged pieces remain tagged under piecewise sublists. -/
theorem TaggedPieces_mono {α κ : Type} (f : α → κ) :
    ∀ (ps2 ps : List (List α)), List.Forall₂ (fun a b => List.Sublist a b) ps2 ps →
      TaggedPieces f ps → TaggedPieces f ps2 := by
  intro ps2 ps hf htp
  obtain ⟨hw, hp⟩ := htp
  constructor
  · intro p2 hp2 x hx y hy
    obtain ⟨p, hpm, hsub⟩ := forall2_mem_left hf p2 hp2
    exact hw p hpm x (hsub.subset hx) y (hsub.subset hy)
  · refine pairwise_along_forall2 ?_ hf hp
    intro a b c d hab hcd hbd x hx y hy
    exact hbd x (hab.subset hx) y (hcd.subset hy)

/-- URL donation never touches the filename. -/
theorem mergeUrlDonation_filename (g : List MEntry) (b : MEntry) :
    (mergeUrlDonation g b).filename = b.filename := by
  unfold mergeUrlDonation
  split
  · rfl
  · split <;> rfl

/-- Folder donation never touches the filename. -/
theorem mergeFolderDonation_filename (g : List MEntry) (b : MEntry) :
    (mergeFolderDonation g b).filename = b.filename := by
  unfold mergeFolderDonation
  split
  · rfl
  · split <;> rfl

/-- Requested-path selection never touches the filename. -/
theorem mergeRequestedPath_filename (g : List MEntry) (b : MEntry) :
    (mergeRequestedPath g b).filename = b.filename := by
  unfold mergeRequestedPath
  split <;> rfl

/-- The merged reference carries the filename of one group member. -/
theorem mergeVariantGroup_filename (e : MEntry) (es : List MEntry) :
    ∃ x ∈ e :: es, (mergeVariantGroup e es).filename = x.filename := by
  refine ⟨pickMaxFirst preferVariantKey e es, pickMaxFirst_mem _ e es, ?_⟩
  unfold mergeVariantGroup
  rw [mergeRequestedPath_filename, mergeFolderDonation_filename,
    mergeUrlDonation_filename]

/-- Every coalesced reference carries the filename of a group member. -/
theorem coalesceGroup_filename : ∀ (g : List MEntry), ∀ y ∈ coalesceGroup g,
    ∃ x ∈ g, y.filename = x.filename
  | [], y, hy => absurd hy (List.not_mem_nil y)
  | [e], y, hy => by
    have he : y = e := List.mem_singleton.1 hy
    exact ⟨e, List.mem_singleton.2 rfl, by rw [he]⟩
  | e :: e2 :: es, y, hy => by
    have he : y = mergeVariantGroup e (e2 :: es) := List.mem_singleton.1 hy
    subst he
    exact mergeVariantGroup_filename e (e2 :: es)

/-- Every reference the coalescing step outputs carries the filename of an
input reference. -/
theorem coalesceStep_prov (l : List MEntry) :
    ∀ y ∈ coalesceStep l, ∃ x ∈ l, y.filename = x.filename := by
  intro y hy
  rw [coalesceStep_split, List.mem_append] at hy
  rcases hy with hy | hy
  · exact ⟨y, (List.mem_filter.1 hy).1, rfl⟩
  · rw [coalesceKeyed, List.mem_flatten] at hy
    obtain ⟨piece, hp, hyp⟩ := hy
    rw [List.mem_map] at hp
    obtain ⟨q, hq, hpe⟩ := hp
    obtain ⟨x, hxg, he⟩ := coalesceGroup_filename _ y (hpe.symm ▸ hyp)
    have hxw := (List.mem_filter.1 hxg).1
    exact ⟨x, (List.mem_filter.1 hxw).1, he⟩

/-- Each group of the coalescing loop contributes one reference carrying
the group's key. -/
theorem coalesce_hG (l : List MEntry) :
    ∀ q ∈ dedupFirst ((l.filter (fun e => variantKey e ≠ none)).map variantKey),
      ∃ e, coalesceGroup
        (bucket variantKey (l.filter (fun e => variantKey e ≠ none)) q) = [e] ∧
        variantKey e = q := by
  intro q hqks
  have hq1 : q ∈ (l.filter (fun e => variantKey e ≠ none)).map variantKey :=
    (dedupFirst_mem q _).1 hqks
  obtain ⟨x, hxw, hxk⟩ := List.mem_map.1 hq1
  have hxnn : variantKey x ≠ none := by
    have := (List.mem_filter.1 hxw).2
    simpa using this
  obtain ⟨kq, hkq⟩ : ∃ kq, q = some kq := by
    cases hq2 : variantKey x with
    | none => exact absurd hq2 hxnn
    | some kk => exact ⟨kk, by rw [← hxk, hq2]⟩
  subst hkq
  have hxb : x ∈ bucket variantKey (l.filter (fun e => variantKey e ≠ none)) (some kq) := by
    rw [bucket, List.mem_filter]
    exact ⟨hxw, by simp [hxk]⟩
  have hallb : ∀ y ∈ bucket variantKey (l.filter (fun e => variantKey e ≠ none)) (some kq),
      variantKey y = some kq := by
    intro y hy
    have := (List.mem_filter.1 hy).2
    simpa using this
  exact coalesceGroup_key _ kq (List.ne_nil_of_mem hxb) hallb

/-- The keys of the keyed half of the coalescing step. -/
theorem coalesceKeyed_keys (l : List MEntry) :
    (coalesceKeyed l).map variantKey =
      dedupFirst ((l.filter (fun e => variantKey e ≠ none)).map variantKey) :=
  groups_map_key variantKey _ _ (coalesce_hG l)

/-- The keyed half of the coalescing step has duplicate-free keys. -/
theorem coalesceKeyed_nodup (l : List MEntry) :
    ((coalesceKeyed l).map variantKey).Nodup := by
  rw [coalesceKeyed_keys]
  exact dedupFirst_nodup _

/-- Every reference of the keyed half carries a present key. -/
theorem coalesceKeyed_keyed (l : List MEntry) :
    ∀ y ∈ coalesceKeyed l, variantKey y ≠ none := by
  intro y hy
  have hmem : variantKey y ∈ (coalesceKeyed l).map variantKey :=
    List.mem_map_of_mem variantKey hy
  rw [coalesceKeyed_keys] at hmem
  have := (dedupFirst_mem _ _).1 hmem
  rw [List.mem_map] at this
  obtain ⟨x, hx, he⟩ := this
  have hxnn : variantKey x ≠ none := by
    have := (List.mem_filter.1 hx).2
    simpa using this
  rw [← he]
  exact hxnn

/-- An ASCII-lowercased string is empty only if the string is. -/
theorem pyLower_eq_empty (s : String) (h : pyLower s = "") : s = "" := by
  have h2 : s.data.map lowerChar = ([] : List Char) := congrArg String.data h
  have h3 : s.data = [] := by
    cases hd : s.data with
    | nil => rfl
    | cons c cs => rw [hd] at h2; cases h2
  cases s
  simp at h3
  rw [h3]

/-- A reference has a present variant key exactly when its stripped
filename is nonempty. -/
theorem variantKey_ne_none_iff (e : MEntry) :
    variantKey e ≠ none ↔ pyStrip (orEmpty e.filename) ≠ "" := by
  unfold variantKey
  by_cases h : pyStrip (orEmpty e.filename) = "" <;> simp [h]

/-- A keyed reference has a nonempty lowercased filename. -/
theorem keyed_filename_ne (e : MEntry) (h : variantKey e ≠ none) :
    pyLower (orEmpty e.filename) ≠ "" := by
  intro hl
  have h0 : orEmpty e.filename = "" := pyLower_eq_empty _ hl
  apply h
  unfold variantKey
  rw [h0]
  rfl

/-- Precision normalization is the identity on non-SVDQ references. -/
theorem precisionStep_id (pref : String) (d : List MEntry)
    (h : ∀ e ∈ d, isNunchakuSvdqName e.filename = false) :
    precisionStep pref d = d := by
  unfold precisionStep
  have hall : ∀ e ∈ d, precisionAdjust pref e = e := by
    intro e he
    unfold precisionAdjust
    rw [if_pos (by simp [h e he])]
  calc d.map (precisionAdjust pref) = d.map id := List.map_congr_left hall
    _ = d := List.map_id d

/-- The coalescing step is the identity on keyed, key-duplicate-free
lists. -/
theorem coalesceStep_id (R : List MEntry)
    (hk : ∀ x ∈ R, variantKey x ≠ none)
    (hnd : (R.map variantKey).Nodup) :
    coalesceStep R = R := by
  rw [coalesceStep_split]
  rw [filter_none_of_all _ _ (by
    intro a ha
    simp only [decide_eq_true_eq]
    exact hk a ha), List.nil_append]
  unfold coalesceKeyed
  rw [filter_all_of_all _ _ (by
    intro a ha
    simp only [decide_eq_true_eq]
    exact hk a ha)]
  rw [dedupFirst_eq_self_of_nodup _ hnd]
  exact buckets_flatten_post variantKey coalesceGroup (fun x => rfl) R hnd

/-- The per-node dedup step is the identity on grouped lists with
duplicate-free per-class folder keys. -/
theorem dedupStep_id (R : List MEntry)
    (hfn : ∀ x ∈ R, pyLower (orEmpty x.filename) ≠ "")
    (hgrp : groupedBy nameKey R)
    (hc1 : ∀ nk, ((bucket nameKey R nk).map folderKey).Nodup)
    (hc2 : ∀ nk, "" ∈ (bucket nameKey R nk).map folderKey →
      (bucket nameKey R nk).length = 1) :
    dedupStep R = R := by
  rw [dedupStep_pieces]
  unfold dedupPieces
  rw [filter_all_of_all _ _ (by
    intro a ha
    simp only [decide_eq_true_eq]
    exact hfn a ha)]
  have hclass : ∀ nk ∈ dedupFirst (R.map nameKey),
      dedupClassOut R nk = bucket nameKey R nk := by
    intro nk hnk
    simp only [dedupClassOut]
    have hfks : dedupFirst ((bucket nameKey R nk).map folderKey) =
        (bucket nameKey R nk).map folderKey :=
      dedupFirst_eq_self_of_nodup _ (hc1 nk)
    rw [hfks]
    have hfks2 : (if ((bucket nameKey R nk).map folderKey).length > 1 ∧
        "" ∈ (bucket nameKey R nk).map folderKey
        then ((bucket nameKey R nk).map folderKey).filter (fun x => x ≠ "")
        else (bucket nameKey R nk).map folderKey) =
        (bucket nameKey R nk).map folderKey := by
      split
      · rename_i hcond
        have hlen : ((bucket nameKey R nk).map folderKey).length = 1 := by
          rw [List.length_map]
          exact hc2 nk hcond.2
        exact absurd hcond.1 (by omega)
      · rfl
    rw [hfks2]
    exact buckets_flatten_post folderKey pickBestDedup (fun x => rfl) _ (hc1 nk)
  rw [List.map_congr_left hclass]
  exact hgrp

/-- Classes of the dedup output: duplicate-free folder keys, and a class
holding the blank folder key is a singleton. -/
theorem dedupStep_class (d : List MEntry) (nk : Option Int × String) :
    ((bucket nameKey (dedupStep d) nk).map folderKey).Nodup ∧
    ("" ∈ (bucket nameKey (dedupStep d) nk).map folderKey →
      (bucket nameKey (dedupStep d) nk).length = 1) := by
  cases hb : bucket nameKey (dedupStep d) nk with
  | nil => exact ⟨by simp, by intro h; simp at h⟩
  | cons x xs =>
    have hx : x ∈ bucket nameKey (dedupStep d) nk := by
      rw [hb]; exact List.mem_cons_self x xs
    have hx2 := List.mem_filter.1 hx
    have hnk : nameKey x = nk := by simpa using hx2.2
    have hxd := hx2.1
    rw [dedupStep_pieces, List.mem_flatten] at hxd
    obtain ⟨p, hp, hxp⟩ := hxd
    have hp2 := hp
    rw [dedupPieces, List.mem_map] at hp2
    obtain ⟨nk0, hnk0, hpe⟩ := hp2
    have hbp : bucket nameKey ((dedupPieces d).flatten) (nameKey x) = p :=
      bucket_flatten_tagged nameKey (dedupPieces d) (dedupStep_tagged d) p hp x hxp
    have hbp2 : bucket nameKey (dedupStep d) nk = p := by
      rw [dedupStep_pieces, ← hnk]
      exact hbp
    have hpxs : p = x :: xs := by rw [← hbp2, hb]
    subst hpxs
    constructor
    · rw [← hpe]
      exact dedupClassOut_nodup _ nk0
    · intro h
      rw [← hpe] at h ⊢
      exact dedupClassOut_blank _ nk0 h

/-- C5: CORRECTED.  The reconciliation pipeline is idempotent on reference
lists that contain no Nunchaku-SVDQ filename (so the precision rewrite is
inert) and no whitespace-only filename: a second pass over the pipeline's
own output returns it unchanged.  Without the SVDQ restriction idempotence
fails, because the precision rewrite runs after variant coalescing and can
re-introduce key collisions (see the counterexample). -/
theorem C5_reconcile_idempotent (pref : String) (l : List MEntry)
    (hsvdq : ∀ e ∈ l, isNunchakuSvdqName e.filename = false)
    (hblank : ∀ e ∈ l, pyStrip (orEmpty e.filename) = "" → orEmpty e.filename = "") :
    reconcile pref (reconcile pref l) = reconcile pref l := by
  have hCsvdq : ∀ y ∈ coalesceStep l, isNunchakuSvdqName y.filename = false := by
    intro y hy
    obtain ⟨x, hx, he⟩ := coalesceStep_prov l y hy
    rw [he]
    exact hsvdq x hx
  have hkeep : (coalesceStep l).filter (fun e => pyLower (orEmpty e.filename) ≠ "") =
      coalesceKeyed l := by
    rw [coalesceStep_split, List.filter_append]
    rw [filter_none_of_all _ _ ?hpass, List.nil_append, filter_all_of_all _ _ ?hkey]
    case hpass =>
      intro a ha
      have ha2 := List.mem_filter.1 ha
      have hnone : variantKey a = none := by simpa using ha2.2
      have hstrip : pyStrip (orEmpty a.filename) = "" := by
        by_contra hne
        exact ((variantKey_ne_none_iff a).2 hne) hnone
      have hfe : orEmpty a.filename = "" := hblank a ha2.1 hstrip
      simp only [decide_eq_true_eq]
      intro hcon
      exact hcon (by rw [hfe]; rfl)
    case hkey =>
      intro a ha
      simp only [decide_eq_true_eq]
      exact keyed_filename_ne a (coalesceKeyed_keyed l a ha)
  have hDsub : ∀ x ∈ dedupStep (coalesceStep l), x ∈ coalesceKeyed l := by
    intro x hx
    have hm := dedupStep_members2 _ x hx
    rw [hkeep] at hm
    exact hm
  have hK1nd := coalesceKeyed_nodup l
  have hK1inj := List.inj_on_of_nodup_map hK1nd
  have hDtag := dedupStep_tagged (coalesceStep l)
  have hDnodup : (dedupStep (coalesceStep l)).Nodup := by
    rw [dedupStep_pieces]
    rw [List.nodup_flatten]
    constructor
    · intro p hp
      rw [dedupPieces, List.mem_map] at hp
      obtain ⟨nk, hnk, hpe⟩ := hp
      have hnd := dedupClassOut_nodup
        ((coalesceStep l).filter (fun e => pyLower (orEmpty e.filename) ≠ "")) nk
      rw [hpe] at hnd
      exact List.Nodup.of_map _ hnd
    · refine List.Pairwise.imp ?_ hDtag.2
      intro p q hpq a hap haq
      exact (hpq a hap a haq) rfl
  have hDkeysnd : ((dedupStep (coalesceStep l)).map variantKey).Nodup := by
    refine List.Nodup.map_on ?_ hDnodup
    intro x hx y hy he
    exact hK1inj (hDsub x hx) (hDsub y hy) he
  have hDkeyed : ∀ x ∈ dedupStep (coalesceStep l), variantKey x ≠ none :=
    fun x hx => coalesceKeyed_keyed l x (hDsub x hx)
  have hDsvdq : ∀ x ∈ dedupStep (coalesceStep l),
      isNunchakuSvdqName x.filename = false := by
    intro x hx
    have h1 := dedupStep_members2 _ x hx
    exact hCsvdq x (List.mem_filter.1 h1).1
  have hprec1 : precisionStep pref (dedupStep (coalesceStep l)) =
      dedupStep (coalesceStep l) := precisionStep_id pref _ hDsvdq
  have hRdef : reconcile pref l = globalDedup (dedupStep (coalesceStep l)) := by
    unfold reconcile
    rw [hprec1]
  have hRsublist : List.Sublist (reconcile pref l) (dedupStep (coalesceStep l)) := by
    rw [hRdef]
    exact globalDedupAux_sublist _ []
  have hRmem : ∀ x ∈ reconcile pref l, x ∈ dedupStep (coalesceStep l) :=
    fun x hx => hRsublist.subset hx
  have hRkeysnd : ((reconcile pref l).map variantKey).Nodup :=
    hDkeysnd.sublist (hRsublist.map variantKey)
  have hRkeyed : ∀ x ∈ reconcile pref l, variantKey x ≠ none :=
    fun x hx => hDkeyed x (hRmem x hx)
  have hRfn : ∀ x ∈ reconcile pref l, pyLower (orEmpty x.filename) ≠ "" :=
    fun x hx => keyed_filename_ne x (hRkeyed x hx)
  have hRsvdq : ∀ x ∈ reconcile pref l, isNunchakuSvdqName x.filename = false :=
    fun x hx => hDsvdq x (hRmem x hx)
  have hRgrouped : groupedBy nameKey (reconcile pref l) := by
    rw [hRdef]
    unfold globalDedup
    rw [dedupStep_pieces]
    obtain ⟨ps2, he, hf⟩ := globalDedupAux_pieces (dedupPieces (coalesceStep l)) []
    rw [he]
    exact grouped_of_tagged nameKey ps2 (TaggedPieces_mono nameKey ps2 _ hf hDtag)
  have hRbsub : ∀ nk, List.Sublist (bucket nameKey (reconcile pref l) nk)
      (bucket nameKey (dedupStep (coalesceStep l)) nk) := by
    intro nk
    exact hRsublist.filter _
  have hRc1 : ∀ nk, ((bucket nameKey (reconcile pref l) nk).map folderKey).Nodup := by
    intro nk
    exact (dedupStep_class _ nk).1.sublist ((hRbsub nk).map folderKey)
  have hRc2 : ∀ nk, "" ∈ (bucket nameKey (reconcile pref l) nk).map folderKey →
      (bucket nameKey (reconcile pref l) nk).length = 1 := by
    intro nk h
    have hmm : "" ∈ (bucket nameKey (dedupStep (coalesceStep l)) nk).map folderKey :=
      ((hRbsub nk).map folderKey).subset h
    have hlen := (dedupStep_class _ nk).2 hmm
    have hle := ((hRbsub nk).map folderKey).length_le
    have hpos : 0 < (bucket nameKey (reconcile pref l) nk).length := by
      refine List.length_pos.2 ?_
      intro hnil
      rw [hnil] at h
      simp at h
    have hlmap : ((bucket nameKey (dedupStep (coalesceStep l)) nk).map folderKey).length = 1 := by
      rw [List.length_map]
      exact hlen
    have hlmap2 := List.length_map (bucket nameKey (reconcile pref l) nk) folderKey
    omega
  have hB1 : coalesceStep (reconcile pref l) = reconcile pref l :=
    coalesceStep_id _ hRkeyed hRkeysnd
  have hB2 : dedupStep (reconcile pref l) = reconcile pref l :=
    dedupStep_id _ hRfn hRgrouped hRc1 hRc2
  have hprec2 : precisionStep pref (reconcile pref l) = reconcile pref l :=
    precisionStep_id pref _ hRsvdq
  have hB3 : globalDedup (reconcile pref l) = reconcile pref l := by
    rw [hRdef]
    unfold globalDedup
    apply globalDedupAux_id
    · exact (globalDedupAux_keys (dedupStep (coalesceStep l)) []).1
    · intro x _
      exact List.not_mem_nil _
  calc reconcile pref (reconcile pref l)
      = globalDedup (precisionStep pref (dedupStep (coalesceStep (reconcile pref l)))) := rfl
    _ = globalDedup (precisionStep pref (dedupStep (reconcile pref l))) := by rw [hB1]
    _ = globalDedup (precisionStep pref (reconcile pref l)) := by rw [hB2]
    _ = globalDedup (reconcile pref l) := by rw [hprec2]
    _ = reconcile pref l := hB3

/-- C5 witness: the Scenario-1 pair (no SVDQ names, no blank filenames) is
a fixed point of a second reconciliation pass. -/
theorem C5_reconcile_witness :
    reconcile "int4" (reconcile "int4" [cw1, cw2]) = reconcile "int4" [cw1, cw2] :=
  C5_reconcile_idempotent "int4" [cw1, cw2] (by decide) (by decide)

/-- C5 counterexample: with an SVDQ pair whose precision rewrite collides
with an existing variant key, one pass leaves two references and a second
pass coalesces them — the pipeline is not idempotent. -/
theorem C5_not_idempotent_counterexample :
    reconcile "int4" (reconcile "int4" [ceSvdq1, ceSvdq2]) ≠
      reconcile "int4" [ceSvdq1, ceSvdq2] ∧
    (reconcile "int4" [ceSvdq1, ceSvdq2]).length = 2 ∧
    (reconcile "int4" (reconcile "int4" [ceSvdq1, ceSvdq2])).length = 1 :=
  ⟨by decide, by decide, by decide⟩

end ModelDiscovery
